import Mathlib

/-!
# x-compositing-wm: window registry, stacking, focus and animation

A shallow embedding of the window registry of `src/main.c` (the `my_wm_t`
aggregate, its `window_t` records, the event callbacks and the animator of
`render_window`) and of the helper registry of `src/wm.h` (`wm_t`,
`wm_window_t`).

Conventions of the embedding:

* C `float` values are exact rationals (`ℚ`); `unsigned` values are naturals
  below `2 ^ 32`, `uint64_t` values naturals below `2 ^ 64` with explicit
  wrap-around; `int` flags (`exists`, `visible`, `maximized`) are integers that
  are tested against zero, as the C code does.
* An array together with its element count is a list; `window_count` is the
  length of `windows`.
* A function that indexes an array returns `none` when the index is outside
  the array (the C program has no defined behaviour there).
* Calls into Xlib are recorded as the list of requests that `wm.h` was asked
  to issue, by the window index they were issued for; OpenGL draw state is not
  part of the model, and the object names that `glGen*` hands out are inputs.
-/

set_option linter.unusedVariables false

namespace XCompositingWM

/-! ## Machine integers -/

/-- Largest `unsigned` value; the result of converting `-1` to `unsigned`. -/
def UINT_MAX : Nat := 4294967295

/-- Largest `uint64_t` value. -/
def UINT64_MAX : Nat := 18446744073709551615

/-- Conversion `unsigned -> int` (two's complement). -/
def to_int (u : Nat) : Int :=
  if u % 2 ^ 32 < 2 ^ 31 then ((u % 2 ^ 32 : Nat) : Int) else ((u % 2 ^ 32 : Nat) : Int) - 2 ^ 32

/-- Conversion `int -> unsigned` (reduction modulo `2 ^ 32`). -/
def to_unsigned (i : Int) : Nat := (i % 2 ^ 32).toNat

/-- The loop `for (int i = start; i < start + n; i++) s = body i s`. -/
def forLoop {σ : Type} (body : Nat → σ → σ) : Nat → Nat → σ → σ
  | 0, _, s => s
  | n + 1, i, s => forLoop body n (i + 1) (body i s)

/-! ## Data model of `wm.h` -/

/-- The struct `cwm_window_internal_t` of `cwm.h`. -/
structure cwm_window_internal_t where
  pixmap : Nat
deriving DecidableEq

/-- The struct `wm_window_t` of `wm.h`; `internal = none` is the null pointer. -/
structure wm_window_t where
  exists_ : Int
  window : Nat
  visible : Int
  x : Int
  y : Int
  width : Int
  height : Int
  internal : Option cwm_window_internal_t
deriving DecidableEq

/-- Requests that `main.c` makes through the window helpers of `wm.h`. -/
inductive wm_call where
  | focus_window (window_id : Nat)
  | move_window (window_id : Nat) (x y width height : ℚ)
  | close_window (window_id : Nat)
deriving DecidableEq

/-- The struct `wm_t` of `wm.h`. The display connection is represented by what
was sent over it: `calls` (latest first) and the value last stored in the
`_NET_CLIENT_LIST` property. -/
structure wm_t where
  width : Nat
  height : Nat
  windows : List wm_window_t
  event_blacklisted_windows : List Nat
  calls : List wm_call
  client_list : List Nat
deriving DecidableEq

/-- Preprocessor state of a translation unit that includes `wm.h`: the value
given to `DEBUGGING` before the include, when there is one. -/
structure build_t where
  DEBUGGING : Option Int
deriving DecidableEq

/-! ## Data model of `main.c` -/

/-- The struct `window_t` of `main.c`. -/
structure window_t where
  internal_id : Nat
  exists_ : Int
  visible : Int
  farness : Nat
  opacity : ℚ
  x : ℚ
  y : ℚ
  width : ℚ
  height : ℚ
  visual_opacity : ℚ
  visual_x : ℚ
  visual_y : ℚ
  visual_width : ℚ
  visual_height : ℚ
  visual_shadow_opacity : ℚ
  visual_shadow_radius : ℚ
  visual_shadow_y_offset : ℚ
  maximized : Int
  unmaximized_x : ℚ
  unmaximized_y : ℚ
  unmaximized_width : ℚ
  unmaximized_height : ℚ
  always_on_top : Int
  index_count : Int
  vao : Nat
  vbo : Nat
  ibo : Nat

/-- The enum `action_t` of `main.c`. -/
inductive action_t where
  | ACTION_NONE
  | ACTION_MOVE
  | ACTION_RESIZE
deriving DecidableEq

/-- The part of `cwm_t` that the callbacks of `main.c` write. -/
structure cwm_t where
  vsync : Int
deriving DecidableEq

/-- The struct `my_wm_t` of `main.c` (without its shader and uniform names). -/
structure my_wm_t where
  wm : wm_t
  cwm : cwm_t
  x_resolution : Int
  y_resolution : Int
  running : Int
  windows : List window_t
  focused_window_id : Nat
  focused_window_x : ℚ
  focused_window_y : ℚ
  action : action_t
  monitor_xs : List ℚ
  monitor_ys : List ℚ
  monitor_widths : List ℚ
  monitor_heights : List ℚ

/-- The field `window_count`. -/
def my_wm_t.window_count (wm : my_wm_t) : Nat := wm.windows.length

/-- A record as `memset(window, 0, sizeof(*window))` leaves it. -/
def window_zero : window_t :=
  { internal_id := 0, exists_ := 0, visible := 0, farness := 0, opacity := 0,
    x := 0, y := 0, width := 0, height := 0,
    visual_opacity := 0, visual_x := 0, visual_y := 0, visual_width := 0, visual_height := 0,
    visual_shadow_opacity := 0, visual_shadow_radius := 0, visual_shadow_y_offset := 0,
    maximized := 0, unmaximized_x := 0, unmaximized_y := 0,
    unmaximized_width := 0, unmaximized_height := 0,
    always_on_top := 0, index_count := 0, vao := 0, vbo := 0, ibo := 0 }

/-! ## Helpers of `wm.h` used by `main.c` -/

/-- The function `wm_focus_window`: input focus and raise are requested for the window. -/
def wm_focus_window (wm : wm_t) (window_id : Nat) : wm_t :=
  { wm with calls := wm_call.focus_window window_id :: wm.calls }

/-- The function `wm_move_window`: a move/resize is requested for the window. -/
def wm_move_window (wm : wm_t) (window_id : Nat) (x y width height : ℚ) : wm_t :=
  { wm with calls := wm_call.move_window window_id x y width height :: wm.calls }

/-- The function `wm_close_window`: the window is asked to close. -/
def wm_close_window (wm : wm_t) (window_id : Nat) : wm_t :=
  { wm with calls := wm_call.close_window window_id :: wm.calls }

/-! ## `main.c`: lookup, focus and unfocus -/

/-- The scan of `window_internal_id_to_index`, at index `i` with `ws` the
records from `i` on. Returns the index of the first record that exists and has
the id, and `(unsigned) -1` when the scan runs off the end. -/
def window_internal_id_to_index_from (internal_id : Nat) : List window_t → Nat → Nat
  | [], _ => UINT_MAX
  | w :: rest, i =>
    if w.exists_ ≠ 0 ∧ w.internal_id = internal_id then i
    else window_internal_id_to_index_from internal_id rest (i + 1)

/-- The function `window_internal_id_to_index` on the record array. -/
def window_internal_id_to_index_list (ws : List window_t) (internal_id : Nat) : Nat :=
  window_internal_id_to_index_from internal_id ws 0

/-- The function `window_internal_id_to_index(wm, internal_id)`. -/
def window_internal_id_to_index (wm : my_wm_t) (internal_id : Nat) : Nat :=
  window_internal_id_to_index_list wm.windows internal_id

/-- Body of the first loop of `focus_window`: `window->farness++` on a
`uint64_t`. -/
def farness_increment (i : Nat) (ws : List window_t) : List window_t :=
  match ws[i]? with
  | some w => ws.set i { w with farness := (w.farness + 1) % 2 ^ 64 }
  | none => ws

/-- The statement `wm->windows[window_id].farness = 0`. -/
def farness_clear (window_id : Nat) (ws : List window_t) : List window_t :=
  match ws[window_id]? with
  | some w => ws.set window_id { w with farness := 0 }
  | none => ws

/-- Body of the inner sort loop of `focus_window`: records `i` and `j` are
exchanged through `temp` when record `i` has the smaller farness. -/
def sort_step (i j : Nat) (ws : List window_t) : List window_t :=
  match ws[i]?, ws[j]? with
  | some wi, some wj =>
    if wi.farness < wj.farness then
      let temp := wi
      (ws.set i wj).set j temp
    else ws
  | _, _ => ws

/-- Inner sort loop of `focus_window`: `for (j = i + 1; j < window_count; j++)`. -/
def sort_inner (n i : Nat) (ws : List window_t) : List window_t :=
  forLoop (sort_step i) (n - (i + 1)) (i + 1) ws

/-- Sort loops of `focus_window`: `for (i = 0; i < window_count; i++)`. -/
def sort_windows (ws : List window_t) : List window_t :=
  forLoop (sort_inner ws.length) ws.length 0 ws

/-- The record array after the farness update and the sort of `focus_window`. -/
def focus_reorder (ws : List window_t) (window_id : Nat) : List window_t :=
  sort_windows (farness_clear window_id (forLoop farness_increment ws.length 0 ws))

/-- The function `focus_window(wm, window_id, internally)`. -/
def focus_window (wm : my_wm_t) (window_id : Nat) (internally : Int) : Option my_wm_t :=
  match wm.windows[window_id]? with
  | none => none
  | some target =>
    let internal_id := target.internal_id
    let wm1 : my_wm_t :=
      if internally ≠ 0 then { wm with wm := wm_focus_window wm.wm internal_id } else wm
    let ws := focus_reorder wm1.windows window_id
    some { wm1 with
      windows := ws
      focused_window_id := window_internal_id_to_index_list ws internal_id }

/-- The loop of `unfocus_window`, entered with the loop variable equal to
`k - 1`: `for (...; i >= 0; i--)`. -/
def unfocus_loop (wm : my_wm_t) : Nat → Option my_wm_t
  | 0 => some wm
  | i + 1 =>
    if to_unsigned (i : Int) ≠ wm.focused_window_id then
      match wm.windows[i]? with
      | none => none
      | some window =>
        if window.exists_ ≠ 0 ∧ window.visible ≠ 0 then focus_window wm i 1
        else unfocus_loop wm i
    else unfocus_loop wm i

/-- The function `unfocus_window(wm)`; the loop variable starts at
`(int) (wm->focused_window_id - 1)`. -/
def unfocus_window (wm : my_wm_t) : Option my_wm_t :=
  let start : Int := to_int ((wm.focused_window_id + 2 ^ 32 - 1) % 2 ^ 32)
  if start < 0 then some wm else unfocus_loop wm (start.toNat + 1)

/-- The monitor loop of `maximize_window`: `some (some m)` when monitor `m`
contains the window centre, `some none` when the loop finds none. -/
def maximize_find_monitor (wm : my_wm_t) (x y : ℚ) : Nat → Nat → Option (Option (ℚ × ℚ × ℚ × ℚ))
  | 0, _ => some none
  | n + 1, i =>
    match wm.monitor_xs[i]?, wm.monitor_ys[i]?, wm.monitor_widths[i]?, wm.monitor_heights[i]? with
    | some monitor_x, some monitor_y, some monitor_width, some monitor_height =>
      if x ≥ monitor_x - monitor_width / 2 ∧ x ≤ monitor_x + monitor_width / 2 ∧
          y ≥ monitor_y - monitor_height / 2 ∧ y ≤ monitor_y + monitor_height / 2 then
        some (some (monitor_x, monitor_y, monitor_width, monitor_height))
      else maximize_find_monitor wm x y n (i + 1)
    | _, _, _, _ => none

/-- The function `maximize_window(wm, window_id, single_monitor)`; `monitor_count` is the
length of `monitor_xs`. -/
def maximize_window (wm : my_wm_t) (window_id : Nat) (single_monitor : Int) : Option my_wm_t :=
  match wm.windows[window_id]? with
  | none => none
  | some window =>
    if window.maximized ≠ 0 then
      some { wm with
        windows := wm.windows.set window_id { window with maximized := 0 }
        wm := wm_move_window wm.wm window.internal_id window.unmaximized_x window.unmaximized_y
          window.unmaximized_width window.unmaximized_height }
    else
      let window1 : window_t :=
        { window with
          unmaximized_x := window.x
          unmaximized_y := window.y
          unmaximized_width := window.width
          unmaximized_height := window.height
          maximized := 1 }
      let wm1 : my_wm_t := { wm with windows := wm.windows.set window_id window1 }
      let whole : my_wm_t :=
        { wm1 with wm := wm_move_window wm1.wm window1.internal_id 0 0 2 2 }
      if single_monitor ≠ 0 then
        match maximize_find_monitor wm1 window1.x window1.y wm1.monitor_xs.length 0 with
        | none => none
        | some (some (monitor_x, monitor_y, monitor_width, monitor_height)) =>
          some { wm1 with
            wm := wm_move_window wm1.wm window1.internal_id
              monitor_x monitor_y monitor_width monitor_height }
        | some none => some whole
      else some whole

/-! ## `main.c`: event callbacks -/

/-- The constant `Mod4Mask` of `X.h`. -/
def Mod4Mask : Nat := 64

/-- The function `keyboard_event(wm, internal_id, press, modifiers, key)`. `none` also
stands for Super+R, where `execl` replaces the process (or `exit(1)` ends it);
`fork` and `system` leave the state of this process as it is. -/
def keyboard_event (wm : my_wm_t) (internal_id press modifiers key : Nat) : Option my_wm_t :=
  let alt := modifiers &&& 0x8
  let super := modifiers &&& 0x40
  let wm1 : my_wm_t :=
    if press ≠ 0 ∧ super ≠ 0 ∧ key = 67 then { wm with running := 0 } else wm
  let r2 : Option my_wm_t :=
    if press ≠ 0 ∧ super ≠ 0 ∧ key = 24 then
      match wm1.windows[wm1.focused_window_id]? with
      | none => none
      | some window => some { wm1 with wm := wm_close_window wm1.wm window.internal_id }
    else some wm1
  r2.bind fun wm2 =>
  let r3 : Option my_wm_t :=
    if press ≠ 0 ∧ super ≠ 0 ∧ alt ≠ 0 ∧ key = 41 then
      maximize_window wm2 wm2.focused_window_id 0
    else some wm2
  r3.bind fun wm3 =>
  let r4 : Option my_wm_t :=
    if press ≠ 0 ∧ super ≠ 0 ∧ alt = 0 ∧ key = 41 then
      maximize_window wm3 wm3.focused_window_id 1
    else some wm3
  r4.bind fun wm4 =>
  let wm5 : my_wm_t :=
    if press ≠ 0 ∧ super ≠ 0 ∧ key = 55 then
      { wm4 with cwm := { vsync := if wm4.cwm.vsync = 0 then 1 else 0 } }
    else wm4
  if press ≠ 0 ∧ super ≠ 0 ∧ key = 27 then none else some wm5

/-- The last statements of `click_event`, from `if (modifiers & Mod4Mask && press)`
on: the state after them and the returned `int`. -/
def click_event_tail (wm1 : my_wm_t) (press modifiers button : Nat) : Option (my_wm_t × Int) :=
  if modifiers &&& Mod4Mask ≠ 0 ∧ press ≠ 0 then
    let wm2 : my_wm_t :=
      if button = 1 then { wm1 with action := action_t.ACTION_MOVE }
      else if button = 3 then { wm1 with action := action_t.ACTION_RESIZE }
      else wm1
    match wm2.windows[wm2.focused_window_id]? with
    | none => none
    | some window =>
      some ({ wm2 with
        windows := wm2.windows.set wm2.focused_window_id { window with opacity := 9 / 10 } }, 0)
  else some (wm1, 1)

/-- The function `click_event(wm, internal_id, press, modifiers, button, x, y)`: the state
after the call and the returned `int`. -/
def click_event (wm : my_wm_t) (internal_id press modifiers button : Nat) (x y : ℚ) :
    Option (my_wm_t × Int) :=
  if press ≠ 0 then
    if internal_id = UINT_MAX then some (wm, 0)
    else
      let window_index : Int := to_int (window_internal_id_to_index wm internal_id)
      match focus_window wm (to_unsigned window_index) 1 with
      | none => none
      | some wm1 =>
        match wm1.windows[wm1.focused_window_id]? with
        | none => none
        | some focused =>
          click_event_tail
            { wm1 with
              focused_window_x := focused.x - x
              focused_window_y := focused.y - y }
            press modifiers button
  else if wm.action ≠ action_t.ACTION_NONE then
    match wm.windows[wm.focused_window_id]? with
    | none => none
    | some window =>
      some ({ wm with
        windows := wm.windows.set wm.focused_window_id { window with opacity := 1 }
        wm := wm_move_window wm.wm window.internal_id window.x window.y window.width window.height
        action := action_t.ACTION_NONE }, 0)
  else click_event_tail wm press modifiers button

/-- The function `move_event(wm, internal_id, modifiers, x, y)`. -/
def move_event (wm : my_wm_t) (internal_id modifiers : Nat) (x y : ℚ) : Option my_wm_t :=
  if wm.action ≠ action_t.ACTION_NONE then
    match wm.windows[wm.focused_window_id]? with
    | none => none
    | some window =>
      if window.maximized = 0 then
        if wm.action = action_t.ACTION_MOVE then
          some { wm with
            windows := wm.windows.set wm.focused_window_id
              { window with x := x + wm.focused_window_x, y := y + wm.focused_window_y } }
        else if wm.action = action_t.ACTION_RESIZE then
          let window1 : window_t :=
            { window with width := 2 * |x - window.x|, height := 2 * |y - window.y| }
          some { wm with
            windows := wm.windows.set wm.focused_window_id window1
            wm := wm_move_window wm.wm window1.internal_id
              window1.x window1.y window1.width window1.height }
        else some wm
      else some wm
  else some wm

/-- The slot search of `create_event`, at index `i` with `ws` the records from
`i` on: `some i` when the loop leaves through `goto got_space`. -/
def create_event_scan : List window_t → Nat → Option Nat
  | [], _ => none
  | w :: rest, i => if w.exists_ = 0 then some i else create_event_scan rest (i + 1)

/-- The function `create_event(wm, internal_id)`; `vao`, `vbo`, `ibo` are the names that
`gl_create_vao_vbo_ibo` generates. The compositor data behind
`wm_window_t.internal` (the `cwm_*_event` calls of the three window callbacks)
is not part of this state. -/
def create_event (wm : my_wm_t) (internal_id : Nat) (vao vbo ibo : Nat) : my_wm_t :=
  let window : window_t :=
    { window_zero with
      internal_id := internal_id
      exists_ := 1
      opacity := 1
      vao := vao
      vbo := vbo
      ibo := ibo }
  match create_event_scan wm.windows 0 with
  | some window_index => { wm with windows := wm.windows.set window_index window }
  | none => { wm with windows := (wm.windows ++ [window_zero]).set wm.windows.length window }

/-- Array access with an `int` index. -/
def window_at (ws : List window_t) (i : Int) : Option window_t :=
  if 0 ≤ i then ws[i.toNat]? else none

/-- The function `modify_event(wm, internal_id, visible, x, y, width, height)`. The vertex
data go to OpenGL; of them the record keeps `index_count`, the length 99 of
`indices`. -/
def modify_event (wm : my_wm_t) (internal_id : Nat) (visible : Int) (x y width height : ℚ) :
    Option my_wm_t :=
  let window_index : Int := to_int (window_internal_id_to_index wm internal_id)
  match window_at wm.windows window_index with
  | none => none
  | some window =>
    let was_visible := window.visible
    let window1 : window_t :=
      { window with
        visible := visible
        x := x
        y := y
        width := width
        height := height
        index_count := 99 }
    if window1.visible ≠ 0 ∧ was_visible = 0 then
      let window2 : window_t :=
        { window1 with
          opacity := 1
          visual_opacity := 0
          visual_x := window1.x
          visual_y := window1.y
          visual_width := window1.width * (9 / 10)
          visual_height := window1.height * (9 / 10) }
      let wm2 : my_wm_t :=
        { wm with
          windows := wm.windows.set window_index.toNat window2
          wm := wm_move_window wm.wm window1.internal_id
            window1.x window1.y window1.width window1.height }
      focus_window wm2 (to_unsigned window_index) 0
    else
      let wm1 : my_wm_t := { wm with windows := wm.windows.set window_index.toNat window1 }
      if to_unsigned window_index = wm1.focused_window_id ∧ window1.visible = 0 ∧ was_visible ≠ 0 then
        unfocus_window wm1
      else some wm1

/-- The function `destroy_event(wm, internal_id)`. -/
def destroy_event (wm : my_wm_t) (internal_id : Nat) : Option my_wm_t :=
  let window_index := window_internal_id_to_index wm internal_id
  match wm.windows[window_index]? with
  | none => none
  | some window =>
    some { wm with windows := wm.windows.set window_index { window with exists_ := 0 } }

/-! ## `wm.h`: lookup by handle and the `CreateNotify` branch -/

/-- The function `wm_event_blacklisted_window(wm, window)`. -/
def wm_event_blacklisted_window (wm : wm_t) (window : Nat) : Int :=
  if wm.event_blacklisted_windows.any (fun b => window = b) then 1 else 0

/-- The loop of `wm_find_window_by_xid`, at index `i` with `ws` the records
from `i` on. -/
def wm_find_window_by_xid_from (xid : Nat) : List wm_window_t → Nat → Option Nat
  | [], _ => none
  | w :: rest, i =>
    if w.exists_ ≠ 0 ∧ w.window = xid then some i
    else wm_find_window_by_xid_from xid rest (i + 1)

/-- Lines 14 to 16 of `wm.h`: `DEBUGGING` is given the value 0 when the
including file has not defined it. -/
def wm_h_DEBUGGING (b : build_t) : Option Int :=
  match b.DEBUGGING with
  | some v => some v
  | none => some 0

/-- The function `wm_find_window_by_xid(wm, xid)` as compiled in build `b`: the returned
`int`, or `none` when `wm_error` ends the process. The call of `wm_error`
stands under `#if !defined(DEBUGGING)`. -/
def wm_find_window_by_xid (b : build_t) (wm : wm_t) (xid : Nat) : Option Int :=
  match wm_find_window_by_xid_from xid wm.windows 0 with
  | some i => some (i : Int)
  | none =>
    if (wm_h_DEBUGGING b).isNone then none
    else some (-1)

/-- The function `wm_update_client_list(wm)`. -/
def wm_update_client_list (wm : wm_t) : Option wm_t :=
  let existing_window_count : Int :=
    forLoop (fun i c => c + ((wm.windows[i]?).map (fun w => w.exists_)).getD 0)
      wm.windows.length 0 0
  let client_list : Option (List Nat) :=
    (List.range existing_window_count.toNat).mapM (fun i => (wm.windows[i]?).map (fun w => w.window))
  client_list.map fun l => { wm with client_list := l }

/-- The slot search of the `CreateNotify` branch of `wm_process_events`. -/
def wm_create_notify_scan : List wm_window_t → Nat → Option Nat
  | [], _ => none
  | w :: rest, i => if w.exists_ = 0 then some i else wm_create_notify_scan rest (i + 1)

/-- A `wm_window_t` as `memset` leaves it. -/
def wm_window_zero : wm_window_t :=
  { exists_ := 0, window := 0, visible := 0, x := 0, y := 0, width := 0, height := 0,
    internal := none }

/-- The registry part of the `CreateNotify` branch: the registry with the new
record and the index `window_index` that the create callback receives. -/
def wm_create_notify_registry (wm : wm_t) (x_window : Nat) : wm_t × Nat :=
  let window : wm_window_t := { wm_window_zero with exists_ := 1, window := x_window }
  match wm_create_notify_scan wm.windows 0 with
  | some window_index => ({ wm with windows := wm.windows.set window_index window }, window_index)
  | none =>
    ({ wm with windows := (wm.windows ++ [wm_window_zero]).set wm.windows.length window },
      wm.windows.length)

/-- The `CreateNotify` branch of `wm_process_events`, with `create_event` as
the registered create callback. -/
def process_create_notify (s : my_wm_t) (x_window : Nat) (vao vbo ibo : Nat) : Option my_wm_t :=
  if wm_event_blacklisted_window s.wm x_window ≠ 0 then some s
  else
    let r := wm_create_notify_registry s.wm x_window
    let s1 : my_wm_t := create_event { s with wm := r.1 } r.2 vao vbo ibo
    (wm_update_client_list s1.wm).map fun wm1 => { s1 with wm := wm1 }

/-! ## Predicates of the specification -/

/-- Farness of the record in slot `k` (0 outside the array). -/
def farness_at (ws : List window_t) (k : Nat) : Nat :=
  match ws[k]? with
  | some w => w.farness
  | none => 0

/-- Records before `i` dominate everything after them. -/
def sorted_before (n i : Nat) (s : List window_t) : Prop :=
  ∀ a b, a < i → a < b → b < n → farness_at s b ≤ farness_at s a

/-- One `farness++` on a `uint64_t`. -/
def farness_bump (w : window_t) : window_t := { w with farness := (w.farness + 1) % 2 ^ 64 }

/-- Existing records have pairwise distinct internal ids. -/
def ids_distinct (ws : List window_t) : Prop :=
  ws.Pairwise (fun a b => a.exists_ ≠ 0 → b.exists_ ≠ 0 → a.internal_id ≠ b.internal_id)

instance (ws : List window_t) : Decidable (ids_distinct ws) := by
  unfold ids_distinct; infer_instance

/-- The record array of `focus_window` between the farness update and the
sort. -/
def focus_prestep (ws : List window_t) (window_id : Nat) : List window_t :=
  farness_clear window_id (ws.map farness_bump)

/-- The array is in non-increasing farness order. -/
def farness_sorted (ws : List window_t) : Prop :=
  ∀ (a b : Nat) (wa wb : window_t), a < b → ws[a]? = some wa → ws[b]? = some wb →
    wb.farness ≤ wa.farness

/-- At most one existing record of the array has internal id `id`. -/
def id_unique (ws : List window_t) (id : Nat) : Prop :=
  ws.Pairwise (fun a b =>
    ¬ ((a.exists_ ≠ 0 ∧ a.internal_id = id) ∧ (b.exists_ ≠ 0 ∧ b.internal_id = id)))

instance (ws : List window_t) (id : Nat) : Decidable (id_unique ws id) := by
  unfold id_unique; infer_instance

/-- The farness that `focus_window` on slot `i` gives the record of slot `k`. -/
def refarness (i k : Nat) (w : window_t) : window_t :=
  if k = i then { w with farness := 0 } else farness_bump w

/-- A run of focus operations, each given as `(window_id, internally)`. -/
def focus_sequence : my_wm_t → List (Nat × Int) → Option my_wm_t
  | wm, [] => some wm
  | wm, op :: ops => (focus_window wm op.1 op.2).bind fun wm1 => focus_sequence wm1 ops

/-- Every operation of the run names a slot of the array whose record exists,
in the state the operation is applied to. -/
def focus_targets_exist : my_wm_t → List (Nat × Int) → Bool
  | _, [] => true
  | wm, op :: ops =>
    match wm.windows[op.1]?, focus_window wm op.1 op.2 with
    | some w, some wm1 => decide (w.exists_ ≠ 0) && focus_targets_exist wm1 ops
    | _, _ => false

/-- The record that `focused_window_id` designates has farness 0. -/
def focused_farness_zero (wm : my_wm_t) : Prop :=
  ∃ w, wm.windows[wm.focused_window_id]? = some w ∧ w.farness = 0

/-! ## Example states -/

/-- An existing record with the given id, farness and visibility. -/
def example_window (internal_id farness : Nat) (visible : Int) : window_t :=
  { window_zero with
    internal_id := internal_id, exists_ := 1, farness := farness, visible := visible,
    opacity := 1 }

/-- A `wm_t` with a 1920 x 1080 screen and no windows. -/
def example_wm_t : wm_t :=
  { width := 1920, height := 1080, windows := [], event_blacklisted_windows := [],
    calls := [], client_list := [] }

/-- A state with the given record array and focus index. -/
def example_state (ws : List window_t) (focused_window_id : Nat) : my_wm_t :=
  { wm := example_wm_t, cwm := { vsync := 0 }, x_resolution := 1920, y_resolution := 1080,
    running := 1, windows := ws, focused_window_id := focused_window_id,
    focused_window_x := 0, focused_window_y := 0, action := action_t.ACTION_NONE,
    monitor_xs := [], monitor_ys := [], monitor_widths := [], monitor_heights := [] }

/-- The stack A (farness 2, visible), B (farness 1, hidden), C (farness 0,
visible, focused) with internal ids 0, 1, 2. -/
def stack_abc : my_wm_t :=
  example_state [example_window 0 2 1, example_window 1 1 0, example_window 2 0 1] 2

/-- Ties keep their order through the sort of `focus_window` on slot `i`: two
records that have equal farness after the increment-and-zero step, the first
before the second, are found after the sort with the first still before the
second. -/
def sort_keeps_ties (ws : List window_t) (i : Nat) : Prop :=
  ∀ (a b : Nat) (wa wb : window_t), a < b →
    (focus_prestep ws i)[a]? = some wa → (focus_prestep ws i)[b]? = some wb →
    wa.farness = wb.farness →
    ∃ a' b' : Nat, a' < b' ∧ (focus_reorder ws i)[a']? = some wa ∧
      (focus_reorder ws i)[b']? = some wb

/-- Two new windows (ids 0 and 1, farness 0) in reused slots in front of an
older window (id 2, farness 1) and the window about to be focused (id 3). -/
def stack_ties : my_wm_t :=
  example_state
    [example_window 0 0 1, example_window 1 0 1, example_window 2 1 1, example_window 3 0 1] 3

/-- Slot `k` of the array `L` after the record of slot `i` has been moved to
slot `p`, the records between moving one slot down. -/
def rotated (L : List window_t) (i p k : Nat) : Option window_t :=
  if k < i then L[k]? else if k < p then L[k + 1]? else if k = p then L[i]? else L[k]?

/-- An array that is in order apart from one record of farness 0 at slot `i`. -/
structure sorted_but (L : List window_t) (i : Nat) (z : window_t) : Prop where
  at_i : L[i]? = some z
  zero : z.farness = 0
  pos : ∀ (k : Nat) (w : window_t), k ≠ i → L[k]? = some w → 1 ≤ w.farness
  ord : ∀ (a b : Nat) (wa wb : window_t), a < b → a ≠ i → b ≠ i → L[a]? = some wa →
    L[b]? = some wb → wb.farness ≤ wa.farness

/-- Slot reached by the record of slot `i` after `q` rounds of the outer loop. -/
def rotate_position (n i q : Nat) : Nat := if q ≤ i then i else min q (n - 1)

/-- The record that `create_event` writes into the slot it has chosen. -/
def created_window (internal_id vao vbo ibo : Nat) : window_t :=
  { window_zero with
    internal_id := internal_id
    exists_ := 1
    opacity := 1
    vao := vao
    vbo := vbo
    ibo := ibo }

/-- The record that the `CreateNotify` branch writes into the slot it has
chosen. -/
def created_wm_window (x_window : Nat) : wm_window_t :=
  { wm_window_zero with exists_ := 1, window := x_window }

/-- A run of `create_event` calls, each given as `(internal_id, vao, vbo, ibo)`. -/
def create_events : my_wm_t → List (Nat × Nat × Nat × Nat) → my_wm_t
  | wm, [] => wm
  | wm, e :: rest => create_events (create_event wm e.1 e.2.1 e.2.2.1 e.2.2.2) rest

/-- A registry with one slot whose `exists` flag is clear and that still stores
the handle 7. -/
def example_tombstone_wm_t : wm_t :=
  { example_wm_t with windows := [{ wm_window_zero with window := 7 }] }

/-- The record of `modify_event` after the logical state has been written. -/
def modified_window (window : window_t) (visible : Int) (x y width height : ℚ) : window_t :=
  { window with
    visible := visible
    x := x
    y := y
    width := width
    height := height
    index_count := 99 }

/-- No window holds focus: `focused_window_id` designates no record. -/
def no_window_holds_focus (wm : my_wm_t) : Prop :=
  wm.windows[wm.focused_window_id]? = none

/-- A single window (id 0), visible and focused. -/
def lone_window : my_wm_t := example_state [example_window 0 0 1] 0

/-! ## Runs of event callbacks -/

/-- One call of an event callback of `main.c`, with its arguments. -/
inductive event_t where
  | create (internal_id vao vbo ibo : Nat)
  | modify (internal_id : Nat) (visible : Int) (x y width height : ℚ)
  | destroy (internal_id : Nat)
  | click (internal_id press modifiers button : Nat) (x y : ℚ)
  | move (internal_id modifiers : Nat) (x y : ℚ)
  | keyboard (internal_id press modifiers key : Nat)

/-- The state after the callback of the event has run. -/
def handle_event (wm : my_wm_t) : event_t → Option my_wm_t
  | event_t.create internal_id vao vbo ibo => some (create_event wm internal_id vao vbo ibo)
  | event_t.modify internal_id visible x y width height =>
    modify_event wm internal_id visible x y width height
  | event_t.destroy internal_id => destroy_event wm internal_id
  | event_t.click internal_id press modifiers button x y =>
    (click_event wm internal_id press modifiers button x y).map Prod.fst
  | event_t.move internal_id modifiers x y => move_event wm internal_id modifiers x y
  | event_t.keyboard internal_id press modifiers key =>
    keyboard_event wm internal_id press modifiers key

/-- Some existing record carries the internal id. -/
def names_existing (wm : my_wm_t) (internal_id : Nat) : Prop :=
  ∃ w, w ∈ wm.windows ∧ w.exists_ ≠ 0 ∧ w.internal_id = internal_id

/-- The event is well-formed in the state: a create brings an id that no
existing record carries (and `window_count`, an `int`, can still grow), modify
and destroy name an existing window, a click names an existing window or
carries the id -1 of an unknown window. -/
def event_well_formed (wm : my_wm_t) : event_t → Prop
  | event_t.create internal_id _ _ _ =>
    ¬ names_existing wm internal_id ∧ wm.windows.length + 1 < 2 ^ 31
  | event_t.modify internal_id _ _ _ _ _ => names_existing wm internal_id
  | event_t.destroy internal_id => names_existing wm internal_id
  | event_t.click internal_id _ _ _ _ _ =>
    internal_id = UINT_MAX ∨ names_existing wm internal_id
  | event_t.move _ _ _ _ => True
  | event_t.keyboard _ _ _ _ => True

/-- The event makes its callback focus a window on its own account: a
`modify_event` that shows a hidden window, or a press on a known window. (The
third call of `focus_window`, the fallback of `unfocus_window`, runs only when
a visible window is hidden, hence after a window has been shown.) -/
def event_focuses (wm : my_wm_t) : event_t → Bool
  | event_t.modify internal_id visible _ _ _ _ =>
    match window_at wm.windows (to_int (window_internal_id_to_index wm internal_id)) with
    | some window => decide (visible ≠ 0 ∧ window.visible = 0)
    | none => false
  | event_t.click internal_id press _ _ _ _ => decide (press ≠ 0 ∧ internal_id ≠ UINT_MAX)
  | _ => false

/-- The state in which `main` enters its loop: no windows, everything else of
the registry zeroed. -/
def initial_state (wm : my_wm_t) : Prop :=
  wm.windows = [] ∧ wm.focused_window_id = 0 ∧ wm.action = action_t.ACTION_NONE

/-- States reachable from an initial state by callbacks for events that
satisfy `ok`; the flag tells whether some window has been focused on the way. -/
inductive reachable (ok : my_wm_t → event_t → Prop) : my_wm_t → Bool → Prop where
  | init (wm : my_wm_t) (h : initial_state wm) : reachable ok wm false
  | step (wm wm' : my_wm_t) (focused : Bool) (e : event_t) (h : reachable ok wm focused)
      (hok : ok wm e) (hstep : handle_event wm e = some wm') :
      reachable ok wm' (focused || event_focuses wm e)

/-- The record that `focused_window_id` designates exists and is visible. -/
def focus_valid (wm : my_wm_t) : Prop :=
  ∃ w, wm.windows[wm.focused_window_id]? = some w ∧ w.exists_ ≠ 0 ∧ w.visible ≠ 0

/-- Well-formed events under which the focus stays valid: moreover the focused
window is hidden only while another record below it in the array exists and is
visible, a window is destroyed only when it is not visible (the server unmaps a
window before it destroys it), and a click names a visible window. -/
def event_admitted (wm : my_wm_t) : event_t → Prop
  | event_t.create internal_id _ _ _ =>
    ¬ names_existing wm internal_id ∧ wm.windows.length + 1 < 2 ^ 31
  | event_t.modify internal_id visible _ _ _ _ =>
    ∃ (k : Nat) (w : window_t), wm.windows[k]? = some w ∧ w.exists_ ≠ 0 ∧
      w.internal_id = internal_id ∧
      (k = wm.focused_window_id → visible = 0 → w.visible ≠ 0 →
        ∃ (j : Nat) (v : window_t), j < k ∧ wm.windows[j]? = some v ∧ v.exists_ ≠ 0 ∧
          v.visible ≠ 0)
  | event_t.destroy internal_id =>
    ∃ w, w ∈ wm.windows ∧ w.exists_ ≠ 0 ∧ w.internal_id = internal_id ∧ w.visible = 0
  | event_t.click internal_id _ _ _ _ _ =>
    internal_id = UINT_MAX ∨
      ∃ w, w ∈ wm.windows ∧ w.exists_ ≠ 0 ∧ w.internal_id = internal_id ∧ w.visible ≠ 0
  | event_t.move _ _ _ _ => True
  | event_t.keyboard _ _ _ _ => True

/-- What the runs of admitted events keep true: existing records have distinct
ids, the array has fewer than `2 ^ 31` slots, the focus is valid once a window
has been focused, and before that no record is visible. -/
def run_invariant (wm : my_wm_t) (focused : Bool) : Prop :=
  ids_distinct wm.windows ∧ wm.windows.length < 2 ^ 31 ∧
    (focused = true → focus_valid wm) ∧
    (focused = false → ∀ w, w ∈ wm.windows → w.visible = 0)

/-! ## `main.c`: the animator and the draw depth of `render_window` -/

/-- The C function `round`: to the nearest integer, halves away from zero. -/
def c_round (q : ℚ) : Int := if 0 ≤ q then ⌊q + 1 / 2⌋ else -⌊-q + 1 / 2⌋

/-- The clamp `delta = MIN(0.1, delta)` of `render_window`. -/
def clamp_delta (delta : ℚ) : ℚ := if (1 / 10 : ℚ) < delta then 1 / 10 else delta

/-- One animator step `v += (target - v) * delta * rate`. -/
def animate (v target delta rate : ℚ) : ℚ := v + (target - v) * delta * rate

/-- The draw depth `1.0 - (float) window_id / wm->window_count`. -/
def window_depth (window_id window_count : Nat) : ℚ :=
  1 - (window_id : ℚ) / (window_count : ℚ)

/-- The uniform values that one `render_window` call hands to the two shader
programs. -/
structure draw_t where
  opacity : ℚ
  depth : ℚ
  x : ℚ
  y : ℚ
  width : ℚ
  height : ℚ
  shadow_strength : ℚ
  spread_x : ℚ
  spread_y : ℚ

/-- The function `render_window(wm, window_id, delta)`: the state with the
animated fields of the record updated, and the values drawn with (`none` when
the record does not exist or is not visible and the function returns at once).
Texture binding and the draw calls themselves are outside the model. -/
def render_window (wm : my_wm_t) (window_id : Nat) (delta : ℚ) :
    Option (my_wm_t × Option draw_t) :=
  match wm.windows[window_id]? with
  | none => none
  | some window =>
    if window.exists_ = 0 then some (wm, none)
    else if window.visible = 0 then some (wm, none)
    else
      let delta := clamp_delta delta
      let visual_opacity := animate window.visual_opacity window.opacity delta 10
      let visual_x := animate window.visual_x window.x delta 20
      let visual_y := animate window.visual_y window.y delta 20
      let visual_width := animate window.visual_width window.width delta 30
      let visual_height := animate window.visual_height window.height delta 30
      let width_pixels := c_round (visual_width / 2 * wm.x_resolution)
      let height_pixels := c_round (visual_height / 2 * wm.y_resolution)
      let x := if Int.tmod width_pixels 2 ≠ 0 then visual_x + 1 / 2 / wm.x_resolution * 2
        else visual_x
      let y := if Int.tmod height_pixels 2 ≠ 0 then visual_y + 1 / 2 / wm.y_resolution * 2
        else visual_y
      let depth := window_depth window_id wm.window_count
      let focused : ℚ := if window_id = wm.focused_window_id then 1 else 0
      let shadow_opacity : ℚ := 15 / 100 + 1 / 10 * focused
      let visual_shadow_opacity :=
        animate window.visual_shadow_opacity shadow_opacity delta 30
      let shadow_radius : ℚ := 64 + 64 * focused
      let visual_shadow_radius := animate window.visual_shadow_radius shadow_radius delta 20
      let spread_x := 4 * visual_shadow_radius / wm.x_resolution
      let spread_y := 4 * visual_shadow_radius / wm.y_resolution
      let y_offset := -spread_y / 32 - spread_y / 16 * focused
      let visual_shadow_y_offset := animate window.visual_shadow_y_offset y_offset delta 10
      let window1 : window_t :=
        { window with
          visual_opacity := visual_opacity
          visual_x := visual_x
          visual_y := visual_y
          visual_width := visual_width
          visual_height := visual_height
          visual_shadow_opacity := visual_shadow_opacity
          visual_shadow_radius := visual_shadow_radius
          visual_shadow_y_offset := visual_shadow_y_offset }
      some ({ wm with windows := wm.windows.set window_id window1 },
        some
          { opacity := visual_opacity
            depth := depth
            x := x
            y := y
            width := visual_width
            height := visual_height
            shadow_strength := visual_opacity * visual_shadow_opacity
            spread_x := spread_x
            spread_y := spread_y })

/-! ## Predicates for showing, maximizing, drawing and dragging -/

/-- The record that `modify_event` leaves for a window that becomes visible,
before `focus_window` runs: the logical state written and the appearing pose
set. -/
def appearing_window (window : window_t) (visible : Int) (x y width height : ℚ) : window_t :=
  { modified_window window visible x y width height with
    opacity := 1
    visual_opacity := 0
    visual_x := x
    visual_y := y
    visual_width := width * (9 / 10)
    visual_height := height * (9 / 10) }

/-- A stack of two windows, of which the second (id 1) is hidden. -/
def stack_hidden : my_wm_t :=
  example_state [example_window 0 0 1, example_window 1 1 0] 0

/-- A run of `modify_event` calls for one window, each given as
`(visible, x, y, width, height)`. -/
def modify_events : my_wm_t → Nat → List (Int × ℚ × ℚ × ℚ × ℚ) → Option my_wm_t
  | wm, _, [] => some wm
  | wm, internal_id, u :: rest =>
    (modify_event wm internal_id u.1 u.2.1 u.2.2.1 u.2.2.2.1 u.2.2.2.2).bind
      fun wm1 => modify_events wm1 internal_id rest

/-- The four monitor arrays have `monitor_count` entries each, as `main`
allocates them. -/
def monitors_consistent (wm : my_wm_t) : Prop :=
  wm.monitor_ys.length = wm.monitor_xs.length ∧
    wm.monitor_widths.length = wm.monitor_xs.length ∧
    wm.monitor_heights.length = wm.monitor_xs.length

/-- The record is the existing, maximized window `internal_id` and remembers
the geometry `(x, y, width, height)` as its pre-maximize geometry. -/
def remembers_geometry (internal_id : Nat) (x y width height : ℚ) (w : window_t) : Prop :=
  w.exists_ ≠ 0 ∧ w.internal_id = internal_id ∧ w.maximized ≠ 0 ∧
    w.unmaximized_x = x ∧ w.unmaximized_y = y ∧
    w.unmaximized_width = width ∧ w.unmaximized_height = height

/-- The array has fewer than `2 ^ 31` slots and exactly one existing record
with the id, which remembers the geometry. -/
def keeps_unmaximized (internal_id : Nat) (x y width height : ℚ) (ws : List window_t) : Prop :=
  ws.length < 2 ^ 31 ∧ id_unique ws internal_id ∧
    ∃ (k : Nat) (w : window_t), ws[k]? = some w ∧ remembers_geometry internal_id x y width height w

/-- A state with one monitor that covers the screen. -/
def one_monitor_state (ws : List window_t) (focused_window_id : Nat) : my_wm_t :=
  { example_state ws focused_window_id with
    monitor_xs := [0], monitor_ys := [0], monitor_widths := [2], monitor_heights := [2] }

/-- Two visible windows (ids 0 and 1), the second focused, on a 1920 x 1080
screen; the first is away from its targets: visual position 0 with target 1,
visual width 0 with target 1. -/
def stack_animating : my_wm_t :=
  example_state
    [{ example_window 0 1 1 with x := 1, width := 1 }, example_window 1 0 1] 1

/-- The animated fields of a record that `render_window` updates. -/
inductive channel_t where
  | opacity
  | x
  | y
  | width
  | height
  | shadow_opacity
  | shadow_radius
  | shadow_y_offset
deriving DecidableEq

/-- The rate constant of the channel's update statement in `render_window`. -/
def channel_rate : channel_t → ℚ
  | channel_t.opacity => 10
  | channel_t.x => 20
  | channel_t.y => 20
  | channel_t.width => 30
  | channel_t.height => 30
  | channel_t.shadow_opacity => 30
  | channel_t.shadow_radius => 20
  | channel_t.shadow_y_offset => 10

/-- The animated value of the channel in a record. -/
def channel_value : channel_t → window_t → ℚ
  | channel_t.opacity, w => w.visual_opacity
  | channel_t.x, w => w.visual_x
  | channel_t.y, w => w.visual_y
  | channel_t.width, w => w.visual_width
  | channel_t.height, w => w.visual_height
  | channel_t.shadow_opacity, w => w.visual_shadow_opacity
  | channel_t.shadow_radius, w => w.visual_shadow_radius
  | channel_t.shadow_y_offset, w => w.visual_shadow_y_offset

/-- The target that `render_window(wm, window_id, _)` steers the channel to;
`w` is the record after the call (its logical fields are those before the
call, and the shadow offset follows the shadow radius just computed). -/
def channel_target (wm : my_wm_t) (window_id : Nat) (w : window_t) : channel_t → ℚ
  | channel_t.opacity => w.opacity
  | channel_t.x => w.x
  | channel_t.y => w.y
  | channel_t.width => w.width
  | channel_t.height => w.height
  | channel_t.shadow_opacity =>
    15 / 100 + 1 / 10 * (if window_id = wm.focused_window_id then 1 else 0)
  | channel_t.shadow_radius => 64 + 64 * (if window_id = wm.focused_window_id then 1 else 0)
  | channel_t.shadow_y_offset =>
    -(4 * w.visual_shadow_radius / wm.y_resolution) / 32 -
      4 * w.visual_shadow_radius / wm.y_resolution / 16 *
        (if window_id = wm.focused_window_id then 1 else 0)

/-- The step from `v` to `v'` does not pass the target `t`: `t - v'` and
`t - v` have the same sign, or `v'` is the target. -/
def no_overshoot (v t v' : ℚ) : Prop :=
  (0 < t - v ∧ 0 < t - v') ∨ (t - v < 0 ∧ t - v' < 0) ∨ v' = t

/-- The value of a channel after a run of animator steps with a fixed target,
one step per frame delta (each clamped as `render_window` does). -/
def animate_steps (v target rate : ℚ) : List ℚ → ℚ
  | [] => v
  | delta :: rest => animate_steps (animate v target (clamp_delta delta) rate) target rate rest

/-- The stack A, B, C in the middle of a move of C. -/
def stack_dragging : my_wm_t := { stack_abc with action := action_t.ACTION_MOVE }

/-! ## `wm.h`: pixels and normalized coordinates -/

/-- The function `wm_width_dimension_to_float(wm, pixels)`. -/
def wm_width_dimension_to_float (wm : wm_t) (pixels : Int) : ℚ :=
  (pixels : ℚ) / (wm.width : ℚ) * 2

/-- The function `wm_height_dimension_to_float(wm, pixels)`. -/
def wm_height_dimension_to_float (wm : wm_t) (pixels : Int) : ℚ :=
  (pixels : ℚ) / (wm.height : ℚ) * 2

/-- The function `wm_x_coordinate_to_float(wm, pixels)`. -/
def wm_x_coordinate_to_float (wm : wm_t) (pixels : Int) : ℚ :=
  wm_width_dimension_to_float wm pixels - 1

/-- The function `wm_y_coordinate_to_float(wm, pixels)`. -/
def wm_y_coordinate_to_float (wm : wm_t) (pixels : Int) : ℚ :=
  -wm_height_dimension_to_float wm pixels + 1

/-- The function `wm_float_to_width_dimension(wm, x)`; the rounded value is
integral, so the cast to `int` does not change it. -/
def wm_float_to_width_dimension (wm : wm_t) (x : ℚ) : Int :=
  c_round (x / 2 * (wm.width : ℚ))

/-- The function `wm_float_to_height_dimension(wm, x)`. -/
def wm_float_to_height_dimension (wm : wm_t) (x : ℚ) : Int :=
  c_round (x / 2 * (wm.height : ℚ))

/-- The function `wm_float_to_x_coordinate(wm, x)`. -/
def wm_float_to_x_coordinate (wm : wm_t) (x : ℚ) : Int :=
  wm_float_to_width_dimension wm (x + 1)

/-- The function `wm_float_to_y_coordinate(wm, x)`. -/
def wm_float_to_y_coordinate (wm : wm_t) (x : ℚ) : Int :=
  wm_float_to_height_dimension wm (-x + 1)

/-- The registry part of the `DestroyNotify` branch of `wm_process_events` in
build `b`, from the lookup of the handle on: the `exists` flag of the record
is cleared and the client list is published again. A handle that is 0 or not
found leaves the registry as it is. The call of the destroy callback, which
stands between the lookup and the write, is not part of this function. -/
def wm_destroy_notify_registry (b : build_t) (wm : wm_t) (x_window : Nat) : Option wm_t :=
  if x_window = 0 then some wm
  else
    match wm_find_window_by_xid b wm x_window with
    | none => none
    | some window_index =>
      if window_index < 0 then some wm
      else
        match wm.windows[window_index.toNat]? with
        | none => none
        | some window =>
          wm_update_client_list
            { wm with windows := wm.windows.set window_index.toNat { window with exists_ := 0 } }

/-! ## `cwm.h`: the texture backing of a window -/

/-- Requests of `cwm.h` about the backing of a window, named after the
functions called. The entry of `glXCreatePixmap` records the X pixmap passed
and the GLX pixmap returned. -/
inductive glx_call where
  | XGrabServer
  | XCompositeNameWindowPixmap (window : Nat)
  | glXCreatePixmap (x_pixmap pixmap : Nat)
  | XFreePixmap (x_pixmap : Nat)
  | glXDestroyPixmap (pixmap : Nat)
  | glXBindTexImageEXT (pixmap : Nat)
deriving DecidableEq

/-- The function `cwm_get_window_internal(cwm, window)`: the record after the call and the
struct that the returned pointer designates. A fresh struct is zeroed. -/
def cwm_get_window_internal (window : wm_window_t) : wm_window_t × cwm_window_internal_t :=
  match window.internal with
  | some window_internal => (window, window_internal)
  | none => ({ window with internal := some { pixmap := 0 } }, { pixmap := 0 })

/-- The function `cwm_modify_event(cwm, window_index)`, on the registry `cwm->wm` and the
requests sent so far (latest first). -/
def cwm_modify_event (wm : wm_t) (glx : List glx_call) (window_index : Nat) :
    Option (wm_t × List glx_call) :=
  match wm.windows[window_index]? with
  | none => none
  | some window =>
    let r := cwm_get_window_internal window
    if r.2.pixmap ≠ 0 then
      some ({ wm with windows := wm.windows.set window_index { r.1 with internal := some { pixmap := 0 } } },
        glx_call.glXDestroyPixmap r.2.pixmap :: glx)
    else
      some ({ wm with windows := wm.windows.set window_index r.1 }, glx)

/-- The function `cwm_bind_window_texture(cwm, window_index)`, on `cwm->vsync`, the registry
`cwm->wm` and the requests sent so far. The values `x_pixmap` and `pixmap`
are what `XCompositeNameWindowPixmap` and `glXCreatePixmap` return when they
are called. The choice of the frame buffer configuration and of the texture
format, which only reads, is left out. -/
def cwm_bind_window_texture (vsync : Int) (wm : wm_t) (glx : List glx_call) (window_index : Nat)
    (x_pixmap pixmap : Nat) : Option (wm_t × List glx_call) :=
  match wm.windows[window_index]? with
  | none => none
  | some window =>
    let r := cwm_get_window_internal window
    let wm1 : wm_t := { wm with windows := wm.windows.set window_index r.1 }
    if window.exists_ = 0 then some (wm1, glx)
    else if window.visible = 0 then some (wm1, glx)
    else
      let glx1 := if vsync = 0 then glx_call.XGrabServer :: glx else glx
      if r.2.pixmap = 0 then
        some ({ wm with windows := wm.windows.set window_index { r.1 with internal := some { pixmap := pixmap } } },
          glx_call.glXBindTexImageEXT pixmap :: glx_call.XFreePixmap x_pixmap ::
            glx_call.glXCreatePixmap x_pixmap pixmap ::
            glx_call.XCompositeNameWindowPixmap window.window :: glx1)
      else
        some (wm1, glx_call.glXBindTexImageEXT r.2.pixmap :: glx1)

/-! ## `opengl.h` and `main.c`: the buffers of a record -/

/-- The record with its farness put to 0: what is left of a record when the
farness is not looked at. -/
def without_farness (w : window_t) : window_t := { w with farness := 0 }

/-- The GLX pixmap of a registry record: 0 when the record has no struct of
the compositor yet or the struct holds no pixmap. -/
def pixmap_of (window : wm_window_t) : Nat :=
  match window.internal with
  | some window_internal => window_internal.pixmap
  | none => 0

/-- A run of `move_event` calls, each given as `(internal_id, modifiers, x, y)`. -/
def move_events : my_wm_t → List (Nat × Nat × ℚ × ℚ) → Option my_wm_t
  | wm, [] => some wm
  | wm, m :: ms =>
    (move_event wm m.1 m.2.1 m.2.2.1 m.2.2.2).bind fun wm1 => move_events wm1 ms

/-- A move is in progress on the record `base` with the grab offset
`(fx, fy)`: the focused record is `base` up to its logical position. -/
def dragging (base : window_t) (fx fy : ℚ) (wm : my_wm_t) : Prop :=
  wm.action = action_t.ACTION_MOVE ∧ wm.focused_window_x = fx ∧ wm.focused_window_y = fy ∧
    ∃ px py : ℚ, wm.windows[wm.focused_window_id]? = some { base with x := px, y := py }

/-- The focused record of a state after the press that starts a translucent
grab of `target`. -/
def grabbed (target : window_t) : window_t := { target with farness := 0, opacity := 9 / 10 }

/-- The handles of the records whose `exists` flag is set, in slot order. -/
def existing_handles (wm : wm_t) : List Nat :=
  (wm.windows.filter (fun w => decide (w.exists_ ≠ 0))).map (fun w => w.window)

/-- The handles of the records whose `exists` flag is clear, in slot order. -/
def tombstone_handles (wm : wm_t) : List Nat :=
  (wm.windows.filter (fun w => decide (w.exists_ = 0))).map (fun w => w.window)

/-- A build that leaves `DEBUGGING` to `wm.h`. -/
def example_build : build_t := { DEBUGGING := none }

/-- The registry after `CreateNotify` for the handles 7 and 9 and then
`DestroyNotify` for the handle 7, starting without windows. -/
def example_destroyed_first : Option wm_t :=
  (process_create_notify (example_state [] 0) 7 1 1 2).bind fun s1 =>
    (process_create_notify s1 9 2 3 4).bind fun s2 =>
      wm_destroy_notify_registry example_build s2.wm 7

/-- A registry of two slots: the first a tombstone that still stores the
handle 7, the second an existing record with the handle 9. -/
def example_tombstone_first : wm_t :=
  { example_wm_t with windows := [{ wm_window_zero with window := 7 }, created_wm_window 9] }

/-- A registry record at pixel position `(x, y)` with pixel size
`width` x `height`. -/
def example_wm_window (x y width height : Int) : wm_window_t :=
  { exists_ := 1, window := 9, visible := 1, x := x, y := y, width := width, height := height,
    internal := none }

/-- A registry with one existing, visible record (handle 9) that has the
given compositor struct. -/
def example_registry (internal : Option cwm_window_internal_t) : wm_t :=
  { example_wm_t with
    windows := [{ example_wm_window 0 0 640 480 with internal := internal }] }

theorem forLoop_invariant {σ : Type} (body : Nat → σ → σ) (Inv : Nat → σ → Prop) :
    ∀ (n i : Nat) (s : σ), Inv i s →
      (∀ j t, i ≤ j → j < i + n → Inv j t → Inv (j + 1) (body j t)) →
      Inv (i + n) (forLoop body n i s) := by
  intro n
  induction n with
  | zero => intro i s h _; simpa [forLoop] using h
  | succ n ih =>
    intro i s h hstep
    have h1 : Inv (i + 1) (body i s) := hstep i s (Nat.le_refl _) (by omega) h
    have := ih (i + 1) (body i s) h1 (fun j t hj hlt hI => hstep j t (by omega) (by omega) hI)
    have e : i + (n + 1) = i + 1 + n := by omega
    rw [e]
    simpa [forLoop] using this

theorem cons_set_perm {α : Type} (a b : α) :
    ∀ (t : List α) (j : Nat), t[j]? = some b → (b :: t.set j a).Perm (a :: t) := by
  intro t
  induction t with
  | nil => intro j h; simp at h
  | cons y t ih =>
    intro j h
    cases j with
    | zero =>
      simp at h
      subst h
      simpa using List.Perm.swap a y t
    | succ j =>
      simp at h
      have h1 := ih j h
      have h2 : (b :: y :: t.set j a).Perm (y :: b :: t.set j a) := List.Perm.swap _ _ _
      have h3 : (y :: b :: t.set j a).Perm (y :: a :: t) := List.Perm.cons y h1
      have h4 : (y :: a :: t).Perm (a :: y :: t) := List.Perm.swap _ _ _
      simpa using (h2.trans h3).trans h4

theorem set_set_perm_of_getElem? {α : Type} (a b : α) :
    ∀ (l : List α) (i j : Nat), l[i]? = some a → l[j]? = some b →
      ((l.set i b).set j a).Perm l := by
  intro l
  induction l with
  | nil => intro i j h; simp at h
  | cons x t ih =>
    intro i j hi hj
    cases i with
    | zero =>
      simp at hi
      subst hi
      cases j with
      | zero => simp at hj; subst hj; simp
      | succ j =>
        simp at hj
        simpa using cons_set_perm x b t j hj
    | succ i =>
      simp at hi
      cases j with
      | zero =>
        simp at hj
        subst hj
        simpa using cons_set_perm x a t i hi
      | succ j =>
        simp at hj
        simpa using List.Perm.cons x (ih i j hi hj)

theorem sort_step_eq (i j : Nat) (ws : List window_t) (a b : window_t)
    (hi : ws[i]? = some a) (hj : ws[j]? = some b) :
    sort_step i j ws = if a.farness < b.farness then (ws.set i b).set j a else ws := by
  simp [sort_step, hi, hj]

theorem sort_step_perm (i j : Nat) (ws : List window_t) : (sort_step i j ws).Perm ws := by
  cases hi : ws[i]? with
  | none => simp [sort_step, hi]
  | some a =>
    cases hj : ws[j]? with
    | none => simp [sort_step, hi, hj]
    | some b =>
      rw [sort_step_eq i j ws a b hi hj]
      split
      · exact set_set_perm_of_getElem? a b ws i j hi hj
      · exact List.Perm.refl _

theorem sort_step_length (i j : Nat) (ws : List window_t) :
    (sort_step i j ws).length = ws.length := (sort_step_perm i j ws).length_eq

theorem sort_step_farness (i j : Nat) (ws : List window_t) (hij : i < j) (hj : j < ws.length) :
    (∀ k, k ≠ i → k ≠ j → (sort_step i j ws)[k]? = ws[k]?) ∧
    ((sort_step i j ws = ws ∧ farness_at ws j ≤ farness_at ws i) ∨
     (farness_at (sort_step i j ws) i = farness_at ws j ∧
      farness_at (sort_step i j ws) j = farness_at ws i ∧
      farness_at ws i < farness_at ws j)) := by
  have hi : i < ws.length := by omega
  have ei : ws[i]? = some ws[i] := List.getElem?_eq_getElem hi
  have ej : ws[j]? = some ws[j] := List.getElem?_eq_getElem hj
  rw [sort_step_eq i j ws _ _ ei ej]
  by_cases hlt : ws[i].farness < ws[j].farness
  · rw [if_pos hlt]
    refine ⟨?_, Or.inr ⟨?_, ?_, ?_⟩⟩
    · intro k hki hkj
      rw [List.getElem?_set_ne (Ne.symm hkj), List.getElem?_set_ne (Ne.symm hki)]
    · have : ((ws.set i ws[j]).set j ws[i])[i]? = some ws[j] := by
        rw [List.getElem?_set_ne (by omega), List.getElem?_set_self hi]
      simp [farness_at, this, ej]
    · have : ((ws.set i ws[j]).set j ws[i])[j]? = some ws[i] := by
        rw [List.getElem?_set_self (by simpa using hj)]
      simp [farness_at, this, ei]
    · simpa [farness_at, ei, ej] using hlt
  · rw [if_neg hlt]
    refine ⟨fun _ _ _ => rfl, Or.inl ⟨rfl, ?_⟩⟩
    simpa [farness_at, ei, ej] using Nat.le_of_not_lt hlt

theorem farness_at_congr (s t : List window_t) (k : Nat) (h : s[k]? = t[k]?) :
    farness_at s k = farness_at t k := by
  simp [farness_at, h]

theorem sort_inner_spec (n i : Nat) (ws : List window_t) (hn : ws.length = n) (hi : i < n)
    (hP : sorted_before n i ws) :
    (sort_inner n i ws).length = n ∧ (sort_inner n i ws).Perm ws ∧
      sorted_before n (i + 1) (sort_inner n i ws) := by
  have key := forLoop_invariant (sort_step i)
    (fun j s => s.length = n ∧ s.Perm ws ∧ sorted_before n i s ∧
      ∀ k, i < k → k < j → farness_at s k ≤ farness_at s i)
    (n - (i + 1)) (i + 1) ws
    ⟨hn, List.Perm.refl _, hP, fun k h1 h2 => by omega⟩
    (by
      intro j t hij hjn ⟨hl, hp, hPt, hQ⟩
      have hjn' : j < t.length := by omega
      obtain ⟨hother, hcase⟩ := sort_step_farness i j t (by omega) hjn'
      refine ⟨by rw [sort_step_length]; exact hl, (sort_step_perm i j t).trans hp, ?_, ?_⟩
      · intro a b ha hab hb
        have haa : farness_at (sort_step i j t) a = farness_at t a :=
          farness_at_congr _ _ _ (hother a (by omega) (by omega))
        rw [haa]
        rcases hcase with ⟨he, _⟩ | ⟨h1, h2, _⟩
        · rw [he]; exact hPt a b ha hab hb
        · by_cases hbi : b = i
          · subst hbi; rw [h1]; exact hPt a j ha (by omega) (by omega)
          · by_cases hbj : b = j
            · subst hbj; rw [h2]; exact hPt a i ha (by omega) (by omega)
            · rw [farness_at_congr _ _ _ (hother b hbi hbj)]; exact hPt a b ha hab hb
      · intro k hik hkj
        rcases hcase with ⟨he, hle⟩ | ⟨h1, h2, hlt⟩
        · rw [he]
          by_cases hk : k = j
          · subst hk; exact hle
          · exact hQ k hik (by omega)
        · rw [h1]
          by_cases hk : k = j
          · subst hk; rw [h2]; omega
          · rw [farness_at_congr _ _ _ (hother k (by omega) hk)]
            have := hQ k hik (by omega)
            omega)
  have e : i + 1 + (n - (i + 1)) = n := by omega
  rw [e] at key
  obtain ⟨hl, hp, hPt, hQ⟩ := key
  refine ⟨hl, hp, ?_⟩
  intro a b ha hab hb
  by_cases hai : a = i
  · subst hai; exact hQ b hab hb
  · exact hPt a b (by omega) hab hb

theorem sort_windows_spec (ws : List window_t) :
    (sort_windows ws).length = ws.length ∧ (sort_windows ws).Perm ws ∧
      sorted_before ws.length ws.length (sort_windows ws) := by
  have key := forLoop_invariant (sort_inner ws.length)
    (fun i s => s.length = ws.length ∧ s.Perm ws ∧ sorted_before ws.length i s)
    ws.length 0 ws
    ⟨rfl, List.Perm.refl _, fun a b ha => by omega⟩
    (by
      intro i t _ hin ⟨hl, hp, hPt⟩
      obtain ⟨h1, h2, h3⟩ := sort_inner_spec ws.length i t hl (by omega) hPt
      exact ⟨h1, h2.trans hp, h3⟩)
  simpa [sort_windows] using key

theorem farness_increment_loop (ws : List window_t) :
    forLoop farness_increment ws.length 0 ws = ws.map farness_bump := by
  have key := forLoop_invariant farness_increment
    (fun j s => s.length = ws.length ∧
      ∀ k, s[k]? = if k < j then (ws[k]?).map farness_bump else ws[k]?)
    ws.length 0 ws ⟨rfl, fun k => by simp⟩
    (by
      intro j t _ hj ⟨hl, hk⟩
      have hjt : j < t.length := by omega
      have hjw : j < ws.length := by omega
      have etj : t[j]? = some ws[j] := by
        rw [hk j, if_neg (Nat.lt_irrefl j)]; exact List.getElem?_eq_getElem hjw
      refine ⟨by simp [farness_increment, etj, hl], ?_⟩
      intro k
      simp only [farness_increment, etj]
      by_cases hkj : k = j
      · subst hkj
        rw [List.getElem?_set_self hjt, if_pos (Nat.lt_succ_self k),
          List.getElem?_eq_getElem hjw]
        rfl
      · rw [List.getElem?_set_ne (Ne.symm hkj), hk k]
        by_cases h1 : k < j
        · rw [if_pos h1, if_pos (by omega)]
        · rw [if_neg h1, if_neg (by omega)])
  simp only [Nat.zero_add] at key
  apply List.ext_getElem?
  intro k
  rw [key.2 k, List.getElem?_map]
  by_cases h : k < ws.length
  · rw [if_pos h]
  · rw [if_neg h, List.getElem?_eq_none (by omega)]; rfl

theorem focus_reorder_eq (ws : List window_t) (window_id : Nat) :
    focus_reorder ws window_id = sort_windows (focus_prestep ws window_id) := by
  simp [focus_reorder, focus_prestep, farness_increment_loop]

theorem focus_prestep_length (ws : List window_t) (i : Nat) :
    (focus_prestep ws i).length = ws.length := by
  unfold focus_prestep farness_clear
  split <;> simp

theorem focus_prestep_getElem? (ws : List window_t) (i k : Nat) :
    (focus_prestep ws i)[k]? =
      (ws[k]?).map (fun w => if k = i then { w with farness := 0 } else farness_bump w) := by
  unfold focus_prestep farness_clear
  by_cases hi : i < ws.length
  · have e : (ws.map farness_bump)[i]? = some (farness_bump ws[i]) := by
      rw [List.getElem?_map, List.getElem?_eq_getElem hi]; rfl
    simp only [e]
    by_cases hk : k = i
    · subst hk
      rw [List.getElem?_set_self (by simpa using hi), List.getElem?_eq_getElem hi]
      simp [farness_bump]
    · rw [List.getElem?_set_ne (Ne.symm hk), List.getElem?_map]
      simp [hk]
  · have e : (ws.map farness_bump)[i]? = none := by
      rw [List.getElem?_map, List.getElem?_eq_none (by omega)]; rfl
    simp only [e, List.getElem?_map]
    by_cases hk : k = i
    · subst hk; rw [List.getElem?_eq_none (by omega)]; rfl
    · simp [hk]

theorem ids_distinct_index {ws : List window_t} (h : ids_distinct ws)
    {a b : Nat} {wa wb : window_t} (ha : ws[a]? = some wa) (hb : ws[b]? = some wb)
    (hea : wa.exists_ ≠ 0) (heb : wb.exists_ ≠ 0) (hid : wa.internal_id = wb.internal_id) :
    a = b := by
  rw [List.getElem?_eq_some_iff] at ha hb
  obtain ⟨hal, rfl⟩ := ha
  obtain ⟨hbl, rfl⟩ := hb
  have hp := List.pairwise_iff_getElem.mp h
  rcases Nat.lt_trichotomy a b with hlt | heq | hgt
  · exact absurd hid (hp a b hal hbl hlt hea heb)
  · exact heq
  · exact absurd hid.symm (hp b a hbl hal hgt heb hea)

theorem ids_distinct_of_index {ws : List window_t}
    (h : ∀ (a b : Nat) (wa wb : window_t), ws[a]? = some wa → ws[b]? = some wb →
      wa.exists_ ≠ 0 → wb.exists_ ≠ 0 →
      wa.internal_id = wb.internal_id → a = b) : ids_distinct ws := by
  apply List.pairwise_iff_getElem.mpr
  intro a b ha hb hab hea heb hid
  have := h a b _ _ (List.getElem?_eq_getElem ha) (List.getElem?_eq_getElem hb) hea heb hid
  omega

theorem ids_distinct_perm {l1 l2 : List window_t} (p : l1.Perm l2) (h : ids_distinct l1) :
    ids_distinct l2 := by
  unfold ids_distinct at *
  refine (List.Perm.pairwise_iff ?_ p).mp h
  intro x y hxy hy hx hid
  exact hxy hx hy hid.symm

theorem ids_distinct_prestep {ws : List window_t} (i : Nat) (h : ids_distinct ws) :
    ids_distinct (focus_prestep ws i) := by
  apply ids_distinct_of_index
  intro a b wa wb ha hb hea heb hid
  rw [focus_prestep_getElem?] at ha hb
  cases hwa : ws[a]? with
  | none => simp [hwa] at ha
  | some va =>
    cases hwb : ws[b]? with
    | none => simp [hwb] at hb
    | some vb =>
      simp only [hwa, hwb, Option.map_some', Option.some.injEq] at ha hb
      subst ha; subst hb
      refine ids_distinct_index h hwa hwb ?_ ?_ ?_
      · revert hea; split <;> simp [farness_bump]
      · revert heb; split <;> simp [farness_bump]
      · revert hid; split <;> split <;> simp [farness_bump]

theorem window_internal_id_to_index_from_found (id : Nat) :
    ∀ (ws : List window_t) (i0 k : Nat) (w : window_t), ws[k]? = some w → w.exists_ ≠ 0 →
      w.internal_id = id →
      ∃ r v, window_internal_id_to_index_from id ws i0 = i0 + r ∧ ws[r]? = some v ∧
        v.exists_ ≠ 0 ∧ v.internal_id = id ∧ r ≤ k := by
  intro ws
  induction ws with
  | nil => intro i0 k w h; simp at h
  | cons x t ih =>
    intro i0 k w hk he hid
    by_cases hx : x.exists_ ≠ 0 ∧ x.internal_id = id
    · exact ⟨0, x, by simp [window_internal_id_to_index_from, hx], by simp, hx.1, hx.2, by omega⟩
    · cases k with
      | zero =>
        simp at hk; subst hk
        exact absurd ⟨he, hid⟩ hx
      | succ k =>
        simp at hk
        obtain ⟨r, v, h1, h2, h3, h4, h5⟩ := ih (i0 + 1) k w hk he hid
        refine ⟨r + 1, v, ?_, by simpa using h2, h3, h4, by omega⟩
        rw [window_internal_id_to_index_from, if_neg hx, h1]
        omega

theorem window_internal_id_to_index_from_none (id : Nat) :
    ∀ (ws : List window_t) (i0 : Nat),
      (∀ w, w ∈ ws → ¬ (w.exists_ ≠ 0 ∧ w.internal_id = id)) →
      window_internal_id_to_index_from id ws i0 = UINT_MAX := by
  intro ws
  induction ws with
  | nil => intro i0 _; rfl
  | cons x t ih =>
    intro i0 h
    rw [window_internal_id_to_index_from, if_neg (h x (by simp))]
    exact ih (i0 + 1) (fun w hw => h w (by simp [hw]))

theorem sort_windows_sorted (ws : List window_t) : farness_sorted (sort_windows ws) := by
  obtain ⟨hl, _, hs⟩ := sort_windows_spec ws
  intro a b wa wb hab ha hb
  have hbl : b < ws.length := by
    rw [← hl]; exact (List.getElem?_eq_some_iff.mp hb).1
  have := hs a b (by omega) hab hbl
  simpa [farness_at, ha, hb] using this

theorem id_unique_of_distinct {ws : List window_t} (h : ids_distinct ws) (id : Nat) :
    id_unique ws id := by
  unfold ids_distinct at h
  unfold id_unique
  refine h.imp ?_
  intro a b hab hboth
  exact hab hboth.1.1 hboth.2.1 (hboth.1.2.trans hboth.2.2.symm)

theorem id_unique_index {ws : List window_t} {id : Nat} (h : id_unique ws id)
    {a b : Nat} {wa wb : window_t} (ha : ws[a]? = some wa) (hb : ws[b]? = some wb)
    (hea : wa.exists_ ≠ 0) (heb : wb.exists_ ≠ 0) (hia : wa.internal_id = id)
    (hib : wb.internal_id = id) : a = b := by
  rw [List.getElem?_eq_some_iff] at ha hb
  obtain ⟨hal, rfl⟩ := ha
  obtain ⟨hbl, rfl⟩ := hb
  have hp := List.pairwise_iff_getElem.mp h
  rcases Nat.lt_trichotomy a b with hlt | heq | hgt
  · exact absurd ⟨⟨hea, hia⟩, ⟨heb, hib⟩⟩ (hp a b hal hbl hlt)
  · exact heq
  · exact absurd ⟨⟨heb, hib⟩, ⟨hea, hia⟩⟩ (hp b a hbl hal hgt)

theorem id_unique_of_index {ws : List window_t} {id : Nat}
    (h : ∀ (a b : Nat) (wa wb : window_t), ws[a]? = some wa → ws[b]? = some wb →
      wa.exists_ ≠ 0 → wb.exists_ ≠ 0 → wa.internal_id = id → wb.internal_id = id → a = b) :
    id_unique ws id := by
  apply List.pairwise_iff_getElem.mpr
  intro a b ha hb hab hboth
  have := h a b _ _ (List.getElem?_eq_getElem ha) (List.getElem?_eq_getElem hb)
    hboth.1.1 hboth.2.1 hboth.1.2 hboth.2.2
  omega

theorem id_unique_perm {l1 l2 : List window_t} {id : Nat} (p : l1.Perm l2)
    (h : id_unique l1 id) : id_unique l2 id := by
  unfold id_unique at *
  refine (List.Perm.pairwise_iff ?_ p).mp h
  intro x y hxy hyx
  exact hxy ⟨hyx.2, hyx.1⟩

theorem refarness_exists (i k : Nat) (w : window_t) : (refarness i k w).exists_ = w.exists_ := by
  unfold refarness; split <;> rfl

theorem refarness_internal_id (i k : Nat) (w : window_t) :
    (refarness i k w).internal_id = w.internal_id := by
  unfold refarness; split <;> rfl

theorem refarness_visible (i k : Nat) (w : window_t) : (refarness i k w).visible = w.visible := by
  unfold refarness; split <;> rfl

theorem focus_prestep_getElem?_eq (ws : List window_t) (i k : Nat) :
    (focus_prestep ws i)[k]? = (ws[k]?).map (refarness i k) :=
  focus_prestep_getElem? ws i k

theorem focus_prestep_some {ws : List window_t} {i k : Nat} {v : window_t}
    (h : (focus_prestep ws i)[k]? = some v) : ∃ w, ws[k]? = some w ∧ v = refarness i k w := by
  rw [focus_prestep_getElem?_eq] at h
  cases hw : ws[k]? with
  | none => simp [hw] at h
  | some w => exact ⟨w, rfl, by simpa [hw] using h.symm⟩

theorem id_unique_prestep {ws : List window_t} {id : Nat} (i : Nat) (h : id_unique ws id) :
    id_unique (focus_prestep ws i) id := by
  apply id_unique_of_index
  intro a b va vb ha hb hea heb hia hib
  obtain ⟨wa, hwa, rfl⟩ := focus_prestep_some ha
  obtain ⟨wb, hwb, rfl⟩ := focus_prestep_some hb
  rw [refarness_exists] at hea heb
  rw [refarness_internal_id] at hia hib
  exact id_unique_index h hwa hwb hea heb hia hib

theorem perm_getElem?_exists {l1 l2 : List window_t} (p : l1.Perm l2) {k : Nat} {w : window_t}
    (h : l1[k]? = some w) : ∃ m : Nat, l2[m]? = some w := by
  have : w ∈ l1 := List.mem_iff_getElem?.mpr ⟨k, h⟩
  exact List.mem_iff_getElem?.mp (p.mem_iff.mp this)

/-- What the reorder of `focus_window` does to the record array. -/
theorem focus_reorder_spec (ws : List window_t) (i : Nat) (target : window_t)
    (hi : ws[i]? = some target) (he : target.exists_ ≠ 0)
    (hu : id_unique ws target.internal_id) :
    (focus_reorder ws i).length = ws.length ∧
    (focus_reorder ws i).Perm (focus_prestep ws i) ∧
    farness_sorted (focus_reorder ws i) ∧
    id_unique (focus_reorder ws i) target.internal_id ∧
    window_internal_id_to_index_list (focus_reorder ws i) target.internal_id < ws.length ∧
    (focus_reorder ws i)[window_internal_id_to_index_list (focus_reorder ws i)
      target.internal_id]? = some { target with farness := 0 } := by
  rw [focus_reorder_eq]
  obtain ⟨hl, hp, _⟩ := sort_windows_spec (focus_prestep ws i)
  have hu2 := id_unique_prestep i hu
  have hu3 := id_unique_perm hp.symm hu2
  have hpre : (focus_prestep ws i)[i]? = some { target with farness := 0 } := by
    rw [focus_prestep_getElem?_eq, hi]; simp [refarness]
  obtain ⟨m, hm⟩ := perm_getElem?_exists hp.symm hpre
  obtain ⟨r, v, h1, h2, h3, h4, _⟩ :=
    window_internal_id_to_index_from_found target.internal_id _ 0 m _ hm he rfl
  have hr : window_internal_id_to_index_list (sort_windows (focus_prestep ws i))
      target.internal_id = r := by
    simpa [window_internal_id_to_index_list] using h1
  have hrm : r = m := id_unique_index hu3 h2 hm h3 he h4 rfl
  refine ⟨by rw [hl, focus_prestep_length], hp, sort_windows_sorted _, hu3, ?_, ?_⟩
  · rw [hr, ← focus_prestep_length ws i, ← hl]
    exact (List.getElem?_eq_some_iff.mp h2).1
  · rw [hr, hrm]; exact hm

theorem focus_window_eq (wm : my_wm_t) (i : Nat) (internally : Int) (target : window_t)
    (hi : wm.windows[i]? = some target) :
    ∃ wm', focus_window wm i internally = some wm' ∧
      wm'.windows = focus_reorder wm.windows i ∧
      wm'.focused_window_id =
        window_internal_id_to_index_list (focus_reorder wm.windows i) target.internal_id ∧
      wm'.action = wm.action ∧ wm'.focused_window_x = wm.focused_window_x ∧
      wm'.focused_window_y = wm.focused_window_y := by
  unfold focus_window
  simp only [hi]
  by_cases hb : internally ≠ 0
  · simp only [if_pos hb]
    exact ⟨_, rfl, rfl, rfl, rfl, rfl, rfl⟩
  · simp only [if_neg hb]
    exact ⟨_, rfl, rfl, rfl, rfl, rfl, rfl⟩

/-! ## Stacking and focus -/

theorem focus_sequence_invariant :
    ∀ (ops : List (Nat × Int)) (wm : my_wm_t), ids_distinct wm.windows →
      focus_targets_exist wm ops = true →
      farness_sorted wm.windows ∧ focused_farness_zero wm →
      ∃ wm', focus_sequence wm ops = some wm' ∧ farness_sorted wm'.windows ∧
        focused_farness_zero wm' := by
  intro ops
  induction ops with
  | nil => intro wm _ _ h; exact ⟨wm, rfl, h⟩
  | cons op ops ih =>
    intro wm hd hok _
    unfold focus_targets_exist at hok
    cases hw : wm.windows[op.1]? with
    | none => simp [hw] at hok
    | some target =>
      obtain ⟨wm1, h1, hws, hf, _⟩ := focus_window_eq wm op.1 op.2 target hw
      simp only [hw, h1, Bool.and_eq_true, decide_eq_true_eq] at hok
      obtain ⟨_, hlt, hs, _, _, hget⟩ :=
        focus_reorder_spec wm.windows op.1 target hw hok.1 (id_unique_of_distinct hd _)
      have hp := (focus_reorder_spec wm.windows op.1 target hw hok.1
        (id_unique_of_distinct hd _)).2.1
      have hd1 : ids_distinct wm1.windows := by
        rw [hws]; exact ids_distinct_perm hp.symm (ids_distinct_prestep op.1 hd)
      have hinv : farness_sorted wm1.windows ∧ focused_farness_zero wm1 := by
        refine ⟨by rw [hws]; exact hs, ⟨_, by rw [hf, hws]; exact hget, rfl⟩⟩
      obtain ⟨wm', h2, h3⟩ := ih wm1 hd1 hok.2 hinv
      exact ⟨wm', by simp [focus_sequence, h1, h2], h3⟩

/-- C1 (stacking invariant). When the existing records have pairwise distinct
internal ids, `focus_window` on any slot of the array whose record exists
returns with the array in non-increasing farness order and with farness 0 in
the record that `focused_window_id` designates; the same holds after every
non-empty run of such focus operations. No bound on the farness values is
needed. -/
theorem focus_window_stacking_invariant (wm : my_wm_t) (hd : ids_distinct wm.windows) :
    (∀ (i : Nat) (internally : Int) (target : window_t),
      wm.windows[i]? = some target → target.exists_ ≠ 0 →
      ∃ wm', focus_window wm i internally = some wm' ∧ farness_sorted wm'.windows ∧
        focused_farness_zero wm') ∧
    (∀ ops : List (Nat × Int), ops ≠ [] → focus_targets_exist wm ops = true →
      ∃ wm', focus_sequence wm ops = some wm' ∧ farness_sorted wm'.windows ∧
        focused_farness_zero wm') := by
  constructor
  · intro i internally target hw he
    obtain ⟨wm1, h1, hws, hf, _⟩ := focus_window_eq wm i internally target hw
    obtain ⟨_, _, hs, _, _, hget⟩ :=
      focus_reorder_spec wm.windows i target hw he (id_unique_of_distinct hd _)
    exact ⟨wm1, h1, by rw [hws]; exact hs, ⟨_, by rw [hf, hws]; exact hget, rfl⟩⟩
  · intro ops hne hok
    cases ops with
    | nil => exact absurd rfl hne
    | cons op ops =>
      have hok' := hok
      unfold focus_targets_exist at hok
      cases hw : wm.windows[op.1]? with
      | none => simp [hw] at hok
      | some target =>
        obtain ⟨wm1, h1, hws, hf, _⟩ := focus_window_eq wm op.1 op.2 target hw
        simp only [hw, h1, Bool.and_eq_true, decide_eq_true_eq] at hok
        obtain ⟨_, hp, hs, _, _, hget⟩ :=
          focus_reorder_spec wm.windows op.1 target hw hok.1 (id_unique_of_distinct hd _)
        have hd1 : ids_distinct wm1.windows := by
          rw [hws]; exact ids_distinct_perm hp.symm (ids_distinct_prestep op.1 hd)
        have hinv : farness_sorted wm1.windows ∧ focused_farness_zero wm1 :=
          ⟨by rw [hws]; exact hs, ⟨_, by rw [hf, hws]; exact hget, rfl⟩⟩
        obtain ⟨wm', h2, h3⟩ := focus_sequence_invariant ops wm1 hd1 hok.2 hinv
        exact ⟨wm', by simp [focus_sequence, h1, h2], h3⟩

/-- Witness of C1 on the stack A, B, C. -/
theorem focus_window_stacking_invariant_witness :
    ids_distinct stack_abc.windows ∧
    ((∀ (i : Nat) (internally : Int) (target : window_t),
      stack_abc.windows[i]? = some target → target.exists_ ≠ 0 →
      ∃ wm', focus_window stack_abc i internally = some wm' ∧ farness_sorted wm'.windows ∧
        focused_farness_zero wm') ∧
    (∀ ops : List (Nat × Int), ops ≠ [] → focus_targets_exist stack_abc ops = true →
      ∃ wm', focus_sequence stack_abc ops = some wm' ∧ farness_sorted wm'.windows ∧
        focused_farness_zero wm')) :=
  ⟨by decide, focus_window_stacking_invariant stack_abc (by decide)⟩

/-- C2 (focus pointer re-resolved by identity). When slot `i` holds an existing
record whose internal id no other existing record has, `focus_window` returns
with `focused_window_id` equal to the index that the lookup by this internal id
gives in the reordered array; that index is inside the array, the record there
is the target (all fields but farness unchanged, farness 0), and no other slot
holds an existing record with the id. -/
theorem focus_window_resolves_by_identity (wm : my_wm_t) (i : Nat) (internally : Int)
    (target : window_t) (hi : wm.windows[i]? = some target) (he : target.exists_ ≠ 0)
    (hu : id_unique wm.windows target.internal_id) :
    ∃ wm', focus_window wm i internally = some wm' ∧
      wm'.focused_window_id = window_internal_id_to_index wm' target.internal_id ∧
      wm'.focused_window_id < wm'.window_count ∧
      wm'.windows[wm'.focused_window_id]? = some { target with farness := 0 } ∧
      (∀ (m : Nat) (w : window_t), wm'.windows[m]? = some w → w.exists_ ≠ 0 →
        w.internal_id = target.internal_id → m = wm'.focused_window_id) := by
  obtain ⟨wm1, h1, hws, hf, _⟩ := focus_window_eq wm i internally target hi
  obtain ⟨hl, _, _, hu3, hlt, hget⟩ := focus_reorder_spec wm.windows i target hi he hu
  refine ⟨wm1, h1, ?_, ?_, ?_, ?_⟩
  · rw [hf, window_internal_id_to_index, hws]
  · rw [hf, my_wm_t.window_count, hws, hl]; exact hlt
  · rw [hf, hws]; exact hget
  · intro m w hm hex hid
    rw [hws] at hm
    rw [hf]
    exact id_unique_index hu3 hm hget hex he hid rfl

/-- Witness of C2: focusing A (slot 0) of the stack A, B, C. -/
theorem focus_window_resolves_by_identity_witness :
    ∃ wm', focus_window stack_abc 0 1 = some wm' ∧
      wm'.focused_window_id = window_internal_id_to_index wm' 0 ∧
      wm'.focused_window_id < wm'.window_count ∧
      wm'.windows[wm'.focused_window_id]? = some { example_window 0 2 1 with farness := 0 } ∧
      (∀ (m : Nat) (w : window_t), wm'.windows[m]? = some w → w.exists_ ≠ 0 →
        w.internal_id = 0 → m = wm'.focused_window_id) :=
  focus_window_resolves_by_identity stack_abc 0 1 (example_window 0 2 1) rfl (by decide)
    (by decide)
theorem farness_bump_pos (w : window_t) (h : w.farness < UINT64_MAX) :
    (farness_bump w).farness = w.farness + 1 := by
  unfold UINT64_MAX at h
  show (w.farness + 1) % 2 ^ 64 = w.farness + 1
  exact Nat.mod_eq_of_lt (by omega)

/-- C3 (topmost renders last). When slot `i` holds an existing record whose
internal id no other existing record has, and every farness is below
`2 ^ 64 - 1` (no wrap-around in the increment), `focus_window` returns with the
target in the last slot, `focused_window_id = window_count - 1`, and no other
slot holds a record with farness 0. -/
theorem focus_window_topmost_last (wm : my_wm_t) (i : Nat) (internally : Int)
    (target : window_t) (hi : wm.windows[i]? = some target) (he : target.exists_ ≠ 0)
    (hu : id_unique wm.windows target.internal_id)
    (hno : ∀ w, w ∈ wm.windows → w.farness < UINT64_MAX) :
    ∃ wm', focus_window wm i internally = some wm' ∧
      wm'.focused_window_id = wm'.window_count - 1 ∧
      wm'.windows[wm'.window_count - 1]? = some { target with farness := 0 } ∧
      (∀ (m : Nat) (w : window_t), wm'.windows[m]? = some w → w.farness = 0 →
        m = wm'.window_count - 1) := by
  obtain ⟨wm1, h1, hws, hf, _⟩ := focus_window_eq wm i internally target hi
  obtain ⟨hl, hp, hs, hu3, hlt, hget⟩ := focus_reorder_spec wm.windows i target hi he hu
  -- a record of the reordered array with farness 0 sits at the focused index
  have hzero : ∀ (m : Nat) (w : window_t), (focus_reorder wm.windows i)[m]? = some w →
      w.farness = 0 →
      m = window_internal_id_to_index_list (focus_reorder wm.windows i) target.internal_id := by
    intro m w hm hz
    obtain ⟨p, hp2⟩ := perm_getElem?_exists hp hm
    obtain ⟨v, hv, rfl⟩ := focus_prestep_some hp2
    by_cases hpi : p = i
    · subst hpi
      rw [hi] at hv
      cases hv
      refine id_unique_index hu3 hm hget ?_ he ?_ rfl
      · rw [refarness_exists]; exact he
      · rw [refarness_internal_id]
    · exfalso
      have hmem : v ∈ wm.windows := List.mem_iff_getElem?.mpr ⟨p, hv⟩
      have := farness_bump_pos v (hno v hmem)
      simp only [refarness, if_neg hpi] at hz
      omega
  have hlen : wm1.window_count = wm.windows.length := by
    rw [my_wm_t.window_count, hws, hl]
  have hlast : wm.windows.length - 1 < (focus_reorder wm.windows i).length := by
    rw [hl]; omega
  have hfl : window_internal_id_to_index_list (focus_reorder wm.windows i) target.internal_id
      = wm.windows.length - 1 := by
    rcases Nat.lt_or_ge
      (window_internal_id_to_index_list (focus_reorder wm.windows i) target.internal_id)
      (wm.windows.length - 1) with hlt2 | hge
    · have hb := hs _ (wm.windows.length - 1) _ _ hlt2 hget (List.getElem?_eq_getElem hlast)
      exact (hzero _ _ (List.getElem?_eq_getElem hlast) (by simpa using hb)).symm
    · omega
  refine ⟨wm1, h1, ?_, ?_, ?_⟩
  · rw [hf, hlen, hfl]
  · rw [hlen, hws, ← hfl]; exact hget
  · intro m w hm hz
    rw [hws] at hm
    rw [hlen, ← hfl]
    exact hzero m w hm hz

/-- Witness of C3: focusing A (slot 0) of the stack A, B, C. -/
theorem focus_window_topmost_last_witness :
    ∃ wm', focus_window stack_abc 0 1 = some wm' ∧
      wm'.focused_window_id = wm'.window_count - 1 ∧
      wm'.windows[wm'.window_count - 1]? = some { example_window 0 2 1 with farness := 0 } ∧
      (∀ (m : Nat) (w : window_t), wm'.windows[m]? = some w → w.farness = 0 →
        m = wm'.window_count - 1) :=
  focus_window_topmost_last stack_abc 0 1 (example_window 0 2 1) rfl (by decide) (by decide)
    (by decide)
/-! ## The sort and ties -/

theorem forLoop_fixed {σ : Type} (body : Nat → σ → σ) (n i : Nat) (s : σ)
    (h : ∀ j, i ≤ j → j < i + n → body j s = s) : forLoop body n i s = s := by
  have := forLoop_invariant body (fun _ t => t = s) n i s rfl
    (fun j t h1 h2 ht => by subst ht; exact h j h1 h2)
  exact this

theorem sort_step_noop (i j : Nat) (s : List window_t) (a b : window_t)
    (hi : s[i]? = some a) (hj : s[j]? = some b) (h : b.farness ≤ a.farness) :
    sort_step i j s = s := by
  rw [sort_step_eq i j s a b hi hj, if_neg (by omega)]

/-- The inner loop leaves the array alone when record `q` already dominates
the records after it. -/
theorem sort_inner_noop (n q : Nat) (s : List window_t) (hn : s.length = n)
    (h : ∀ (j : Nat) (a b : window_t), q < j → s[q]? = some a → s[j]? = some b →
      b.farness ≤ a.farness) :
    sort_inner n q s = s := by
  unfold sort_inner
  apply forLoop_fixed
  intro j h1 h2
  have hj : j < s.length := by omega
  have hq : q < s.length := by omega
  exact sort_step_noop q j s _ _ (List.getElem?_eq_getElem hq) (List.getElem?_eq_getElem hj)
    (h j _ _ (by omega) (List.getElem?_eq_getElem hq) (List.getElem?_eq_getElem hj))

theorem sort_inner_rotate (L : List window_t) (i : Nat) (z : window_t) (hL : sorted_but L i z)
    (q : Nat) (s : List window_t) (hn : s.length = L.length) (hiq : i ≤ q)
    (hq : q + 1 < L.length) (hs : ∀ k : Nat, s[k]? = rotated L i q k) :
    (sort_inner L.length q s).length = L.length ∧
      ∀ k : Nat, (sort_inner L.length q s)[k]? = rotated L i (q + 1) k := by
  have hsq : s[q]? = some z := by
    rw [hs q]; unfold rotated
    rw [if_neg (by omega), if_neg (by omega), if_pos rfl]; exact hL.at_i
  have hsq1 : s[q + 1]? = some L[q + 1] := by
    rw [hs (q + 1)]; unfold rotated
    rw [if_neg (by omega), if_neg (by omega), if_neg (by omega)]
    exact List.getElem?_eq_getElem hq
  have hpos1 : 1 ≤ (L[q + 1]).farness :=
    hL.pos (q + 1) _ (by omega) (List.getElem?_eq_getElem hq)
  have hstep : sort_step q (q + 1) s = (s.set q L[q + 1]).set (q + 1) z := by
    rw [sort_step_eq q (q + 1) s _ _ hsq hsq1, if_pos (by rw [hL.zero]; omega)]
  have hs1 : ∀ k : Nat, ((s.set q L[q + 1]).set (q + 1) z)[k]? = rotated L i (q + 1) k := by
    intro k
    by_cases hk1 : k = q + 1
    · subst hk1
      rw [List.getElem?_set_self (by simp; omega)]
      unfold rotated
      rw [if_neg (by omega), if_neg (by omega), if_pos rfl]; exact hL.at_i.symm
    · rw [List.getElem?_set_ne (Ne.symm hk1)]
      by_cases hk : k = q
      · subst hk
        rw [List.getElem?_set_self (by omega)]
        unfold rotated
        rw [if_neg (by omega), if_pos (by omega)]
        exact (List.getElem?_eq_getElem hq).symm
      · rw [List.getElem?_set_ne (Ne.symm hk), hs k]
        unfold rotated
        by_cases h1 : k < i
        · rw [if_pos h1, if_pos h1]
        · rw [if_neg h1, if_neg h1]
          by_cases h2 : k < q
          · rw [if_pos h2, if_pos (by omega)]
          · rw [if_neg h2, if_neg hk, if_neg (show ¬ k < q + 1 by omega), if_neg hk1]
  have hlen1 : ((s.set q L[q + 1]).set (q + 1) z).length = L.length := by simp [hn]
  have hrest : forLoop (sort_step q) (L.length - (q + 1 + 1)) (q + 1 + 1)
      ((s.set q L[q + 1]).set (q + 1) z) = (s.set q L[q + 1]).set (q + 1) z := by
    apply forLoop_fixed
    intro j h1 h2
    have hj : j < L.length := by omega
    have e1 : ((s.set q L[q + 1]).set (q + 1) z)[q]? = some L[q + 1] := by
      rw [hs1 q]; unfold rotated
      rw [if_neg (by omega), if_pos (by omega)]; exact List.getElem?_eq_getElem hq
    have e2 : ((s.set q L[q + 1]).set (q + 1) z)[j]? = some L[j] := by
      rw [hs1 j]; unfold rotated
      rw [if_neg (by omega), if_neg (by omega), if_neg (by omega)]
      exact List.getElem?_eq_getElem hj
    exact sort_step_noop q j _ _ _ e1 e2
      (hL.ord (q + 1) j _ _ (by omega) (by omega) (by omega)
        (List.getElem?_eq_getElem hq) (List.getElem?_eq_getElem hj))
  have hunf : sort_inner L.length q s = (s.set q L[q + 1]).set (q + 1) z := by
    unfold sort_inner
    have e : L.length - (q + 1) = (L.length - (q + 1 + 1)) + 1 := by omega
    rw [e, forLoop, hstep, hrest]
  rw [hunf]
  exact ⟨hlen1, hs1⟩

theorem sort_windows_rotate (L : List window_t) (i : Nat) (z : window_t)
    (hL : sorted_but L i z) : sort_windows L = L.eraseIdx i ++ [z] := by
  have hi : i < L.length := (List.getElem?_eq_some_iff.mp hL.at_i).1
  have key := forLoop_invariant (sort_inner L.length)
    (fun q s => s.length = L.length ∧
      ∀ k : Nat, s[k]? = rotated L i (rotate_position L.length i q) k)
    L.length 0 L
    ⟨rfl, fun k => by
      have hp : rotate_position L.length i 0 = i := by
        unfold rotate_position; rw [if_pos (Nat.zero_le _)]
      rw [hp]; unfold rotated
      by_cases h1 : k < i
      · rw [if_pos h1]
      · rw [if_neg h1, if_neg h1]
        by_cases h2 : k = i
        · rw [if_pos h2, h2]
        · rw [if_neg h2]⟩
    (by
      intro q s _ hq ⟨hn, hs⟩
      simp only [Nat.zero_add] at hq
      by_cases hqi : q < i
      · -- the records before the target are in place already
        have hsL : ∀ k : Nat, s[k]? = L[k]? := by
          intro k
          have hp : rotate_position L.length i q = i := by
            unfold rotate_position; rw [if_pos (by omega)]
          rw [hs k, hp]; unfold rotated
          by_cases h1 : k < i
          · rw [if_pos h1]
          · rw [if_neg h1, if_neg h1]
            by_cases h2 : k = i
            · rw [if_pos h2, h2]
            · rw [if_neg h2]
        have hnoop : sort_inner L.length q s = s := by
          apply sort_inner_noop L.length q s hn
          intro j a b hqj ha hb
          rw [hsL] at ha hb
          by_cases hji : j = i
          · subst hji
            rw [hL.at_i] at hb; cases hb
            rw [hL.zero]; exact Nat.zero_le _
          · exact hL.ord q j a b hqj (by omega) hji ha hb
        rw [hnoop]
        refine ⟨hn, fun k => ?_⟩
        rw [hs k]
        have hp : rotate_position L.length i (q + 1) = rotate_position L.length i q := by
          unfold rotate_position
          rw [if_pos (show q + 1 ≤ i by omega), if_pos (show q ≤ i by omega)]
        rw [hp]
      · by_cases hq1 : q + 1 < L.length
        · have hpq : rotate_position L.length i q = q := by
            unfold rotate_position
            by_cases h : q ≤ i
            · rw [if_pos h]; omega
            · rw [if_neg h]; omega
          have hpq1 : rotate_position L.length i (q + 1) = q + 1 := by
            unfold rotate_position
            rw [if_neg (by omega)]; omega
          rw [hpq] at hs
          rw [hpq1]
          exact sort_inner_rotate L i z hL q s hn (by omega) hq1 hs
        · have hnoop : sort_inner L.length q s = s := by
            unfold sort_inner
            have e : L.length - (q + 1) = 0 := by omega
            rw [e]; rfl
          rw [hnoop]
          refine ⟨hn, fun k => ?_⟩
          rw [hs k]
          have e : rotate_position L.length i (q + 1) = rotate_position L.length i q := by
            unfold rotate_position
            by_cases h : q ≤ i
            · rw [if_pos h, if_neg (by omega)]; omega
            · rw [if_neg h, if_neg (by omega)]; omega
          rw [e])
  simp only [Nat.zero_add] at key
  obtain ⟨hlen, hk⟩ := key
  have hpos : rotate_position L.length i L.length = L.length - 1 := by
    unfold rotate_position
    rw [if_neg (by omega)]; omega
  rw [hpos] at hk
  apply List.ext_getElem?
  intro k
  show (forLoop (sort_inner L.length) L.length 0 L)[k]? = _
  rw [hk k]
  unfold rotated
  have hel : (L.eraseIdx i).length = L.length - 1 := List.length_eraseIdx_of_lt hi
  by_cases h1 : k < i
  · rw [if_pos h1, List.getElem?_append_left (by omega), List.getElem?_eraseIdx_of_lt _ _ _ h1]
  · rw [if_neg h1]
    by_cases h2 : k < L.length - 1
    · rw [if_pos h2, List.getElem?_append_left (by omega),
        List.getElem?_eraseIdx_of_ge _ _ _ (by omega)]
    · rw [if_neg h2, List.getElem?_append_right (by omega), hel]
      by_cases h3 : k = L.length - 1
      · rw [if_pos h3, h3, hL.at_i]; simp
      · rw [if_neg h3, List.getElem?_eq_none (by omega)]
        have : k - (L.length - 1) = (k - L.length) + 1 := by omega
        rw [this]; rfl

theorem sorted_but_prestep (ws : List window_t) (i : Nat) (target : window_t)
    (hi : ws[i]? = some target) (hs : farness_sorted ws)
    (hno : ∀ w, w ∈ ws → w.farness < UINT64_MAX) :
    sorted_but (focus_prestep ws i) i { target with farness := 0 } where
  at_i := by rw [focus_prestep_getElem?_eq, hi]; simp [refarness]
  zero := rfl
  pos := by
    intro k w hk hw
    obtain ⟨v, hv, rfl⟩ := focus_prestep_some hw
    have := farness_bump_pos v (hno v (List.mem_iff_getElem?.mpr ⟨k, hv⟩))
    simp only [refarness, if_neg hk]
    omega
  ord := by
    intro a b wa wb hab ha hb hwa hwb
    obtain ⟨va, hva, rfl⟩ := focus_prestep_some hwa
    obtain ⟨vb, hvb, rfl⟩ := focus_prestep_some hwb
    have h1 := farness_bump_pos va (hno va (List.mem_iff_getElem?.mpr ⟨a, hva⟩))
    have h2 := farness_bump_pos vb (hno vb (List.mem_iff_getElem?.mpr ⟨b, hvb⟩))
    have h3 := hs a b va vb hab hva hvb
    simp only [refarness, if_neg ha, if_neg hb]
    omega

theorem focus_prestep_eraseIdx (ws : List window_t) (i : Nat) :
    (focus_prestep ws i).eraseIdx i = (ws.eraseIdx i).map farness_bump := by
  apply List.ext_getElem?
  intro k
  rw [List.getElem?_map]
  by_cases h : k < i
  · rw [List.getElem?_eraseIdx_of_lt _ _ _ h, List.getElem?_eraseIdx_of_lt _ _ _ h,
      focus_prestep_getElem?_eq]
    cases ws[k]? with
    | none => rfl
    | some w => simp [refarness, Nat.ne_of_lt h]
  · rw [List.getElem?_eraseIdx_of_ge _ _ _ (by omega),
      List.getElem?_eraseIdx_of_ge _ _ _ (by omega), focus_prestep_getElem?_eq]
    cases ws[k + 1]? with
    | none => rfl
    | some w => simp [refarness, show k + 1 ≠ i by omega]

/-- C4, counterexample. In the array with farness 0, 0, 1, 0 (ids 0, 1, 2, 3),
focusing slot 3 gives the records of ids 0 and 1 the same farness 1; id 0 stands
before id 1 before the call and behind it after the sort (ids 2, 1, 0, 3). -/
theorem focus_window_sort_not_stable : ¬ sort_keeps_ties stack_ties.windows 3 := by
  intro h
  obtain ⟨a', b', hlt, ha, hb⟩ :=
    h 0 1 (refarness 3 0 (example_window 0 0 1)) (refarness 3 1 (example_window 1 0 1))
      (by decide) rfl rfl rfl
  have e : (focus_reorder stack_ties.windows 3).map (fun w => w.internal_id) = [2, 1, 0, 3] := by
    decide
  have ha' : ((focus_reorder stack_ties.windows 3).map (fun w => w.internal_id))[a']? = some 0 := by
    rw [List.getElem?_map, ha]; rfl
  have hb' : ((focus_reorder stack_ties.windows 3).map (fun w => w.internal_id))[b']? = some 1 := by
    rw [List.getElem?_map, hb]; rfl
  rw [e] at ha' hb'
  have h2 : a' = 2 := by
    rcases a' with _ | _ | _ | _ | a' <;> simp at ha' ⊢
  have h1 : b' = 1 := by
    rcases b' with _ | _ | _ | _ | b' <;> simp at hb' ⊢
  omega

/-- C4, amended. When the array is in non-increasing farness order before the
call and no farness is `2 ^ 64 - 1`, the sort of `focus_window` moves the target
to the last slot and leaves the other records in the order they had; in
particular records with equal farness keep their relative order. -/
theorem focus_window_sort_stable_when_sorted (wm : my_wm_t) (i : Nat) (internally : Int)
    (target : window_t) (hi : wm.windows[i]? = some target) (hs : farness_sorted wm.windows)
    (hno : ∀ w, w ∈ wm.windows → w.farness < UINT64_MAX) :
    ∃ wm', focus_window wm i internally = some wm' ∧
      wm'.windows =
        (wm.windows.eraseIdx i).map farness_bump ++ [{ target with farness := 0 }] ∧
      sort_keeps_ties wm.windows i := by
  obtain ⟨wm1, h1, hws, _⟩ := focus_window_eq wm i internally target hi
  have hL := sorted_but_prestep wm.windows i target hi hs hno
  have hrot := sort_windows_rotate _ i _ hL
  have hlen : i < (focus_prestep wm.windows i).length :=
    (List.getElem?_eq_some_iff.mp hL.at_i).1
  have hel : ((focus_prestep wm.windows i).eraseIdx i).length
      = (focus_prestep wm.windows i).length - 1 := List.length_eraseIdx_of_lt hlen
  refine ⟨wm1, h1, ?_, ?_⟩
  · rw [hws, focus_reorder_eq, hrot, focus_prestep_eraseIdx]
  · intro a b wa wb hab hwa hwb hf
    have hbl : b < (focus_prestep wm.windows i).length := (List.getElem?_eq_some_iff.mp hwb).1
    have hai : a ≠ i := by
      intro hai
      subst hai
      rw [hL.at_i] at hwa; cases hwa
      have := hL.pos b wb (by omega) hwb
      have hz : ({ target with farness := 0 } : window_t).farness = 0 := rfl
      omega
    have hbi : b ≠ i := by
      intro hbi
      subst hbi
      rw [hL.at_i] at hwb; cases hwb
      have := hL.pos a wa (by omega) hwa
      have hz : ({ target with farness := 0 } : window_t).farness = 0 := rfl
      omega
    have hplace : ∀ (k : Nat) (w : window_t), k ≠ i → (focus_prestep wm.windows i)[k]? = some w →
        (focus_reorder wm.windows i)[if k < i then k else k - 1]? = some w := by
      intro k w hk hw
      have hkl : k < (focus_prestep wm.windows i).length := (List.getElem?_eq_some_iff.mp hw).1
      rw [focus_reorder_eq, hrot]
      by_cases h : k < i
      · rw [if_pos h, List.getElem?_append_left (by omega),
          List.getElem?_eraseIdx_of_lt _ _ _ h]
        exact hw
      · rw [if_neg h, List.getElem?_append_left (by omega),
          List.getElem?_eraseIdx_of_ge _ _ _ (by omega)]
        have e : k - 1 + 1 = k := by omega
        rw [e]; exact hw
    refine ⟨_, _, ?_, hplace a wa hai hwa, hplace b wb hbi hwb⟩
    by_cases h1 : a < i
    · rw [if_pos h1]
      by_cases h2 : b < i
      · rw [if_pos h2]; exact hab
      · rw [if_neg h2]; omega
    · rw [if_neg h1, if_neg (by omega)]; omega

/-- Witness of amended C4: focusing A (slot 0) of the stack A, B, C. -/
theorem focus_window_sort_stable_when_sorted_witness :
    ∃ wm', focus_window stack_abc 0 1 = some wm' ∧
      wm'.windows =
        (stack_abc.windows.eraseIdx 0).map farness_bump ++
          [{ example_window 0 2 1 with farness := 0 }] ∧
      sort_keeps_ties stack_abc.windows 0 :=
  focus_window_sort_stable_when_sorted stack_abc 0 1 (example_window 0 2 1) rfl
    (by
      intro a b wa wb hab ha hb
      have hb3 : b < 3 := (List.getElem?_eq_some_iff.mp hb).1
      have e : stack_abc.windows.map (fun w => w.farness) = [2, 1, 0] := by decide
      have ha' : (stack_abc.windows.map (fun w => w.farness))[a]? = some wa.farness := by
        rw [List.getElem?_map, ha]; rfl
      have hb' : (stack_abc.windows.map (fun w => w.farness))[b]? = some wb.farness := by
        rw [List.getElem?_map, hb]; rfl
      rw [e] at ha' hb'
      rcases a with _ | _ | _ | a <;> rcases b with _ | _ | _ | b <;> simp at ha' hb' hab hb3 ⊢ <;>
        omega)
    (by decide)
/-! ## Slot reuse -/

theorem create_event_scan_some :
    ∀ (ws : List window_t) (i0 k : Nat) (w : window_t), ws[k]? = some w → w.exists_ = 0 →
      (∀ (m : Nat) (v : window_t), m < k → ws[m]? = some v → v.exists_ ≠ 0) →
      create_event_scan ws i0 = some (i0 + k) := by
  intro ws
  induction ws with
  | nil => intro i0 k w h; simp at h
  | cons x t ih =>
    intro i0 k w hk hw hbefore
    cases k with
    | zero =>
      simp at hk; subst hk
      simp [create_event_scan, hw]
    | succ k =>
      simp at hk
      have hx : x.exists_ ≠ 0 := hbefore 0 x (by omega) (by simp)
      rw [create_event_scan, if_neg hx,
        ih (i0 + 1) k w hk hw (fun m v hm hv => hbefore (m + 1) v (by omega) (by simpa using hv))]
      congr 1; omega

theorem create_event_scan_none :
    ∀ (ws : List window_t) (i0 : Nat), (∀ v, v ∈ ws → v.exists_ ≠ 0) →
      create_event_scan ws i0 = none := by
  intro ws
  induction ws with
  | nil => intro i0 _; rfl
  | cons x t ih =>
    intro i0 h
    rw [create_event_scan, if_neg (h x (by simp))]
    exact ih (i0 + 1) (fun v hv => h v (by simp [hv]))

theorem wm_create_notify_scan_some :
    ∀ (ws : List wm_window_t) (i0 k : Nat) (w : wm_window_t), ws[k]? = some w →
      w.exists_ = 0 →
      (∀ (m : Nat) (v : wm_window_t), m < k → ws[m]? = some v → v.exists_ ≠ 0) →
      wm_create_notify_scan ws i0 = some (i0 + k) := by
  intro ws
  induction ws with
  | nil => intro i0 k w h; simp at h
  | cons x t ih =>
    intro i0 k w hk hw hbefore
    cases k with
    | zero =>
      simp at hk; subst hk
      simp [wm_create_notify_scan, hw]
    | succ k =>
      simp at hk
      have hx : x.exists_ ≠ 0 := hbefore 0 x (by omega) (by simp)
      rw [wm_create_notify_scan, if_neg hx,
        ih (i0 + 1) k w hk hw (fun m v hm hv => hbefore (m + 1) v (by omega) (by simpa using hv))]
      congr 1; omega

theorem wm_create_notify_scan_none :
    ∀ (ws : List wm_window_t) (i0 : Nat), (∀ v, v ∈ ws → v.exists_ ≠ 0) →
      wm_create_notify_scan ws i0 = none := by
  intro ws
  induction ws with
  | nil => intro i0 _; rfl
  | cons x t ih =>
    intro i0 h
    rw [wm_create_notify_scan, if_neg (h x (by simp))]
    exact ih (i0 + 1) (fun v hv => h v (by simp [hv]))

theorem set_length_append_singleton {α : Type} (l : List α) (a b : α) :
    (l ++ [a]).set l.length b = l ++ [b] := by
  induction l with
  | nil => rfl
  | cons x t ih => simp [ih]

theorem create_event_reuse (wm : my_wm_t) (internal_id vao vbo ibo k : Nat) (w : window_t)
    (hk : wm.windows[k]? = some w) (hw : w.exists_ = 0)
    (hbefore : ∀ (m : Nat) (v : window_t), m < k → wm.windows[m]? = some v → v.exists_ ≠ 0) :
    (create_event wm internal_id vao vbo ibo).windows =
      wm.windows.set k (created_window internal_id vao vbo ibo) := by
  have h := create_event_scan_some wm.windows 0 k w hk hw hbefore
  simp only [Nat.zero_add] at h
  simp [create_event, h, created_window]

theorem create_event_append (wm : my_wm_t) (internal_id vao vbo ibo : Nat)
    (hall : ∀ v, v ∈ wm.windows → v.exists_ ≠ 0) :
    (create_event wm internal_id vao vbo ibo).windows =
      wm.windows ++ [created_window internal_id vao vbo ibo] := by
  have h := create_event_scan_none wm.windows 0 hall
  simp only [create_event, h]
  exact set_length_append_singleton _ _ _

theorem create_events_append :
    ∀ (es : List (Nat × Nat × Nat × Nat)) (wm : my_wm_t),
      (∀ v, v ∈ wm.windows → v.exists_ ≠ 0) →
      (create_events wm es).windows =
        wm.windows ++ es.map (fun e => created_window e.1 e.2.1 e.2.2.1 e.2.2.2) := by
  intro es
  induction es with
  | nil => intro wm _; simp [create_events]
  | cons e rest ih =>
    intro wm hall
    have h1 := create_event_append wm e.1 e.2.1 e.2.2.1 e.2.2.2 hall
    have hall1 : ∀ v, v ∈ (create_event wm e.1 e.2.1 e.2.2.1 e.2.2.2).windows →
        v.exists_ ≠ 0 := by
      intro v hv
      rw [h1, List.mem_append] at hv
      rcases hv with hv | hv
      · exact hall v hv
      · simp at hv; subst hv; simp [created_window]
    rw [create_events, ih _ hall1, h1]
    simp

theorem window_internal_id_to_index_unique (ws : List window_t) (k : Nat) (w : window_t)
    (hk : ws[k]? = some w) (he : w.exists_ ≠ 0) (hu : id_unique ws w.internal_id) :
    window_internal_id_to_index_list ws w.internal_id = k := by
  obtain ⟨r, v, h1, h2, h3, h4, _⟩ :=
    window_internal_id_to_index_from_found w.internal_id ws 0 k w hk he rfl
  have : r = k := id_unique_index hu h2 hk h3 he h4 rfl
  simpa [window_internal_id_to_index_list, this] using h1

/-- Destroying the window of slot `k` and creating a window again: the new
record takes slot `k`, when every slot held an existing record before. -/
theorem destroy_then_create_reuses (wm : my_wm_t) (k : Nat) (target : window_t)
    (hall : ∀ v, v ∈ wm.windows → v.exists_ ≠ 0) (hk : wm.windows[k]? = some target)
    (hu : id_unique wm.windows target.internal_id) (internal_id vao vbo ibo : Nat) :
    ∃ wm1, destroy_event wm target.internal_id = some wm1 ∧
      wm1.windows = wm.windows.set k { target with exists_ := 0 } ∧
      (create_event wm1 internal_id vao vbo ibo).windows =
        wm.windows.set k (created_window internal_id vao vbo ibo) := by
  have hidx : window_internal_id_to_index wm target.internal_id = k :=
    window_internal_id_to_index_unique wm.windows k target hk
      (hall target (List.mem_iff_getElem?.mpr ⟨k, hk⟩)) hu
  have hkl : k < wm.windows.length := (List.getElem?_eq_some_iff.mp hk).1
  refine ⟨{ wm with windows := wm.windows.set k { target with exists_ := 0 } },
    by simp [destroy_event, hidx, hk], rfl, ?_⟩
  have hreuse := create_event_reuse
    { wm with windows := wm.windows.set k { target with exists_ := 0 } }
    internal_id vao vbo ibo k { target with exists_ := 0 }
    (by simp [List.getElem?_set_self hkl]) rfl
    (by
      intro m v hm hv
      have hv' : wm.windows[m]? = some v := by
        simpa [List.getElem?_set_ne (show k ≠ m by omega)] using hv
      exact hall v (List.mem_iff_getElem?.mpr ⟨m, hv'⟩))
  rw [hreuse]
  simp

theorem id_unique_of_nodup {ws : List window_t} (h : (ws.map (fun w => w.internal_id)).Nodup)
    (id : Nat) : id_unique ws id := by
  unfold id_unique
  have hp : ws.Pairwise (fun a b => a.internal_id ≠ b.internal_id) := by
    simpa [List.Nodup, List.pairwise_map] using h
  refine hp.imp ?_
  intro a b hab hboth
  exact hab (hboth.1.2.trans hboth.2.2.symm)

/-- C5 (slot reuse). `create_event` writes the new record into the lowest
slot whose `exists` flag is clear and keeps `window_count`; when every slot
exists it appends one slot that holds the new record. The registry part of the
`CreateNotify` branch of `wm_process_events` does the same with its own array
and hands the chosen index to the create callback. After `create_event` calls
for N windows with distinct ids on an empty array, `destroy_event` on the window
of slot `k` followed by one more `create_event` puts the new record into slot
`k` of an array that still has N slots. -/
theorem create_reuses_lowest_clear_slot (wm : my_wm_t)
    (internal_id vao vbo ibo x_window : Nat) :
    (∀ (k : Nat) (w : window_t), wm.windows[k]? = some w → w.exists_ = 0 →
      (∀ (m : Nat) (v : window_t), m < k → wm.windows[m]? = some v → v.exists_ ≠ 0) →
      (create_event wm internal_id vao vbo ibo).windows =
        wm.windows.set k (created_window internal_id vao vbo ibo) ∧
      (create_event wm internal_id vao vbo ibo).window_count = wm.window_count) ∧
    ((∀ v, v ∈ wm.windows → v.exists_ ≠ 0) →
      (create_event wm internal_id vao vbo ibo).windows =
        wm.windows ++ [created_window internal_id vao vbo ibo] ∧
      (create_event wm internal_id vao vbo ibo).window_count = wm.window_count + 1) ∧
    (∀ (k : Nat) (w : wm_window_t), wm.wm.windows[k]? = some w → w.exists_ = 0 →
      (∀ (m : Nat) (v : wm_window_t), m < k → wm.wm.windows[m]? = some v → v.exists_ ≠ 0) →
      (wm_create_notify_registry wm.wm x_window).1.windows =
        wm.wm.windows.set k (created_wm_window x_window) ∧
      (wm_create_notify_registry wm.wm x_window).1.windows.length = wm.wm.windows.length ∧
      (wm_create_notify_registry wm.wm x_window).2 = k) ∧
    ((∀ v, v ∈ wm.wm.windows → v.exists_ ≠ 0) →
      (wm_create_notify_registry wm.wm x_window).1.windows =
        wm.wm.windows ++ [created_wm_window x_window] ∧
      (wm_create_notify_registry wm.wm x_window).1.windows.length = wm.wm.windows.length + 1 ∧
      (wm_create_notify_registry wm.wm x_window).2 = wm.wm.windows.length) ∧
    (∀ (es : List (Nat × Nat × Nat × Nat)) (k : Nat) (e : Nat × Nat × Nat × Nat),
      wm.windows = [] → (es.map (fun e => e.1)).Nodup → es[k]? = some e →
      (create_events wm es).window_count = es.length ∧
      ∃ wm1, destroy_event (create_events wm es) e.1 = some wm1 ∧
        (∃ w, wm1.windows[k]? = some w ∧ w.exists_ = 0) ∧
        (create_event wm1 internal_id vao vbo ibo).windows[k]? =
          some (created_window internal_id vao vbo ibo) ∧
        (create_event wm1 internal_id vao vbo ibo).window_count = es.length) := by
  refine ⟨?_, ?_, ?_, ?_, ?_⟩
  · intro k w hk hw hbefore
    have h := create_event_reuse wm internal_id vao vbo ibo k w hk hw hbefore
    exact ⟨h, by simp [my_wm_t.window_count, h]⟩
  · intro hall
    have h := create_event_append wm internal_id vao vbo ibo hall
    exact ⟨h, by simp [my_wm_t.window_count, h]⟩
  · intro k w hk hw hbefore
    have h := wm_create_notify_scan_some wm.wm.windows 0 k w hk hw hbefore
    simp only [Nat.zero_add] at h
    simp [wm_create_notify_registry, h, created_wm_window]
  · intro hall
    have h := wm_create_notify_scan_none wm.wm.windows 0 hall
    simp only [wm_create_notify_registry, h, created_wm_window]
    refine ⟨set_length_append_singleton _ _ _, ?_, ?_⟩ <;> simp
  · intro es k e hempty hnodup hk
    have hws : (create_events wm es).windows =
        es.map (fun e => created_window e.1 e.2.1 e.2.2.1 e.2.2.2) := by
      rw [create_events_append es wm (by rw [hempty]; simp), hempty]; simp
    have hall : ∀ v, v ∈ (create_events wm es).windows → v.exists_ ≠ 0 := by
      intro v hv
      rw [hws, List.mem_map] at hv
      obtain ⟨e', _, rfl⟩ := hv
      simp [created_window]
    have hkk : (create_events wm es).windows[k]? =
        some (created_window e.1 e.2.1 e.2.2.1 e.2.2.2) := by
      rw [hws, List.getElem?_map, hk]; rfl
    have hu : id_unique (create_events wm es).windows
        (created_window e.1 e.2.1 e.2.2.1 e.2.2.2).internal_id := by
      apply id_unique_of_nodup
      rw [hws, List.map_map]
      exact hnodup
    have hkl : k < (create_events wm es).windows.length := (List.getElem?_eq_some_iff.mp hkk).1
    have hlen : (create_events wm es).windows.length = es.length := by rw [hws]; simp
    obtain ⟨wm1, h1, h2, h3⟩ := destroy_then_create_reuses (create_events wm es) k _ hall hkk hu
      internal_id vao vbo ibo
    refine ⟨hlen, wm1, h1, ?_, ?_, ?_⟩
    · exact ⟨_, by rw [h2, List.getElem?_set_self hkl], rfl⟩
    · rw [h3, List.getElem?_set_self hkl]
    · rw [my_wm_t.window_count, h3, List.length_set, hlen]

/-- An instance of C5: three windows are created on an empty array, the window
of slot 1 is destroyed, and the next window takes slot 1 of three. -/
theorem create_reuses_lowest_clear_slot_witness :
    (create_events (example_state [] 0) [(0, 1, 1, 2), (1, 2, 3, 4), (2, 3, 5, 6)]).window_count
        = 3 ∧
      ∃ wm1, destroy_event
          (create_events (example_state [] 0) [(0, 1, 1, 2), (1, 2, 3, 4), (2, 3, 5, 6)]) 1
          = some wm1 ∧
        (∃ w, wm1.windows[1]? = some w ∧ w.exists_ = 0) ∧
        (create_event wm1 7 4 7 8).windows[1]? = some (created_window 7 4 7 8) ∧
        (create_event wm1 7 4 7 8).window_count = 3 :=
  (create_reuses_lowest_clear_slot (example_state [] 0) 7 4 7 8 0).2.2.2.2
    [(0, 1, 1, 2), (1, 2, 3, 4), (2, 3, 5, 6)] 1 (1, 2, 3, 4) rfl (by decide) rfl
/-! ## Lookup by external handle -/

theorem wm_find_window_by_xid_from_spec (xid : Nat) :
    ∀ (ws : List wm_window_t) (i0 : Nat),
      (wm_find_window_by_xid_from xid ws i0 = none ∧
        ∀ w, w ∈ ws → ¬ (w.exists_ ≠ 0 ∧ w.window = xid)) ∨
      (∃ (k : Nat) (w : wm_window_t), wm_find_window_by_xid_from xid ws i0 = some (i0 + k) ∧
        ws[k]? = some w ∧ w.exists_ ≠ 0 ∧ w.window = xid ∧
        ∀ (m : Nat) (v : wm_window_t), m < k → ws[m]? = some v →
          ¬ (v.exists_ ≠ 0 ∧ v.window = xid)) := by
  intro ws
  induction ws with
  | nil => intro i0; exact Or.inl ⟨rfl, fun w hw => by simp at hw⟩
  | cons x t ih =>
    intro i0
    by_cases hx : x.exists_ ≠ 0 ∧ x.window = xid
    · refine Or.inr ⟨0, x, by simp [wm_find_window_by_xid_from, hx], by simp, hx.1, hx.2, ?_⟩
      intro m v hm; omega
    · rcases ih (i0 + 1) with ⟨h1, h2⟩ | ⟨k, w, h1, h2, h3, h4, h5⟩
      · refine Or.inl ⟨by rw [wm_find_window_by_xid_from, if_neg hx, h1], ?_⟩
        intro w hw
        rcases List.mem_cons.mp hw with rfl | hw
        · exact hx
        · exact h2 w hw
      · refine Or.inr ⟨k + 1, w, ?_, by simpa using h2, h3, h4, ?_⟩
        · rw [wm_find_window_by_xid_from, if_neg hx, h1]; congr 1; omega
        · intro m v hm hv
          cases m with
          | zero => simp at hv; subst hv; exact hx
          | succ m => exact h5 m v (by omega) (by simpa using hv)

/-- C6 (lookup by external handle is filtered by `exists`). In every build and
for every registry and handle, `wm_find_window_by_xid` returns; the result is
either -1, and then no record both exists and stores the handle, or the least
index whose record exists and stores the handle. A slot whose `exists` flag is
clear is never returned, whatever handle it stores. -/
theorem wm_find_window_by_xid_filtered (b : build_t) (wm : wm_t) (xid : Nat) :
    (wm_find_window_by_xid b wm xid = some (-1) ∧
      ∀ w, w ∈ wm.windows → ¬ (w.exists_ ≠ 0 ∧ w.window = xid)) ∨
    (∃ (k : Nat) (w : wm_window_t), wm_find_window_by_xid b wm xid = some (k : Int) ∧
      wm.windows[k]? = some w ∧ w.exists_ ≠ 0 ∧ w.window = xid ∧
      ∀ (m : Nat) (v : wm_window_t), m < k → wm.windows[m]? = some v →
        ¬ (v.exists_ ≠ 0 ∧ v.window = xid)) := by
  have hdef : (wm_h_DEBUGGING b).isNone = false := by
    unfold wm_h_DEBUGGING; cases b.DEBUGGING <;> rfl
  rcases wm_find_window_by_xid_from_spec xid wm.windows 0 with ⟨h1, h2⟩ | ⟨k, w, h1, h2⟩
  · exact Or.inl ⟨by simp [wm_find_window_by_xid, h1, hdef], h2⟩
  · simp only [Nat.zero_add] at h1
    exact Or.inr ⟨k, w, by simp [wm_find_window_by_xid, h1], h2⟩

/-- C7 (lookup miss policy): the code at the failing input. In a build that does
not define `DEBUGGING` (the normal operating mode) the lookup of a handle that no
existing record stores returns -1; `wm_error` is not reached. -/
theorem wm_find_window_by_xid_miss_not_fatal :
    wm_find_window_by_xid { DEBUGGING := none } example_tombstone_wm_t 7 = some (-1) := by
  decide
/-! ## Focus fallback -/

theorem to_unsigned_natCast (n : Nat) (h : n < 2 ^ 32) : to_unsigned (n : Int) = n := by
  unfold to_unsigned
  have : ((n : Int) % 2 ^ 32) = (n : Int) := Int.emod_eq_of_lt (by omega) (by omega)
  rw [this]; simp

theorem to_int_of_lt (u : Nat) (h : u < 2 ^ 31) : to_int u = (u : Int) := by
  unfold to_int
  have h1 : u % 2 ^ 32 = u := Nat.mod_eq_of_lt (by omega)
  rw [h1, if_pos h]

theorem ids_distinct_set {ws : List window_t} (h : ids_distinct ws) (k : Nat) (w w' : window_t)
    (hk : ws[k]? = some w) (hid : w'.internal_id = w.internal_id)
    (hex : w'.exists_ ≠ 0 → w.exists_ ≠ 0) : ids_distinct (ws.set k w') := by
  have hkl : k < ws.length := (List.getElem?_eq_some_iff.mp hk).1
  have hget : ∀ (a : Nat) (wa : window_t), (ws.set k w')[a]? = some wa →
      ∃ va, ws[a]? = some va ∧ va.internal_id = wa.internal_id ∧
        (wa.exists_ ≠ 0 → va.exists_ ≠ 0) := by
    intro a wa ha
    by_cases hak : a = k
    · subst hak
      rw [List.getElem?_set_self hkl] at ha
      cases ha
      exact ⟨w, hk, hid.symm, hex⟩
    · rw [List.getElem?_set_ne (Ne.symm hak)] at ha
      exact ⟨wa, ha, rfl, id⟩
  apply ids_distinct_of_index
  intro a b wa wb ha hb hea heb hidab
  obtain ⟨va, hva, hia, hxa⟩ := hget a wa ha
  obtain ⟨vb, hvb, hib, hxb⟩ := hget b wb hb
  exact ids_distinct_index h hva hvb (hxa hea) (hxb heb) (by rw [hia, hib, hidab])

/-- The backward scan of `unfocus_window` stops at the first record, going
down from slot `k - 1`, that exists and is visible, and focuses it. -/
theorem unfocus_loop_finds (wm : my_wm_t) (j : Nat) (candidate : window_t)
    (hc : wm.windows[j]? = some candidate) (hce : candidate.exists_ ≠ 0)
    (hcv : candidate.visible ≠ 0) (hf32 : wm.focused_window_id < 2 ^ 32) :
    ∀ k : Nat, j < k → k ≤ wm.focused_window_id → k ≤ wm.windows.length →
      (∀ (m : Nat) (v : window_t), j < m → m < k → wm.windows[m]? = some v →
        ¬ (v.exists_ ≠ 0 ∧ v.visible ≠ 0)) →
      unfocus_loop wm k = focus_window wm j 1 := by
  intro k
  induction k with
  | zero => intro h; omega
  | succ k ih =>
    intro hjk hkf hkl hskip
    have hne : to_unsigned (k : Int) ≠ wm.focused_window_id := by
      rw [to_unsigned_natCast k (by omega)]; omega
    rw [unfocus_loop, if_pos hne]
    by_cases hkj : k = j
    · subst hkj
      simp [hc, hce, hcv]
    · have hk : wm.windows[k]? = some wm.windows[k] := List.getElem?_eq_getElem (by omega)
      have hno := hskip k _ (by omega) (by omega) hk
      simp only [hk]
      rw [if_neg hno]
      exact ih (by omega) (by omega) (by omega)
        (fun m v h1 h2 h3 => hskip m v h1 (by omega) h3)

/-- The call `modify_event` with `visible = 0` on the focused, visible window: the
record is updated and `unfocus_window` runs. -/
theorem modify_event_hide_focused (wm : my_wm_t) (x y width height : ℚ) (focused : window_t)
    (hcount : wm.windows.length < 2 ^ 31) (hd : ids_distinct wm.windows)
    (hf : wm.windows[wm.focused_window_id]? = some focused) (hfe : focused.exists_ ≠ 0)
    (hfv : focused.visible ≠ 0) :
    modify_event wm focused.internal_id 0 x y width height =
      unfocus_window { wm with
        windows := wm.windows.set wm.focused_window_id
          (modified_window focused 0 x y width height) } := by
  have hfl : wm.focused_window_id < wm.windows.length := (List.getElem?_eq_some_iff.mp hf).1
  have hidx : window_internal_id_to_index wm focused.internal_id = wm.focused_window_id :=
    window_internal_id_to_index_unique wm.windows _ focused hf hfe (id_unique_of_distinct hd _)
  have hti : to_int wm.focused_window_id = (wm.focused_window_id : Int) :=
    to_int_of_lt _ (by omega)
  have htu : to_unsigned (wm.focused_window_id : Int) = wm.focused_window_id :=
    to_unsigned_natCast _ (by omega)
  unfold modify_event
  simp only [hidx, hti, window_at, Int.toNat_ofNat, Int.natCast_nonneg, if_true, hf]
  simp [htu, hfv, modified_window]

/-- The call `focus_window` on a slot that holds an existing record with an id of its
own: the call returns, the array is the reordered one, and the focus index
designates the target. -/
theorem focus_window_spec (wm : my_wm_t) (i : Nat) (internally : Int) (target : window_t)
    (hi : wm.windows[i]? = some target) (he : target.exists_ ≠ 0)
    (hu : id_unique wm.windows target.internal_id) :
    ∃ wm', focus_window wm i internally = some wm' ∧
      wm'.windows = focus_reorder wm.windows i ∧
      wm'.windows.length = wm.windows.length ∧
      wm'.windows.Perm (focus_prestep wm.windows i) ∧
      wm'.focused_window_id < wm.windows.length ∧
      wm'.windows[wm'.focused_window_id]? = some { target with farness := 0 } ∧
      wm'.action = wm.action := by
  obtain ⟨wm1, h1, hws, hf, ha, _⟩ := focus_window_eq wm i internally target hi
  obtain ⟨hl, hp, _, _, hlt, hget⟩ := focus_reorder_spec wm.windows i target hi he hu
  exact ⟨wm1, h1, hws, by rw [hws, hl], by rw [hws]; exact hp, by rw [hf]; exact hlt,
    by rw [hf, hws]; exact hget, ha⟩

theorem unfocus_window_start (wm : my_wm_t) (h1 : 1 ≤ wm.focused_window_id)
    (h2 : wm.focused_window_id < 2 ^ 31) :
    unfocus_window wm = unfocus_loop wm wm.focused_window_id := by
  have e1 : (wm.focused_window_id + 2 ^ 32 - 1) % 2 ^ 32 = wm.focused_window_id - 1 := by
    have : wm.focused_window_id + 2 ^ 32 - 1 = (wm.focused_window_id - 1) + 2 ^ 32 := by omega
    rw [this, Nat.add_mod_right]
    exact Nat.mod_eq_of_lt (by omega)
  have e2 : to_int (wm.focused_window_id - 1) = ((wm.focused_window_id - 1 : Nat) : Int) :=
    to_int_of_lt _ (by omega)
  have e3 : ¬ (((wm.focused_window_id - 1 : Nat) : Int) < 0) := by omega
  have e4 : (((wm.focused_window_id - 1 : Nat) : Int)).toNat + 1 = wm.focused_window_id := by
    rw [Int.toNat_ofNat]; omega
  unfold unfocus_window
  rw [e1, e2]
  simp only [e3, e4, if_false]

/-- The scan of `unfocus_window` focuses the nearest record below the focused
index that exists and is visible. -/
theorem unfocus_window_finds (wm : my_wm_t) (j : Nat) (candidate : window_t)
    (hc : wm.windows[j]? = some candidate) (hce : candidate.exists_ ≠ 0)
    (hcv : candidate.visible ≠ 0) (hj : j < wm.focused_window_id)
    (hfl : wm.focused_window_id ≤ wm.windows.length) (hcount : wm.windows.length < 2 ^ 31)
    (hskip : ∀ (m : Nat) (v : window_t), j < m → m < wm.focused_window_id →
      wm.windows[m]? = some v → ¬ (v.exists_ ≠ 0 ∧ v.visible ≠ 0)) :
    unfocus_window wm = focus_window wm j 1 := by
  rw [unfocus_window_start wm (by omega) (by omega)]
  exact unfocus_loop_finds wm j candidate hc hce hcv (by omega) wm.focused_window_id hj
    (Nat.le_refl _) hfl hskip

/-- C8 (focus fallback). When `modify_event` reports `visible = 0` for the
focused window, which exists and was visible, and slot `j` is the greatest
index below the focused index whose record both exists and is visible, the call
returns with `focused_window_id` designating that record, with farness 0;
records between `j` and the focused index, hidden or with a clear `exists`
flag, are passed over. (The array has fewer than `2 ^ 31` slots, `window_count`
being an `int`, and existing records have pairwise distinct ids.) -/
theorem modify_event_focus_fallback (wm : my_wm_t) (x y width height : ℚ)
    (focused candidate : window_t) (j : Nat)
    (hcount : wm.windows.length < 2 ^ 31) (hd : ids_distinct wm.windows)
    (hf : wm.windows[wm.focused_window_id]? = some focused) (hfe : focused.exists_ ≠ 0)
    (hfv : focused.visible ≠ 0)
    (hj : j < wm.focused_window_id) (hc : wm.windows[j]? = some candidate)
    (hce : candidate.exists_ ≠ 0) (hcv : candidate.visible ≠ 0)
    (hskip : ∀ (m : Nat) (v : window_t), j < m → m < wm.focused_window_id →
      wm.windows[m]? = some v → ¬ (v.exists_ ≠ 0 ∧ v.visible ≠ 0)) :
    ∃ wm', modify_event wm focused.internal_id 0 x y width height = some wm' ∧
      wm'.windows[wm'.focused_window_id]? = some { candidate with farness := 0 } ∧
      wm'.window_count = wm.window_count := by
  have hfl : wm.focused_window_id < wm.windows.length := (List.getElem?_eq_some_iff.mp hf).1
  rw [modify_event_hide_focused wm x y width height focused hcount hd hf hfe hfv]
  have hd1 : ids_distinct (wm.windows.set wm.focused_window_id
      (modified_window focused 0 x y width height)) :=
    ids_distinct_set hd _ focused _ hf rfl (fun _ => hfe)
  have hc1 : (wm.windows.set wm.focused_window_id
      (modified_window focused 0 x y width height))[j]? = some candidate := by
    rw [List.getElem?_set_ne (by omega)]; exact hc
  have key := unfocus_window_finds
    { wm with
      windows := wm.windows.set wm.focused_window_id (modified_window focused 0 x y width height) }
    j candidate hc1 hce hcv hj (by simp; omega) (by simpa using hcount)
    (by
      intro m v h1 h2 h3
      have h2' : m < wm.focused_window_id := h2
      have h3' : (wm.windows.set wm.focused_window_id
          (modified_window focused 0 x y width height))[m]? = some v := h3
      rw [List.getElem?_set_ne (by omega)] at h3'
      exact hskip m v h1 h2' h3')
  rw [key]
  obtain ⟨wm', h1, _, h3, _, _, h6, _⟩ :=
    focus_window_spec
      { wm with
        windows := wm.windows.set wm.focused_window_id
          (modified_window focused 0 x y width height) }
      j 1 candidate hc1 hce (id_unique_of_distinct hd1 _)
  exact ⟨wm', h1, h6, by simpa [my_wm_t.window_count] using h3⟩

/-- Witness of C8, the example of the claim: in the stack A (farness 2,
visible), B (farness 1, hidden), C (farness 0, visible, focused), hiding C
leaves A as the focused record, with farness 0. -/
theorem modify_event_focus_fallback_witness :
    ∃ wm', modify_event stack_abc 2 0 0 0 1 1 = some wm' ∧
      wm'.windows[wm'.focused_window_id]? = some { example_window 0 2 1 with farness := 0 } ∧
      wm'.window_count = stack_abc.window_count :=
  modify_event_focus_fallback stack_abc 0 0 1 1 (example_window 2 0 1) (example_window 0 2 1) 0
    (by decide) (by decide) rfl (by decide) (by decide) (by decide) rfl (by decide) (by decide)
    (by
      intro m v h1 h2 h3
      have h2' : m < 2 := h2
      have hm : m = 1 := by omega
      subst hm
      have : v = example_window 1 1 0 := by
        have h4 : stack_abc.windows[1]? = some (example_window 1 1 0) := rfl
        rw [h4] at h3
        exact (Option.some.inj h3).symm
      subst this
      decide)
/-! ## Hiding the focused window when nothing else can take the focus -/

theorem unfocus_loop_none (wm : my_wm_t) (hf32 : wm.focused_window_id < 2 ^ 32) :
    ∀ k : Nat, k ≤ wm.focused_window_id → k ≤ wm.windows.length →
      (∀ (m : Nat) (v : window_t), m < k → wm.windows[m]? = some v →
        ¬ (v.exists_ ≠ 0 ∧ v.visible ≠ 0)) →
      unfocus_loop wm k = some wm := by
  intro k
  induction k with
  | zero => intro _ _ _; rfl
  | succ k ih =>
    intro hkf hkl hnone
    have hne : to_unsigned (k : Int) ≠ wm.focused_window_id := by
      rw [to_unsigned_natCast k (by omega)]; omega
    have hk : wm.windows[k]? = some wm.windows[k] := List.getElem?_eq_getElem (by omega)
    rw [unfocus_loop, if_pos hne]
    simp only [hk]
    rw [if_neg (hnone k _ (by omega) hk)]
    exact ih (by omega) (by omega) (fun m v h1 h2 => hnone m v (by omega) h2)

theorem unfocus_window_zero (wm : my_wm_t) (h : wm.focused_window_id = 0) :
    unfocus_window wm = some wm := by
  unfold unfocus_window
  rw [h]
  have : to_int ((0 + 2 ^ 32 - 1) % 2 ^ 32) = -1 := by decide
  simp only [this]
  rfl

theorem unfocus_window_none (wm : my_wm_t) (hcount : wm.windows.length < 2 ^ 31)
    (hfl : wm.focused_window_id ≤ wm.windows.length)
    (hnone : ∀ (m : Nat) (v : window_t), m < wm.focused_window_id → wm.windows[m]? = some v →
      ¬ (v.exists_ ≠ 0 ∧ v.visible ≠ 0)) :
    unfocus_window wm = some wm := by
  by_cases h0 : wm.focused_window_id = 0
  · exact unfocus_window_zero wm h0
  · rw [unfocus_window_start wm (by omega) (by omega)]
    exact unfocus_loop_none wm (by omega) _ (Nat.le_refl _) hfl hnone

/-- C9, counterexample. Hiding the only window, which is focused: the call
returns and `focused_window_id` still designates that window, now hidden. -/
theorem modify_event_hide_last_keeps_focus :
    ∃ wm', modify_event lone_window 0 0 0 0 1 1 = some wm' ∧ ¬ no_window_holds_focus wm' ∧
      ∃ w, wm'.windows[wm'.focused_window_id]? = some w ∧ w.internal_id = 0 ∧
        w.exists_ = 1 ∧ w.visible = 0 := by
  have h := modify_event_hide_focused lone_window 0 0 1 1 (example_window 0 0 1)
    (by decide) (by decide) rfl (by decide) (by decide)
  have h2 := unfocus_window_zero
    { lone_window with
      windows := lone_window.windows.set lone_window.focused_window_id
        (modified_window (example_window 0 0 1) 0 0 0 1 1) } rfl
  refine ⟨_, h.trans h2, ?_, ⟨modified_window (example_window 0 0 1) 0 0 0 1 1, rfl, rfl, rfl, rfl⟩⟩
  intro hn
  have : (lone_window.windows.set lone_window.focused_window_id
      (modified_window (example_window 0 0 1) 0 0 0 1 1))[0]? = none := hn
  simp [lone_window, example_state] at this

/-- C9, amended. When `unfocus_window` is called and no record below the
focused index both exists and is visible, the call returns the state unchanged:
`focused_window_id` keeps designating the record it designated, the window just
hidden. (The array has fewer than `2 ^ 31` slots.) -/
theorem unfocus_window_without_candidate (wm : my_wm_t) (focused : window_t)
    (hcount : wm.windows.length < 2 ^ 31)
    (hf : wm.windows[wm.focused_window_id]? = some focused)
    (hnone : ∀ (m : Nat) (v : window_t), m < wm.focused_window_id → wm.windows[m]? = some v →
      ¬ (v.exists_ ≠ 0 ∧ v.visible ≠ 0)) :
    unfocus_window wm = some wm ∧ wm.windows[wm.focused_window_id]? = some focused :=
  ⟨unfocus_window_none wm hcount (Nat.le_of_lt (List.getElem?_eq_some_iff.mp hf).1) hnone, hf⟩

/-- Witness of amended C9: B (hidden) and a hidden, focused window above it. -/
theorem unfocus_window_without_candidate_witness :
    unfocus_window (example_state [example_window 1 1 0, example_window 2 0 0] 1) =
        some (example_state [example_window 1 1 0, example_window 2 0 0] 1) ∧
      (example_state [example_window 1 1 0, example_window 2 0 0] 1).windows[
        (example_state [example_window 1 1 0, example_window 2 0 0] 1).focused_window_id]? =
        some (example_window 2 0 0) :=
  unfocus_window_without_candidate (example_state [example_window 1 1 0, example_window 2 0 0] 1)
    (example_window 2 0 0) (by decide) rfl
    (by
      intro m v h1 h2
      have h1' : m < 1 := h1
      have hm : m = 0 := by omega
      subst hm
      have h3 : (example_state [example_window 1 1 0, example_window 2 0 0] 1).windows[0]? =
          some (example_window 1 1 0) := rfl
      rw [h3] at h2
      have : v = example_window 1 1 0 := (Option.some.inj h2).symm
      subst this
      decide)
/-! ## Validity of the focus along runs of events -/

/-- C10, counterexample. From the initial state, a window is created, shown
(which focuses it) and hidden again; all three events are well-formed. The
state reached has a focused window in its past, and `focused_window_id`
designates a record that is not visible. -/
theorem focus_not_always_valid :
    ∃ wm, reachable event_well_formed wm true ∧ ¬ focus_valid wm := by
  have r0 : reachable event_well_formed (example_state [] 0) false :=
    reachable.init _ ⟨rfl, rfl, rfl⟩
  have r1 := reachable.step _ _ _ (event_t.create 0 1 1 2) r0
    (by
      refine ⟨?_, by decide⟩
      rintro ⟨w, hw, _⟩
      simp [example_state] at hw)
    rfl
  have r2 := reachable.step _ _ _ (event_t.modify 0 1 0 0 1 1) r1
    ⟨_, List.mem_iff_getElem?.mpr ⟨0, rfl⟩, by decide, rfl⟩
    rfl
  have r3 := reachable.step _ _ _ (event_t.modify 0 0 0 0 1 1) r2
    ⟨_, List.mem_iff_getElem?.mpr ⟨0, rfl⟩, by decide, rfl⟩
    rfl
  refine ⟨_, r3, ?_⟩
  rintro ⟨w, hw, -, hv⟩
  apply hv
  have h := congrArg (Option.map (fun w : window_t => w.visible)) hw
  exact Option.some.inj (h.symm.trans (by rfl))

/-- Writing into one record, without touching its id, `exists` or `visible`,
keeps the run invariant. -/
theorem run_invariant_set (wm wm' : my_wm_t) (f : Bool) (k : Nat) (w w' : window_t)
    (hk : wm.windows[k]? = some w) (hws : wm'.windows = wm.windows.set k w')
    (hfoc : wm'.focused_window_id = wm.focused_window_id)
    (hid : w'.internal_id = w.internal_id) (hex : w'.exists_ = w.exists_)
    (hvis : w'.visible = w.visible) (h : run_invariant wm f) : run_invariant wm' f := by
  obtain ⟨hd, hlen, hval, hinv⟩ := h
  have hkl : k < wm.windows.length := (List.getElem?_eq_some_iff.mp hk).1
  refine ⟨?_, ?_, ?_, ?_⟩
  · rw [hws]; exact ids_distinct_set hd k w w' hk hid (by rw [hex]; exact id)
  · rw [hws, List.length_set]; exact hlen
  · intro hf
    obtain ⟨v, hv, hve, hvv⟩ := hval hf
    unfold focus_valid
    rw [hfoc, hws]
    by_cases hkf : k = wm.focused_window_id
    · subst hkf
      rw [hk] at hv; cases hv
      exact ⟨w', List.getElem?_set_self hkl, by rw [hex]; exact hve, by rw [hvis]; exact hvv⟩
    · exact ⟨v, by rw [List.getElem?_set_ne hkf]; exact hv, hve, hvv⟩
  · intro hf v hv
    rw [hws] at hv
    rcases List.mem_or_eq_of_mem_set hv with hv | hv
    · exact hinv hf v hv
    · rw [hv, hvis]; exact hinv hf w (List.mem_iff_getElem?.mpr ⟨k, hk⟩)

/-- A state with the same record array and focus index has the same run
invariant. -/
theorem run_invariant_same (wm wm' : my_wm_t) (f : Bool) (hws : wm'.windows = wm.windows)
    (hfoc : wm'.focused_window_id = wm.focused_window_id) (h : run_invariant wm f) :
    run_invariant wm' f := by
  obtain ⟨hd, hlen, hval, hinv⟩ := h
  refine ⟨by rw [hws]; exact hd, by rw [hws]; exact hlen, ?_, by rw [hws]; exact hinv⟩
  intro hf
  obtain ⟨v, hv, hve, hvv⟩ := hval hf
  exact ⟨v, by rw [hfoc, hws]; exact hv, hve, hvv⟩

/-- After `focus_window` on an existing, visible record the run invariant
holds with the flag set. -/
theorem run_invariant_focus (wm : my_wm_t) (i : Nat) (internally : Int) (target : window_t)
    (hd : ids_distinct wm.windows) (hlen : wm.windows.length < 2 ^ 31)
    (hi : wm.windows[i]? = some target) (he : target.exists_ ≠ 0)
    (hv : target.visible ≠ 0) :
    ∃ wm', focus_window wm i internally = some wm' ∧ run_invariant wm' true := by
  obtain ⟨wm', h1, _, h3, h4, _, h6, _⟩ :=
    focus_window_spec wm i internally target hi he (id_unique_of_distinct hd _)
  refine ⟨wm', h1, ids_distinct_perm h4.symm (ids_distinct_prestep i hd), by rw [h3]; exact hlen,
    fun _ => ⟨_, h6, he, hv⟩, fun h => by cases h⟩

theorem move_event_invariant (wm wm' : my_wm_t) (internal_id modifiers : Nat) (x y : ℚ)
    (f : Bool) (h : move_event wm internal_id modifiers x y = some wm')
    (hI : run_invariant wm f) : run_invariant wm' f := by
  unfold move_event at h
  split at h
  · split at h
    · cases h
    · rename_i window hw
      split at h
      · split at h
        · cases h
          exact run_invariant_set wm _ f _ window _ hw rfl rfl rfl rfl rfl hI
        · split at h
          · cases h
            exact run_invariant_set wm _ f _ window _ hw rfl rfl rfl rfl rfl hI
          · cases h; exact hI
      · cases h; exact hI
  · cases h; exact hI

theorem maximize_window_invariant (wm wm' : my_wm_t) (window_id : Nat) (single_monitor : Int)
    (f : Bool) (h : maximize_window wm window_id single_monitor = some wm')
    (hI : run_invariant wm f) : run_invariant wm' f := by
  unfold maximize_window at h
  split at h
  · cases h
  · rename_i window hw
    split at h
    · cases h
      exact run_invariant_set wm _ f _ window _ hw rfl rfl rfl rfl rfl hI
    · simp only at h
      split at h
      · split at h
        · cases h
        · cases h
          exact run_invariant_set wm _ f _ window _ hw rfl rfl rfl rfl rfl hI
        · cases h
          exact run_invariant_set wm _ f _ window _ hw rfl rfl rfl rfl rfl hI
      · cases h
        exact run_invariant_set wm _ f _ window _ hw rfl rfl rfl rfl rfl hI

theorem keyboard_event_invariant (wm wm' : my_wm_t) (internal_id press modifiers key : Nat)
    (f : Bool) (h : keyboard_event wm internal_id press modifiers key = some wm')
    (hI : run_invariant wm f) : run_invariant wm' f := by
  unfold keyboard_event at h
  simp only [Option.bind_eq_bind] at h
  -- first statement: `running`
  have h1 : run_invariant
      (if press ≠ 0 ∧ modifiers &&& 0x40 ≠ 0 ∧ key = 67 then { wm with running := 0 } else wm)
      f := by
    split
    · exact run_invariant_same wm _ f rfl rfl hI
    · exact hI
  generalize (if press ≠ 0 ∧ modifiers &&& 0x40 ≠ 0 ∧ key = 67 then
    ({ wm with running := 0 } : my_wm_t) else wm) = wm1 at h h1
  rw [Option.bind_eq_some] at h
  obtain ⟨wm2, h2, h⟩ := h
  have hI2 : run_invariant wm2 f := by
    split at h2
    · split at h2
      · cases h2
      · cases h2; exact run_invariant_same wm1 _ f rfl rfl h1
    · cases h2; exact h1
  rw [Option.bind_eq_some] at h
  obtain ⟨wm3, h3, h⟩ := h
  have hI3 : run_invariant wm3 f := by
    split at h3
    · exact maximize_window_invariant _ _ _ _ f h3 hI2
    · cases h3; exact hI2
  rw [Option.bind_eq_some] at h
  obtain ⟨wm4, h4, h⟩ := h
  have hI4 : run_invariant wm4 f := by
    split at h4
    · exact maximize_window_invariant _ _ _ _ f h4 hI3
    · cases h4; exact hI3
  split at h
  · cases h
  · cases h
    split
    · exact run_invariant_same wm4 _ f rfl rfl hI4
    · exact hI4

theorem destroy_event_invariant (wm wm' : my_wm_t) (internal_id : Nat) (f : Bool)
    (hok : event_admitted wm (event_t.destroy internal_id))
    (h : destroy_event wm internal_id = some wm') (hI : run_invariant wm f) :
    run_invariant wm' f := by
  obtain ⟨w, hw, hwe, hwi, hwv⟩ := hok
  obtain ⟨k, hk⟩ := List.mem_iff_getElem?.mp hw
  obtain ⟨hd, hlen, hval, hinv⟩ := hI
  have hidx : window_internal_id_to_index wm internal_id = k := by
    rw [← hwi]
    exact window_internal_id_to_index_unique wm.windows k w hk hwe (id_unique_of_distinct hd _)
  have hkl : k < wm.windows.length := (List.getElem?_eq_some_iff.mp hk).1
  simp only [destroy_event, hidx, hk] at h
  cases h
  refine ⟨ids_distinct_set hd k w _ hk rfl (fun h => absurd rfl h), by simpa using hlen, ?_, ?_⟩
  · intro hf
    obtain ⟨v, hv, hve, hvv⟩ := hval hf
    have hkf : k ≠ wm.focused_window_id := by
      intro hkf; subst hkf
      rw [hk] at hv; cases hv
      exact hvv hwv
    exact ⟨v, by show (wm.windows.set k _)[wm.focused_window_id]? = some v
                 rw [List.getElem?_set_ne hkf]; exact hv, hve, hvv⟩
  · intro hf v hv
    rcases List.mem_or_eq_of_mem_set hv with hv | hv
    · exact hinv hf v hv
    · rw [hv]; exact hwv

theorem create_event_scan_spec :
    ∀ (ws : List window_t) (i0 : Nat),
      (create_event_scan ws i0 = none ∧ ∀ v, v ∈ ws → v.exists_ ≠ 0) ∨
      (∃ (k : Nat) (w : window_t), create_event_scan ws i0 = some (i0 + k) ∧
        ws[k]? = some w ∧ w.exists_ = 0) := by
  intro ws
  induction ws with
  | nil => intro i0; exact Or.inl ⟨rfl, fun v hv => by simp at hv⟩
  | cons x t ih =>
    intro i0
    by_cases hx : x.exists_ = 0
    · exact Or.inr ⟨0, x, by simp [create_event_scan, hx], by simp, hx⟩
    · rcases ih (i0 + 1) with ⟨h1, h2⟩ | ⟨k, w, h1, h2, h3⟩
      · refine Or.inl ⟨by rw [create_event_scan, if_neg hx, h1], ?_⟩
        intro v hv
        rcases List.mem_cons.mp hv with rfl | hv
        · exact hx
        · exact h2 v hv
      · refine Or.inr ⟨k + 1, w, ?_, by simpa using h2, h3⟩
        rw [create_event_scan, if_neg hx, h1]; congr 1; omega

/-- A new record with an id that no existing record carries, put into a slot
that held no existing record, keeps the ids of existing records distinct. -/
theorem ids_distinct_fresh (ws ws' : List window_t) (new : window_t) (k : Nat)
    (hget : ∀ (a : Nat) (wa : window_t), ws'[a]? = some wa →
      (a = k ∧ wa = new) ∨ (a ≠ k ∧ ws[a]? = some wa))
    (hfresh : ∀ v, v ∈ ws → v.exists_ ≠ 0 → v.internal_id ≠ new.internal_id)
    (hd : ids_distinct ws) : ids_distinct ws' := by
  apply ids_distinct_of_index
  intro a b wa wb ha hb hea heb hid
  rcases hget a wa ha with ⟨hak, rfl⟩ | ⟨hak, ha'⟩
  · rcases hget b wb hb with ⟨hbk, _⟩ | ⟨_, hb'⟩
    · omega
    · exact absurd hid.symm (hfresh wb (List.mem_iff_getElem?.mpr ⟨b, hb'⟩) heb)
  · rcases hget b wb hb with ⟨_, rfl⟩ | ⟨_, hb'⟩
    · exact absurd hid (hfresh wa (List.mem_iff_getElem?.mpr ⟨a, ha'⟩) hea)
    · exact ids_distinct_index hd ha' hb' hea heb hid

theorem create_event_focused_window_id (wm : my_wm_t) (internal_id vao vbo ibo : Nat) :
    (create_event wm internal_id vao vbo ibo).focused_window_id = wm.focused_window_id := by
  unfold create_event
  split <;> rfl

theorem create_event_invariant (wm : my_wm_t) (internal_id vao vbo ibo : Nat) (f : Bool)
    (hok : event_admitted wm (event_t.create internal_id vao vbo ibo))
    (hI : run_invariant wm f) :
    run_invariant (create_event wm internal_id vao vbo ibo) f := by
  obtain ⟨hfresh, hroom⟩ := hok
  obtain ⟨hd, hlen, hval, hinv⟩ := hI
  have hfresh' : ∀ v, v ∈ wm.windows → v.exists_ ≠ 0 →
      v.internal_id ≠ (created_window internal_id vao vbo ibo).internal_id := by
    intro v hv hve hid
    exact hfresh ⟨v, hv, hve, hid⟩
  rcases create_event_scan_spec wm.windows 0 with ⟨hscan, hall⟩ | ⟨k, w, hscan, hk, hw⟩
  · have hws := create_event_append wm internal_id vao vbo ibo hall
    refine ⟨?_, by rw [hws]; simp; omega, ?_, ?_⟩
    · rw [hws]
      refine ids_distinct_fresh wm.windows _ _ wm.windows.length ?_ hfresh' hd
      intro a wa ha
      by_cases hal : a < wm.windows.length
      · rw [List.getElem?_append_left hal] at ha
        exact Or.inr ⟨by omega, ha⟩
      · rw [List.getElem?_append_right (by omega)] at ha
        have ha0 : a - wm.windows.length = 0 := by
          by_contra hne
          rw [List.getElem?_eq_none (by simp; omega)] at ha
          cases ha
        rw [ha0] at ha
        exact Or.inl ⟨by omega, by simpa using ha.symm⟩
    · intro hf
      obtain ⟨v, hv, hve, hvv⟩ := hval hf
      have hfl : wm.focused_window_id < wm.windows.length := (List.getElem?_eq_some_iff.mp hv).1
      refine ⟨v, ?_, hve, hvv⟩
      rw [create_event_focused_window_id]
      rw [hws, List.getElem?_append_left hfl]; exact hv
    · intro hf v hv
      rw [hws, List.mem_append] at hv
      rcases hv with hv | hv
      · exact hinv hf v hv
      · simp at hv; subst hv; rfl
  · simp only [Nat.zero_add] at hscan
    have hws : (create_event wm internal_id vao vbo ibo).windows =
        wm.windows.set k (created_window internal_id vao vbo ibo) := by
      simp [create_event, hscan, created_window]
    have hkl : k < wm.windows.length := (List.getElem?_eq_some_iff.mp hk).1
    refine ⟨?_, by rw [hws]; simpa using hlen, ?_, ?_⟩
    · rw [hws]
      refine ids_distinct_fresh wm.windows _ _ k ?_ hfresh' hd
      intro a wa ha
      by_cases hak : a = k
      · subst hak
        rw [List.getElem?_set_self hkl] at ha
        exact Or.inl ⟨rfl, (Option.some.inj ha).symm⟩
      · rw [List.getElem?_set_ne (Ne.symm hak)] at ha
        exact Or.inr ⟨hak, ha⟩
    · intro hf
      obtain ⟨v, hv, hve, hvv⟩ := hval hf
      have hkf : k ≠ wm.focused_window_id := by
        intro hkf; subst hkf
        rw [hk] at hv; cases hv
        exact hve hw
      refine ⟨v, ?_, hve, hvv⟩
      rw [create_event_focused_window_id]
      rw [hws, List.getElem?_set_ne hkf]; exact hv
    · intro hf v hv
      rw [hws] at hv
      rcases List.mem_or_eq_of_mem_set hv with hv | hv
      · exact hinv hf v hv
      · rw [hv]; rfl

theorem click_event_tail_invariant (wm1 wm' : my_wm_t) (press modifiers button : Nat) (r : Int)
    (f : Bool) (h : click_event_tail wm1 press modifiers button = some (wm', r))
    (hI : run_invariant wm1 f) : run_invariant wm' f := by
  unfold click_event_tail at h
  split at h
  · simp only at h
    have hI2 : run_invariant
        (if button = 1 then { wm1 with action := action_t.ACTION_MOVE }
          else if button = 3 then { wm1 with action := action_t.ACTION_RESIZE } else wm1) f := by
      split
      · exact run_invariant_same wm1 _ f rfl rfl hI
      · split
        · exact run_invariant_same wm1 _ f rfl rfl hI
        · exact hI
    generalize (if button = 1 then ({ wm1 with action := action_t.ACTION_MOVE } : my_wm_t)
      else if button = 3 then { wm1 with action := action_t.ACTION_RESIZE } else wm1) = wm2
      at h hI2
    split at h
    · cases h
    · rename_i window hw
      cases h
      exact run_invariant_set wm2 _ f _ window _ hw rfl rfl rfl rfl rfl hI2
  · cases h; exact hI

theorem click_event_invariant (wm wm' : my_wm_t) (internal_id press modifiers button : Nat)
    (x y : ℚ) (r : Int) (f : Bool)
    (hok : event_admitted wm (event_t.click internal_id press modifiers button x y))
    (h : click_event wm internal_id press modifiers button x y = some (wm', r))
    (hI : run_invariant wm f) :
    run_invariant wm' (f || decide (press ≠ 0 ∧ internal_id ≠ UINT_MAX)) := by
  unfold click_event at h
  by_cases hp : press ≠ 0
  · rw [if_pos hp] at h
    by_cases hid : internal_id = UINT_MAX
    · rw [if_pos hid] at h
      cases h
      have : decide (press ≠ 0 ∧ internal_id ≠ UINT_MAX) = false := by simp [hid]
      rw [this, Bool.or_false]; exact hI
    · rw [if_neg hid] at h
      have hflag : (f || decide (press ≠ 0 ∧ internal_id ≠ UINT_MAX)) = true := by
        simp [hp, hid]
      rw [hflag]
      rcases hok with hok | ⟨w, hw, hwe, hwi, hwv⟩
      · exact absurd hok hid
      · obtain ⟨k, hk⟩ := List.mem_iff_getElem?.mp hw
        obtain ⟨hd, hlen, _, _⟩ := hI
        have hkl : k < wm.windows.length := (List.getElem?_eq_some_iff.mp hk).1
        have hidx : window_internal_id_to_index wm internal_id = k := by
          rw [← hwi]
          exact window_internal_id_to_index_unique wm.windows k w hk hwe
            (id_unique_of_distinct hd _)
        have hconv : to_unsigned (to_int (window_internal_id_to_index wm internal_id)) = k := by
          rw [hidx, to_int_of_lt k (by omega), to_unsigned_natCast k (by omega)]
        obtain ⟨wm1, h1, hI1⟩ := run_invariant_focus wm k 1 w hd hlen hk hwe hwv
        simp only [hconv, h1] at h
        split at h
        · cases h
        · exact click_event_tail_invariant _ wm' press modifiers button r true h
            (run_invariant_same wm1 _ true rfl rfl hI1)
  · rw [if_neg hp] at h
    have hflag : decide (press ≠ 0 ∧ internal_id ≠ UINT_MAX) = false := by simp [hp]
    rw [hflag, Bool.or_false]
    split at h
    · split at h
      · cases h
      · rename_i window hw
        cases h
        exact run_invariant_set wm _ f _ window _ hw rfl rfl rfl rfl rfl hI
    · exact click_event_tail_invariant wm wm' press modifiers button r f h hI

/-- When some record below slot `k` exists and is visible, the scan of
`unfocus_window` from slot `k - 1` down focuses such a record. -/
theorem unfocus_loop_some (wm : my_wm_t) (hf32 : wm.focused_window_id < 2 ^ 32) :
    ∀ k : Nat, k ≤ wm.focused_window_id → k ≤ wm.windows.length →
      (∃ (j : Nat) (v : window_t), j < k ∧ wm.windows[j]? = some v ∧ v.exists_ ≠ 0 ∧
        v.visible ≠ 0) →
      ∃ (j : Nat) (v : window_t), j < k ∧ wm.windows[j]? = some v ∧ v.exists_ ≠ 0 ∧
        v.visible ≠ 0 ∧ unfocus_loop wm k = focus_window wm j 1 := by
  intro k
  induction k with
  | zero => rintro _ _ ⟨j, _, hj, _⟩; omega
  | succ k ih =>
    intro hkf hkl ⟨j, v, hj, hv, hve, hvv⟩
    have hne : to_unsigned (k : Int) ≠ wm.focused_window_id := by
      rw [to_unsigned_natCast k (by omega)]; omega
    have hk : wm.windows[k]? = some wm.windows[k] := List.getElem?_eq_getElem (by omega)
    by_cases hc : (wm.windows[k]).exists_ ≠ 0 ∧ (wm.windows[k]).visible ≠ 0
    · refine ⟨k, _, by omega, hk, hc.1, hc.2, ?_⟩
      rw [unfocus_loop, if_pos hne]
      simp only [hk]
      rw [if_pos hc]
    · have hjk : j < k := by
        rcases Nat.lt_or_ge j k with h | h
        · exact h
        · have : j = k := by omega
          subst this
          rw [hk] at hv; cases hv
          exact absurd ⟨hve, hvv⟩ hc
      obtain ⟨j', v', h1, h2, h3, h4, h5⟩ := ih (by omega) (by omega) ⟨j, v, hjk, hv, hve, hvv⟩
      refine ⟨j', v', by omega, h2, h3, h4, ?_⟩
      rw [unfocus_loop, if_pos hne]
      simp only [hk]
      rw [if_neg hc]
      exact h5

theorem modify_event_invariant (wm wm' : my_wm_t) (internal_id : Nat) (visible : Int)
    (x y width height : ℚ) (f : Bool)
    (hok : event_admitted wm (event_t.modify internal_id visible x y width height))
    (h : modify_event wm internal_id visible x y width height = some wm')
    (hI : run_invariant wm f) :
    run_invariant wm'
      (f || event_focuses wm (event_t.modify internal_id visible x y width height)) := by
  obtain ⟨k, w, hk, hwe, hwi, hcand⟩ := hok
  obtain ⟨hd, hlen, hval, hinv⟩ := hI
  have hkl : k < wm.windows.length := (List.getElem?_eq_some_iff.mp hk).1
  have hidx : window_internal_id_to_index wm internal_id = k := by
    rw [← hwi]
    exact window_internal_id_to_index_unique wm.windows k w hk hwe (id_unique_of_distinct hd _)
  have hti : to_int k = (k : Int) := to_int_of_lt k (by omega)
  have htu : to_unsigned (k : Int) = k := to_unsigned_natCast k (by omega)
  have hwat : window_at wm.windows (k : Int) = some w := by
    simp [window_at, hk]
  have hflag : event_focuses wm (event_t.modify internal_id visible x y width height) =
      decide (visible ≠ 0 ∧ w.visible = 0) := by
    simp only [event_focuses, hidx, hti, hwat]
  rw [hflag]
  unfold modify_event at h
  simp only [hidx, hti, hwat, htu, Int.toNat_ofNat] at h
  by_cases hshow : visible ≠ 0 ∧ w.visible = 0
  · -- the window is shown and focused
    rw [if_pos hshow] at h
    have hf : (f || decide (visible ≠ 0 ∧ w.visible = 0)) = true := by simp [hshow]
    rw [hf]
    obtain ⟨wm'', h1, hI1⟩ := run_invariant_focus
      { wm with
        windows := wm.windows.set k
          { w with
            visible := visible, x := x, y := y, width := width, height := height,
            index_count := 99, opacity := 1, visual_opacity := 0, visual_x := x,
            visual_y := y, visual_width := width * (9 / 10),
            visual_height := height * (9 / 10) }
        wm := wm_move_window wm.wm w.internal_id x y width height }
      k 0 _
      (ids_distinct_set hd k w _ hk rfl (fun _ => hwe)) (by simpa using hlen)
      (List.getElem?_set_self hkl) hwe hshow.1
    rw [h1] at h
    cases h
    exact hI1
  · rw [if_neg hshow] at h
    have hf : (f || decide (visible ≠ 0 ∧ w.visible = 0)) = f := by simp [hshow]
    rw [hf]
    by_cases hhide : k = wm.focused_window_id ∧ visible = 0 ∧ w.visible ≠ 0
    · -- the focused window is hidden: the fallback focuses a lower record
      rw [if_pos hhide] at h
      obtain ⟨j, v, hj, hv, hve, hvv⟩ := hcand hhide.1 hhide.2.1 hhide.2.2
      have hf1 : f = true := by
        cases f with
        | true => rfl
        | false => exact absurd (hinv rfl w (List.mem_iff_getElem?.mpr ⟨k, hk⟩)) hhide.2.2
      have hd1 : ids_distinct (wm.windows.set k
          { w with
            visible := visible, x := x, y := y, width := width, height := height,
            index_count := 99 }) :=
        ids_distinct_set hd k w _ hk rfl (fun _ => hwe)
      have hstart := unfocus_window_start
        { wm with
          windows := wm.windows.set k
            { w with
              visible := visible, x := x, y := y, width := width, height := height,
              index_count := 99 } }
        (by show 1 ≤ wm.focused_window_id; omega)
        (by show wm.focused_window_id < 2 ^ 31; omega)
      obtain ⟨j', v', h1, h2, h3, h4, h5⟩ := unfocus_loop_some
        { wm with
          windows := wm.windows.set k
            { w with
              visible := visible, x := x, y := y, width := width, height := height,
              index_count := 99 } }
        (by show wm.focused_window_id < 2 ^ 32; omega) wm.focused_window_id (Nat.le_refl _)
        (by show wm.focused_window_id ≤ (wm.windows.set k _).length; simp; omega)
        ⟨j, v, by omega, by
          show (wm.windows.set k _)[j]? = some v
          rw [List.getElem?_set_ne (by omega)]; exact hv, hve, hvv⟩
      obtain ⟨wm'', h6, hI1⟩ := run_invariant_focus _ j' 1 v' hd1 (by simpa using hlen) h2 h3 h4
      rw [hstart, h5, h6] at h
      cases h
      rw [hf1]; exact hI1
    · -- the record is updated and the focus stays
      rw [if_neg hhide] at h
      cases h
      refine ⟨ids_distinct_set hd k w _ hk rfl (fun _ => hwe), by simpa using hlen, ?_, ?_⟩
      · intro hft
        obtain ⟨u, hu, hue, huv⟩ := hval hft
        by_cases hkf : k = wm.focused_window_id
        · subst hkf
          rw [hk] at hu; cases hu
          have hvis : visible ≠ 0 := fun hv0 => hhide ⟨rfl, hv0, huv⟩
          exact ⟨_, List.getElem?_set_self hkl, hue, hvis⟩
        · exact ⟨u, by
            show (wm.windows.set k _)[wm.focused_window_id]? = some u
            rw [List.getElem?_set_ne hkf]; exact hu, hue, huv⟩
      · intro hff u hu
        rcases List.mem_or_eq_of_mem_set hu with hu | hu
        · exact hinv hff u hu
        · rw [hu]
          have hw0 : w.visible = 0 := hinv hff w (List.mem_iff_getElem?.mpr ⟨k, hk⟩)
          show visible = 0
          by_contra hne
          exact hshow ⟨hne, hw0⟩

theorem reachable_admitted_invariant (wm : my_wm_t) (f : Bool)
    (h : reachable event_admitted wm f) : run_invariant wm f := by
  induction h with
  | init wm hinit =>
    obtain ⟨hws, _, _⟩ := hinit
    refine ⟨by rw [hws]; exact List.Pairwise.nil, by rw [hws]; decide, (fun h => by cases h), ?_⟩
    intro _ w hw
    rw [hws] at hw
    cases hw
  | step wm wm' f e _ hok hstep ih =>
    cases e with
    | create internal_id vao vbo ibo =>
      simp only [handle_event, Option.some.injEq] at hstep
      subst hstep
      simpa [event_focuses] using create_event_invariant wm internal_id vao vbo ibo f hok ih
    | modify internal_id visible x y width height =>
      exact modify_event_invariant wm wm' internal_id visible x y width height f hok hstep ih
    | destroy internal_id =>
      simpa [event_focuses] using destroy_event_invariant wm wm' internal_id f hok hstep ih
    | click internal_id press modifiers button x y =>
      simp only [handle_event, Option.map_eq_some'] at hstep
      obtain ⟨⟨wm1, r⟩, h1, h2⟩ := hstep
      simp only at h2
      subst h2
      exact click_event_invariant wm wm1 internal_id press modifiers button x y r f hok h1 ih
    | move internal_id modifiers x y =>
      simpa [event_focuses] using move_event_invariant wm wm' internal_id modifiers x y f hstep ih
    | keyboard internal_id press modifiers key =>
      simpa [event_focuses] using
        keyboard_event_invariant wm wm' internal_id press modifiers key f hstep ih

/-- C10, amended (focus validity along admitted runs). In every state reached
from the initial state by callbacks for well-formed events, among which the
focused window is hidden only while another record below it in the array
exists and is visible, a window is destroyed only when it is not visible and a
click names a visible window, and in which some window has been focused, the
record designated by `focused_window_id` has both `exists` and `visible` set. -/
theorem focus_valid_on_admitted_runs (wm : my_wm_t)
    (h : reachable event_admitted wm true) : focus_valid wm :=
  (reachable_admitted_invariant wm true h).2.2.1 rfl

/-- Witness of amended C10: a window is created and shown. -/
theorem focus_valid_on_admitted_runs_witness :
    ∃ wm, reachable event_admitted wm true ∧ focus_valid wm := by
  have r0 : reachable event_admitted (example_state [] 0) false :=
    reachable.init _ ⟨rfl, rfl, rfl⟩
  have r1 := reachable.step _ _ _ (event_t.create 0 1 1 2) r0
    (by
      refine ⟨?_, by decide⟩
      rintro ⟨w, hw, _⟩
      simp [example_state] at hw)
    rfl
  have r2 := reachable.step _ _ _ (event_t.modify 0 1 0 0 1 1) r1
    ⟨0, _, rfl, by decide, rfl, fun _ h => absurd h (by decide)⟩
    rfl
  exact ⟨_, r2, focus_valid_on_admitted_runs _ r2⟩
/-! ## Showing a window -/

theorem id_unique_set {ws : List window_t} {id : Nat} (h : id_unique ws id) (k : Nat)
    (w w' : window_t) (hk : ws[k]? = some w) (hid : w'.internal_id = w.internal_id)
    (hex : w'.exists_ ≠ 0 → w.exists_ ≠ 0) : id_unique (ws.set k w') id := by
  have hkl : k < ws.length := (List.getElem?_eq_some_iff.mp hk).1
  have hget : ∀ (a : Nat) (wa : window_t), (ws.set k w')[a]? = some wa →
      ∃ va, ws[a]? = some va ∧ va.internal_id = wa.internal_id ∧
        (wa.exists_ ≠ 0 → va.exists_ ≠ 0) := by
    intro a wa ha
    by_cases hak : a = k
    · subst hak
      rw [List.getElem?_set_self hkl] at ha
      cases ha
      exact ⟨w, hk, hid.symm, hex⟩
    · rw [List.getElem?_set_ne (Ne.symm hak)] at ha
      exact ⟨wa, ha, rfl, fun h => h⟩
  apply id_unique_of_index
  intro a b wa wb ha hb hea heb hia hib
  obtain ⟨va, hva, hia', hxa⟩ := hget a wa ha
  obtain ⟨vb, hvb, hib', hxb⟩ := hget b wb hb
  exact id_unique_index h hva hvb (hxa hea) (hxb heb) (by rw [hia', hia]) (by rw [hib', hib])

/-- The call `modify_event` that shows a hidden window: the record gets the
appearing pose and `focus_window` makes it the focused record. -/
theorem modify_event_show (wm : my_wm_t) (internal_id : Nat) (visible : Int)
    (x y width height : ℚ) (k : Nat) (w : window_t)
    (hcount : wm.windows.length < 2 ^ 31) (hk : wm.windows[k]? = some w)
    (hwe : w.exists_ ≠ 0) (hwi : w.internal_id = internal_id)
    (hu : id_unique wm.windows internal_id) (hvis : visible ≠ 0) (hwv : w.visible = 0) :
    ∃ wm', modify_event wm internal_id visible x y width height = some wm' ∧
      wm'.focused_window_id = window_internal_id_to_index wm' internal_id ∧
      wm'.focused_window_id < wm'.window_count ∧
      wm'.windows[wm'.focused_window_id]? =
        some { appearing_window w visible x y width height with farness := 0 } := by
  have hkl : k < wm.windows.length := (List.getElem?_eq_some_iff.mp hk).1
  have hidx : window_internal_id_to_index wm internal_id = k := by
    rw [← hwi]
    exact window_internal_id_to_index_unique wm.windows k w hk hwe (by rw [hwi]; exact hu)
  have hti : to_int k = (k : Int) := to_int_of_lt k (by omega)
  have htu : to_unsigned (k : Int) = k := to_unsigned_natCast k (by omega)
  have hwat : window_at wm.windows (k : Int) = some w := by simp [window_at, hk]
  have hu2 : id_unique (wm.windows.set k (appearing_window w visible x y width height))
      (appearing_window w visible x y width height).internal_id := by
    have : (appearing_window w visible x y width height).internal_id = internal_id := hwi
    rw [this]
    exact id_unique_set hu k w _ hk rfl (fun _ => hwe)
  obtain ⟨wm1, h1, hws, hf, _⟩ := focus_window_eq
    { wm with
      windows := wm.windows.set k (appearing_window w visible x y width height)
      wm := wm_move_window wm.wm w.internal_id x y width height }
    k 0 (appearing_window w visible x y width height) (List.getElem?_set_self hkl)
  obtain ⟨hl, _, _, _, hlt, hget⟩ := focus_reorder_spec
    (wm.windows.set k (appearing_window w visible x y width height)) k
    (appearing_window w visible x y width height) (List.getElem?_set_self hkl) hwe hu2
  have hid2 : (appearing_window w visible x y width height).internal_id = internal_id := hwi
  refine ⟨wm1, ?_, ?_, ?_, ?_⟩
  · unfold modify_event
    simp only [hidx, hti, hwat, htu, Int.toNat_ofNat]
    rw [if_pos ⟨hvis, hwv⟩]
    exact h1
  · rw [hf, window_internal_id_to_index, hws, hid2]
  · rw [hf, my_wm_t.window_count, hws, hl]; exact hlt
  · rw [hf, hws]; exact hget

/-- C11 (show focuses). When `modify_event` reports a non-zero `visible` (1 in
particular) for an existing record that was not visible, the call returns, and
afterwards `focused_window_id` is the index at which the lookup finds that
internal id, the record there exists and has the id, and its farness is 0.
(The id is carried by no other existing record and the array has fewer than
`2 ^ 31` slots.) -/
theorem modify_event_show_focuses (wm : my_wm_t) (internal_id : Nat) (visible : Int)
    (x y width height : ℚ) (k : Nat) (w : window_t)
    (hcount : wm.windows.length < 2 ^ 31) (hk : wm.windows[k]? = some w)
    (hwe : w.exists_ ≠ 0) (hwi : w.internal_id = internal_id)
    (hu : id_unique wm.windows internal_id) (hvis : visible ≠ 0) (hwv : w.visible = 0) :
    ∃ wm' w', modify_event wm internal_id visible x y width height = some wm' ∧
      wm'.focused_window_id = window_internal_id_to_index wm' internal_id ∧
      wm'.windows[wm'.focused_window_id]? = some w' ∧
      w'.internal_id = internal_id ∧ w'.exists_ ≠ 0 ∧ w'.visible = visible ∧
      w'.farness = 0 := by
  obtain ⟨wm', h1, h2, _, h4⟩ :=
    modify_event_show wm internal_id visible x y width height k w hcount hk hwe hwi hu hvis hwv
  exact ⟨wm', { appearing_window w visible x y width height with farness := 0 }, h1, h2, h4,
    hwi, hwe, rfl, rfl⟩

/-- Witness of C11: the hidden window (id 1) of a stack of two is shown. -/
theorem modify_event_show_focuses_witness :
    ∃ wm' w', modify_event stack_hidden 1 1 0 0 1 1 = some wm' ∧
      wm'.focused_window_id = window_internal_id_to_index wm' 1 ∧
      wm'.windows[wm'.focused_window_id]? = some w' ∧
      w'.internal_id = 1 ∧ w'.exists_ ≠ 0 ∧ w'.visible = 1 ∧ w'.farness = 0 :=
  modify_event_show_focuses stack_hidden 1 1 0 0 1 1 1 (example_window 1 1 0)
    (by decide) rfl (by decide) rfl (by decide) (by decide) rfl

/-- C12 (appearing pose). When `modify_event` reports a non-zero `visible` (1
in particular) with geometry `(x, y, width, height)` for an existing record
that was not visible, the call returns and the record, now the focused one,
has `visual_x = x`, `visual_y = y`, `visual_width = width * 0.9`,
`visual_height = height * 0.9`, `visual_opacity = 0` and opacity target 1, in
exact arithmetic; its logical geometry is the reported one. -/
theorem modify_event_appearing_pose (wm : my_wm_t) (internal_id : Nat) (visible : Int)
    (x y width height : ℚ) (k : Nat) (w : window_t)
    (hcount : wm.windows.length < 2 ^ 31) (hk : wm.windows[k]? = some w)
    (hwe : w.exists_ ≠ 0) (hwi : w.internal_id = internal_id)
    (hu : id_unique wm.windows internal_id) (hvis : visible ≠ 0) (hwv : w.visible = 0) :
    ∃ wm' w', modify_event wm internal_id visible x y width height = some wm' ∧
      wm'.windows[window_internal_id_to_index wm' internal_id]? = some w' ∧
      w'.internal_id = internal_id ∧
      w'.visual_x = x ∧ w'.visual_y = y ∧
      w'.visual_width = width * (9 / 10) ∧ w'.visual_height = height * (9 / 10) ∧
      w'.visual_opacity = 0 ∧ w'.opacity = 1 ∧
      w'.x = x ∧ w'.y = y ∧ w'.width = width ∧ w'.height = height := by
  obtain ⟨wm', h1, h2, _, h4⟩ :=
    modify_event_show wm internal_id visible x y width height k w hcount hk hwe hwi hu hvis hwv
  refine ⟨wm', { appearing_window w visible x y width height with farness := 0 }, h1, ?_, hwi,
    rfl, rfl, rfl, rfl, rfl, rfl, rfl, rfl, rfl, rfl⟩
  rw [← h2]; exact h4

/-- Witness of C12: the hidden window (id 1) of a stack of two is shown at
`(1/4, 1/2)` with size `1 x 2`. -/
theorem modify_event_appearing_pose_witness :
    ∃ wm' w', modify_event stack_hidden 1 1 (1 / 4) (1 / 2) 1 2 = some wm' ∧
      wm'.windows[window_internal_id_to_index wm' 1]? = some w' ∧
      w'.internal_id = 1 ∧
      w'.visual_x = 1 / 4 ∧ w'.visual_y = 1 / 2 ∧
      w'.visual_width = 1 * (9 / 10) ∧ w'.visual_height = 2 * (9 / 10) ∧
      w'.visual_opacity = 0 ∧ w'.opacity = 1 ∧
      w'.x = 1 / 4 ∧ w'.y = 1 / 2 ∧ w'.width = 1 ∧ w'.height = 2 :=
  modify_event_appearing_pose stack_hidden 1 1 (1 / 4) (1 / 2) 1 2 1 (example_window 1 1 0)
    (by decide) rfl (by decide) rfl (by decide) (by decide) rfl
/-! ## Maximize and restore -/

theorem maximize_find_monitor_total (wm : my_wm_t) (x y : ℚ) (hmon : monitors_consistent wm) :
    ∀ (n i : Nat), i + n ≤ wm.monitor_xs.length →
      ∃ r, maximize_find_monitor wm x y n i = some r := by
  intro n
  induction n with
  | zero => intro i _; exact ⟨none, rfl⟩
  | succ n ih =>
    intro i hin
    obtain ⟨h1, h2, h3⟩ := hmon
    have e1 : wm.monitor_xs[i]? = some wm.monitor_xs[i] := List.getElem?_eq_getElem (by omega)
    have e2 : wm.monitor_ys[i]? = some wm.monitor_ys[i] := List.getElem?_eq_getElem (by omega)
    have e3 : wm.monitor_widths[i]? = some wm.monitor_widths[i] :=
      List.getElem?_eq_getElem (by omega)
    have e4 : wm.monitor_heights[i]? = some wm.monitor_heights[i] :=
      List.getElem?_eq_getElem (by omega)
    unfold maximize_find_monitor
    simp only [e1, e2, e3, e4]
    split
    · exact ⟨_, rfl⟩
    · exact ih (i + 1) (by omega)

/-- The first `maximize_window` on a window that is not maximized: the call
returns, the record remembers its geometry and nothing else of the array
changes. -/
theorem maximize_window_saves (wm : my_wm_t) (i : Nat) (w : window_t) (single_monitor : Int)
    (hmon : monitors_consistent wm) (hi : wm.windows[i]? = some w) (hnm : w.maximized = 0) :
    ∃ wm1, maximize_window wm i single_monitor = some wm1 ∧
      wm1.windows = wm.windows.set i
        { w with
          unmaximized_x := w.x, unmaximized_y := w.y, unmaximized_width := w.width,
          unmaximized_height := w.height, maximized := 1 } := by
  unfold maximize_window
  simp only [hi, hnm, ne_eq, not_true_eq_false, if_false]
  split
  · have hmon' : monitors_consistent
        ({ wm with
          windows := wm.windows.set i
            { w with
              unmaximized_x := w.x, unmaximized_y := w.y, unmaximized_width := w.width,
              unmaximized_height := w.height, maximized := 1 } } : my_wm_t) := hmon
    obtain ⟨r, hr⟩ := maximize_find_monitor_total _ w.x w.y hmon' wm.monitor_xs.length 0
      (by simp)
    split
    · rename_i hnone
      rw [hr] at hnone
      cases hnone
    · exact ⟨_, rfl, rfl⟩
    · exact ⟨_, rfl, rfl⟩
  · exact ⟨_, rfl, rfl⟩

/-- The call `focus_window` on any slot of the array returns, and the array
afterwards is a permutation of the array with the farness values updated. -/
theorem focus_window_total (wm : my_wm_t) (j : Nat) (internally : Int) (v : window_t)
    (hj : wm.windows[j]? = some v) :
    ∃ wm', focus_window wm j internally = some wm' ∧
      wm'.windows.Perm (focus_prestep wm.windows j) ∧ wm'.wm.calls.length ≥ wm.wm.calls.length := by
  unfold focus_window
  simp only [hj]
  by_cases hb : internally ≠ 0
  · simp only [if_pos hb]
    refine ⟨_, rfl, ?_, ?_⟩
    · show (focus_reorder wm.windows j).Perm _
      rw [focus_reorder_eq]; exact (sort_windows_spec _).2.1
    · simp [wm_focus_window]
  · simp only [if_neg hb]
    refine ⟨_, rfl, ?_, Nat.le_refl _⟩
    show (focus_reorder wm.windows j).Perm _
    rw [focus_reorder_eq]; exact (sort_windows_spec _).2.1

theorem remembers_geometry_refarness (internal_id : Nat) (x y width height : ℚ) (j k : Nat)
    (w : window_t) (h : remembers_geometry internal_id x y width height w) :
    remembers_geometry internal_id x y width height (refarness j k w) := by
  unfold refarness
  split
  · exact h
  · exact h

theorem keeps_unmaximized_perm_prestep (internal_id : Nat) (x y width height : ℚ)
    (ws L : List window_t) (j : Nat) (hp : L.Perm (focus_prestep ws j))
    (h : keeps_unmaximized internal_id x y width height ws) :
    keeps_unmaximized internal_id x y width height L := by
  obtain ⟨hlen, hu, k, w, hk, hr⟩ := h
  refine ⟨by rw [hp.length_eq, focus_prestep_length]; exact hlen,
    id_unique_perm hp.symm (id_unique_prestep j hu), ?_⟩
  have hpre : (focus_prestep ws j)[k]? = some (refarness j k w) := by
    rw [focus_prestep_getElem?_eq, hk]; rfl
  obtain ⟨m, hm⟩ := perm_getElem?_exists hp.symm hpre
  exact ⟨m, _, hm, remembers_geometry_refarness internal_id x y width height j k w hr⟩

/-- What `unfocus_window` does, when the focus index is inside the array:
nothing, or `focus_window` on a slot below the focus index. -/
theorem unfocus_window_cases (wm : my_wm_t) (hcount : wm.windows.length < 2 ^ 31)
    (hfl : wm.focused_window_id ≤ wm.windows.length) :
    unfocus_window wm = some wm ∨
      ∃ (j : Nat) (v : window_t), wm.windows[j]? = some v ∧
        unfocus_window wm = focus_window wm j 1 := by
  by_cases hc : ∃ (j : Nat) (v : window_t), j < wm.focused_window_id ∧ wm.windows[j]? = some v ∧
      v.exists_ ≠ 0 ∧ v.visible ≠ 0
  · right
    have h1 : 1 ≤ wm.focused_window_id := by
      obtain ⟨j, _, hj, _⟩ := hc
      omega
    obtain ⟨j, v, _, hv, _, _, h5⟩ :=
      unfocus_loop_some wm (by omega) wm.focused_window_id (Nat.le_refl _) hfl hc
    exact ⟨j, v, hv, by rw [unfocus_window_start wm h1 (by omega)]; exact h5⟩
  · left
    apply unfocus_window_none wm hcount hfl
    intro m v hm hv hboth
    exact hc ⟨m, v, hm, hv, hboth.1, hboth.2⟩

/-- One `modify_event` for the maximized window returns and keeps the
remembered geometry. -/
theorem modify_event_keeps_unmaximized (wm : my_wm_t) (internal_id : Nat) (ux uy uw uh : ℚ)
    (visible : Int) (x y width height : ℚ)
    (h : keeps_unmaximized internal_id ux uy uw uh wm.windows) :
    ∃ wm', modify_event wm internal_id visible x y width height = some wm' ∧
      keeps_unmaximized internal_id ux uy uw uh wm'.windows := by
  obtain ⟨hlen, hu, k, w, hk, hr⟩ := h
  have hkl : k < wm.windows.length := (List.getElem?_eq_some_iff.mp hk).1
  have hwi : w.internal_id = internal_id := hr.2.1
  have hidx : window_internal_id_to_index wm internal_id = k := by
    rw [← hwi]
    exact window_internal_id_to_index_unique wm.windows k w hk hr.1 (by rw [hwi]; exact hu)
  have hti : to_int k = (k : Int) := to_int_of_lt k (by omega)
  have htu : to_unsigned (k : Int) = k := to_unsigned_natCast k (by omega)
  have hwat : window_at wm.windows (k : Int) = some w := by simp [window_at, hk]
  -- the array after the record has been written, in both branches
  have hset : ∀ w1 : window_t, w1.internal_id = w.internal_id → w1.exists_ = w.exists_ →
      remembers_geometry internal_id ux uy uw uh w1 →
      keeps_unmaximized internal_id ux uy uw uh (wm.windows.set k w1) := by
    intro w1 h1 h2 h3
    exact ⟨by simpa using hlen, id_unique_set hu k w w1 hk h1 (by rw [h2]; exact fun h => h),
      k, w1, List.getElem?_set_self hkl, h3⟩
  unfold modify_event
  simp only [hidx, hti, hwat, htu, Int.toNat_ofNat]
  by_cases hshow : visible ≠ 0 ∧ w.visible = 0
  · rw [if_pos hshow]
    obtain ⟨wm', h1, h2, _⟩ := focus_window_total
      { wm with
        windows := wm.windows.set k (appearing_window w visible x y width height)
        wm := wm_move_window wm.wm w.internal_id x y width height }
      k 0 _ (List.getElem?_set_self hkl)
    exact ⟨wm', h1, keeps_unmaximized_perm_prestep internal_id ux uy uw uh _ _ k h2
      (hset _ rfl rfl hr)⟩
  · rw [if_neg hshow]
    have hkeep := hset (modified_window w visible x y width height) rfl rfl hr
    by_cases hhide : k = wm.focused_window_id ∧ visible = 0 ∧ w.visible ≠ 0
    · rw [if_pos hhide]
      rcases unfocus_window_cases
        { wm with windows := wm.windows.set k (modified_window w visible x y width height) }
        (by simpa using hlen)
        (by show wm.focused_window_id ≤ (wm.windows.set k _).length; simp; omega)
        with h1 | ⟨j, v, hv, h1⟩
      · exact ⟨_, h1, hkeep⟩
      · obtain ⟨wm', h2, h3, _⟩ := focus_window_total
          { wm with windows := wm.windows.set k (modified_window w visible x y width height) }
          j 1 v hv
        exact ⟨wm', h1.trans h2,
          keeps_unmaximized_perm_prestep internal_id ux uy uw uh _ _ j h3 hkeep⟩
    · rw [if_neg hhide]
      exact ⟨_, rfl, hkeep⟩

theorem modify_events_keep_unmaximized (internal_id : Nat) (ux uy uw uh : ℚ) :
    ∀ (updates : List (Int × ℚ × ℚ × ℚ × ℚ)) (wm : my_wm_t),
      keeps_unmaximized internal_id ux uy uw uh wm.windows →
      ∃ wm', modify_events wm internal_id updates = some wm' ∧
        keeps_unmaximized internal_id ux uy uw uh wm'.windows := by
  intro updates
  induction updates with
  | nil => intro wm h; exact ⟨wm, rfl, h⟩
  | cons u rest ih =>
    intro wm h
    obtain ⟨wm1, h1, h2⟩ := modify_event_keeps_unmaximized wm internal_id ux uy uw uh
      u.1 u.2.1 u.2.2.1 u.2.2.2.1 u.2.2.2.2 h
    obtain ⟨wm', h3, h4⟩ := ih wm1 h2
    exact ⟨wm', by simp [modify_events, h1, h3], h4⟩

/-- C13 (maximize round trip). For a window that exists and is not maximized,
with logical geometry `(x, y, width, height)`: `maximize_window` (in either
mode) returns; any run of `modify_event` calls for that window returns; and
`maximize_window` on the slot where the window then sits returns with the
`maximized` flag of the record cleared and a move/resize request for the window
with exactly `(x, y, width, height)` as the latest request. (The id is carried
by no other existing record, the array has fewer than `2 ^ 31` slots and the
monitor arrays have `monitor_count` entries each.) -/
theorem maximize_round_trip (wm : my_wm_t) (i : Nat) (w : window_t)
    (single_monitor single_monitor2 : Int) (updates : List (Int × ℚ × ℚ × ℚ × ℚ))
    (hcount : wm.windows.length < 2 ^ 31) (hmon : monitors_consistent wm)
    (hi : wm.windows[i]? = some w) (hwe : w.exists_ ≠ 0)
    (hu : id_unique wm.windows w.internal_id) (hnm : w.maximized = 0) :
    ∃ wm1 wm2 wm3 w3, maximize_window wm i single_monitor = some wm1 ∧
      modify_events wm1 w.internal_id updates = some wm2 ∧
      maximize_window wm2 (window_internal_id_to_index wm2 w.internal_id) single_monitor2
        = some wm3 ∧
      wm3.windows[window_internal_id_to_index wm2 w.internal_id]? = some w3 ∧
      w3.internal_id = w.internal_id ∧ w3.maximized = 0 ∧
      wm3.wm.calls =
        wm_call.move_window w.internal_id w.x w.y w.width w.height :: wm2.wm.calls := by
  have hil : i < wm.windows.length := (List.getElem?_eq_some_iff.mp hi).1
  obtain ⟨wm1, h1, hws1⟩ := maximize_window_saves wm i w single_monitor hmon hi hnm
  have hkeep1 : keeps_unmaximized w.internal_id w.x w.y w.width w.height wm1.windows := by
    rw [hws1]
    exact ⟨by simpa using hcount, id_unique_set hu i w _ hi rfl (fun _ => hwe), i, _,
      List.getElem?_set_self hil, hwe, rfl, (by show (1 : Int) ≠ 0; decide), rfl, rfl, rfl, rfl⟩
  obtain ⟨wm2, h2, hlen2, hu2, k, w2, hk, hr⟩ :=
    modify_events_keep_unmaximized w.internal_id w.x w.y w.width w.height updates wm1 hkeep1
  have hkl : k < wm2.windows.length := (List.getElem?_eq_some_iff.mp hk).1
  have hidx : window_internal_id_to_index wm2 w.internal_id = k := by
    have := window_internal_id_to_index_unique wm2.windows k w2 hk hr.1
      (by rw [hr.2.1]; exact hu2)
    rw [hr.2.1] at this
    exact this
  obtain ⟨_, hid, hmax, hx, hy, hwd, hht⟩ := hr
  refine ⟨wm1, wm2,
    { wm2 with
      windows := wm2.windows.set k { w2 with maximized := 0 }
      wm := wm_move_window wm2.wm w2.internal_id w2.unmaximized_x w2.unmaximized_y
        w2.unmaximized_width w2.unmaximized_height },
    { w2 with maximized := 0 }, h1, h2, ?_, ?_, hid, rfl, ?_⟩
  · rw [hidx]
    unfold maximize_window
    simp only [hk]
    rw [if_pos hmax]
  · rw [hidx]
    exact List.getElem?_set_self hkl
  · show wm_call.move_window w2.internal_id w2.unmaximized_x w2.unmaximized_y
      w2.unmaximized_width w2.unmaximized_height :: wm2.wm.calls = _
    rw [hid, hx, hy, hwd, hht]

/-- Witness of C13: A of the stack A, B, C is maximized on its monitor,
reconfigured twice and hidden, and un-maximized in full-screen mode. -/
theorem maximize_round_trip_witness :
    ∃ wm1 wm2 wm3 w3,
      maximize_window (one_monitor_state stack_abc.windows 2) 0 1 = some wm1 ∧
      modify_events wm1 0 [(1, 0, 0, 2, 2), (1, 1 / 2, 0, 1, 1), (0, 1 / 2, 0, 1, 1)]
        = some wm2 ∧
      maximize_window wm2 (window_internal_id_to_index wm2 0) 0 = some wm3 ∧
      wm3.windows[window_internal_id_to_index wm2 0]? = some w3 ∧
      w3.internal_id = 0 ∧ w3.maximized = 0 ∧
      wm3.wm.calls = wm_call.move_window 0 0 0 0 0 :: wm2.wm.calls :=
  maximize_round_trip (one_monitor_state stack_abc.windows 2) 0 (example_window 0 2 1) 1 0
    [(1, 0, 0, 2, 2), (1, 1 / 2, 0, 1, 1), (0, 1 / 2, 0, 1, 1)]
    (by decide) ⟨rfl, rfl, rfl⟩ rfl (by decide) (by decide) rfl
/-! ## Draw depth -/

theorem render_window_depth (wm wm' : my_wm_t) (i : Nat) (delta : ℚ) (d : draw_t)
    (h : render_window wm i delta = some (wm', some d)) :
    d.depth = window_depth i wm.window_count ∧ i < wm.window_count ∧
      wm'.window_count = wm.window_count := by
  unfold render_window at h
  split at h
  · cases h
  · rename_i window hw
    have hil : i < wm.windows.length := (List.getElem?_eq_some_iff.mp hw).1
    split at h
    · cases h
    · split at h
      · cases h
      · simp only [Option.some.injEq, Prod.mk.injEq] at h
        obtain ⟨h1, h2⟩ := h
        subst h1
        subst h2
        exact ⟨rfl, hil, by simp [my_wm_t.window_count]⟩

theorem window_depth_lt (N i j : Nat) (hij : i < j) (hj : j < N) :
    window_depth j N < window_depth i N := by
  unfold window_depth
  have hN : (0 : ℚ) < (N : ℚ) := by exact_mod_cast (show 0 < N by omega)
  have hq : (i : ℚ) < (j : ℚ) := by exact_mod_cast hij
  have : (i : ℚ) / N < (j : ℚ) / N := div_lt_div_of_pos_right hq hN
  linarith

/-- C14 (depth uniqueness). For every `window_count` N and slot indices
`i ≠ j` below N, the depths `1 - i / N` and `1 - j / N` differ; and the depth
that `render_window` draws slot `i` with is `1 - i / window_count`. Hence two
`render_window` calls of one frame (same `window_count`) on different slots draw
with different depths. -/
theorem draw_depths_pairwise_distinct (wm wm2 r1 r2 : my_wm_t) (i j : Nat) (delta1 delta2 : ℚ)
    (d1 d2 : draw_t) (hcount : wm2.window_count = wm.window_count)
    (h1 : render_window wm i delta1 = some (r1, some d1))
    (h2 : render_window wm2 j delta2 = some (r2, some d2)) (hij : i ≠ j) :
    d1.depth = window_depth i wm.window_count ∧ d2.depth = window_depth j wm.window_count ∧
      d1.depth ≠ d2.depth ∧
      ∀ (N a b : Nat), 1 ≤ N → a < N → b < N → a ≠ b → window_depth a N ≠ window_depth b N := by
  have hgen : ∀ (N a b : Nat), 1 ≤ N → a < N → b < N → a ≠ b →
      window_depth a N ≠ window_depth b N := by
    intro N a b _ ha hb hab
    rcases Nat.lt_or_gt_of_ne hab with h | h
    · exact ne_of_gt (window_depth_lt N a b h hb)
    · exact ne_of_lt (window_depth_lt N b a h ha)
  obtain ⟨e1, l1, _⟩ := render_window_depth wm r1 i delta1 d1 h1
  obtain ⟨e2, l2, _⟩ := render_window_depth wm2 r2 j delta2 d2 h2
  rw [hcount] at e2 l2
  refine ⟨e1, e2, ?_, hgen⟩
  rw [e1, e2]
  exact hgen _ i j (by omega) l1 l2 hij

/-- C15, counterexample. With two windows the depth of slot 0 is 1 and the
depth of slot 1 is 1/2: the depth does not increase from slot 0 to slot 1. -/
theorem window_depth_not_increasing :
    window_depth 0 2 = 1 ∧ window_depth 1 2 = 1 / 2 ∧ ¬ (window_depth 0 2 < window_depth 1 2) := by
  unfold window_depth
  norm_num

/-- C15, amended (depth monotonicity). For a stack of N windows the draw depth
`1 - index / N` that `render_window` computes strictly decreases with the array
index: for all `i < j < N`, `depth(j) < depth(i)`; the last slot, where the
focused window sits, gets the smallest depth. -/
theorem window_depth_strictly_decreasing (wm wm' : my_wm_t) (i j : Nat) (delta : ℚ) (d : draw_t)
    (hij : i < j) (hj : j < wm.window_count)
    (h : render_window wm i delta = some (wm', some d)) :
    window_depth j wm.window_count < d.depth ∧
      ∀ (N a b : Nat), a < b → b < N → window_depth b N < window_depth a N := by
  obtain ⟨e, _, _⟩ := render_window_depth wm wm' i delta d h
  rw [e]
  exact ⟨window_depth_lt _ i j hij hj, fun N a b hab hb => window_depth_lt N a b hab hb⟩

/-- Witness of C14: the two windows of one frame of a stack of two. -/
theorem draw_depths_pairwise_distinct_witness :
    ∃ r1 d1 r2 d2, render_window stack_animating 0 (1 / 10) = some (r1, some d1) ∧
      render_window stack_animating 1 (1 / 10) = some (r2, some d2) ∧
      d1.depth = window_depth 0 2 ∧ d2.depth = window_depth 1 2 ∧ d1.depth ≠ d2.depth := by
  have h1 : render_window stack_animating 0 (1 / 10) = some (_, some _) := rfl
  have h2 : render_window stack_animating 1 (1 / 10) = some (_, some _) := rfl
  have h := draw_depths_pairwise_distinct stack_animating stack_animating _ _ 0 1 _ _ _ _ rfl
    h1 h2 (by decide)
  exact ⟨_, _, _, _, h1, h2, h.1, h.2.1, h.2.2.1⟩

/-- Witness of amended C15: slot 0 of a stack of two is drawn deeper than the
depth of slot 1. -/
theorem window_depth_strictly_decreasing_witness :
    ∃ r1 d1, render_window stack_animating 0 (1 / 10) = some (r1, some d1) ∧
      window_depth 1 2 < d1.depth := by
  have h1 : render_window stack_animating 0 (1 / 10) = some (_, some _) := rfl
  have h := window_depth_strictly_decreasing stack_animating _ 0 1 _ _ (by decide) (by decide) h1
  exact ⟨_, _, h1, h.1⟩
/-! ## The animator -/

theorem clamp_delta_bounds (delta : ℚ) (h : 0 ≤ delta) :
    0 ≤ clamp_delta delta ∧ clamp_delta delta ≤ 1 / 10 := by
  unfold clamp_delta
  split
  · constructor <;> norm_num
  · rename_i hlt
    exact ⟨h, not_lt.mp hlt⟩

theorem animate_error (v t dt rate : ℚ) :
    t - animate v t dt rate = (1 - rate * dt) * (t - v) := by
  unfold animate; ring

/-- What one `render_window` call does to the animated fields of the record
it draws: every channel makes one animator step toward its target. -/
theorem render_window_animates (wm wm' : my_wm_t) (i : Nat) (delta : ℚ) (d : draw_t)
    (w : window_t) (h : render_window wm i delta = some (wm', some d))
    (hw : wm.windows[i]? = some w) :
    ∃ w', wm'.windows[i]? = some w' ∧
      ∀ c, channel_value c w' =
        animate (channel_value c w) (channel_target wm i w' c) (clamp_delta delta)
          (channel_rate c) := by
  have hil : i < wm.windows.length := (List.getElem?_eq_some_iff.mp hw).1
  unfold render_window at h
  simp only [hw] at h
  split at h
  · cases h
  · split at h
    · cases h
    · simp only [Option.some.injEq, Prod.mk.injEq] at h
      obtain ⟨h1, _⟩ := h
      subst h1
      refine ⟨_, List.getElem?_set_self hil, ?_⟩
      intro c
      cases c <;> simp only [channel_value, channel_target, channel_rate]

theorem animate_no_overshoot (v t dt rate : ℚ) (h : rate * dt ≤ 1) :
    no_overshoot v t (animate v t dt rate) := by
  have he := animate_error v t dt rate
  unfold no_overshoot
  rcases lt_trichotomy (t - v) 0 with hneg | hzero | hpos
  · rcases eq_or_lt_of_le h with h1 | h1
    · right; right
      have : t - animate v t dt rate = 0 := by rw [he, h1]; ring
      linarith
    · right; left
      refine ⟨hneg, ?_⟩
      rw [he]
      exact mul_neg_of_pos_of_neg (by linarith) hneg
  · right; right
    have : t - animate v t dt rate = 0 := by rw [he, hzero]; ring
    linarith
  · rcases eq_or_lt_of_le h with h1 | h1
    · right; right
      have : t - animate v t dt rate = 0 := by rw [he, h1]; ring
      linarith
    · left
      refine ⟨hpos, ?_⟩
      rw [he]
      exact mul_pos (by linarith) hpos

theorem animate_distance (v t dt rate : ℚ) (h0 : 0 ≤ rate * dt) (h2 : rate * dt ≤ 2) :
    |t - animate v t dt rate| ≤ |t - v| := by
  rw [animate_error, abs_mul]
  have : |1 - rate * dt| ≤ 1 := by
    rw [abs_le]; constructor <;> linarith
  calc |1 - rate * dt| * |t - v| ≤ 1 * |t - v| :=
        mul_le_mul_of_nonneg_right this (abs_nonneg _)
    _ = |t - v| := one_mul _

theorem channel_rate_values (c : channel_t) :
    channel_rate c = 10 ∨ channel_rate c = 20 ∨ channel_rate c = 30 := by
  cases c <;> simp [channel_rate]

/-- C16, counterexample. The position channel (rate 20) of a window at visual
x = 0 with target x = 1, rendered with a frame delta of 0.1: the new visual x is
2, beyond the target. -/
theorem animator_overshoots :
    ∃ wm' d w', render_window stack_animating 0 (1 / 10) = some (wm', some d) ∧
      wm'.windows[0]? = some w' ∧ w'.x = 1 ∧ w'.visual_x = 2 ∧
      ¬ no_overshoot 0 1 w'.visual_x := by
  have h1 : render_window stack_animating 0 (1 / 10) = some (_, some _) := rfl
  refine ⟨_, _, _, h1, rfl, rfl, ?_, ?_⟩
  · show animate 0 1 (clamp_delta (1 / 10)) 20 = 2
    unfold animate clamp_delta
    norm_num
  · show ¬ no_overshoot 0 1 (animate 0 1 (clamp_delta (1 / 10)) 20)
    unfold no_overshoot animate clamp_delta
    norm_num

/-- C16, amended (no overshoot within the rate bound). For every channel that
`render_window` animates and every frame delta `>= 0`, clamped to at most 0.1:
when the channel's rate times the clamped delta is at most 1, the step does not
pass the target. This covers the opacity and shadow-offset channels (rate 10)
for every delta, and every channel when the delta is at most 1/30. -/
theorem animator_no_overshoot_within_rate (wm wm' : my_wm_t) (i : Nat) (delta : ℚ)
    (d : draw_t) (w : window_t) (hdelta : 0 ≤ delta)
    (h : render_window wm i delta = some (wm', some d)) (hw : wm.windows[i]? = some w) :
    ∃ w', wm'.windows[i]? = some w' ∧
      (∀ c, channel_rate c * clamp_delta delta ≤ 1 →
        no_overshoot (channel_value c w) (channel_target wm i w' c) (channel_value c w')) ∧
      (∀ c, channel_rate c = 10 → channel_rate c * clamp_delta delta ≤ 1) ∧
      (delta ≤ 1 / 30 → ∀ c, channel_rate c * clamp_delta delta ≤ 1) := by
  obtain ⟨w', hw', hstep⟩ := render_window_animates wm wm' i delta d w h hw
  obtain ⟨hc0, hc1⟩ := clamp_delta_bounds delta hdelta
  refine ⟨w', hw', ?_, ?_, ?_⟩
  · intro c hc
    rw [hstep c]
    exact animate_no_overshoot _ _ _ _ hc
  · intro c hc
    rw [hc]; linarith
  · intro hd c
    have hcl : clamp_delta delta ≤ 1 / 30 := by
      unfold clamp_delta
      split
      · rename_i hlt; linarith
      · exact hd
    rcases channel_rate_values c with hr | hr | hr <;> rw [hr] <;> linarith

/-- Witness of amended C16: slot 0 of the two-window stack rendered with a
frame delta of 1/60. -/
theorem animator_no_overshoot_within_rate_witness :
    ∃ wm' d w', render_window stack_animating 0 (1 / 60) = some (wm', some d) ∧
      wm'.windows[0]? = some w' ∧
      ∀ c, no_overshoot (channel_value c (stack_animating.windows.getD 0 window_zero))
        (channel_target stack_animating 0 w' c) (channel_value c w') := by
  have h1 : render_window stack_animating 0 (1 / 60) = some (_, some _) := rfl
  obtain ⟨w', hw', hno, _, hall⟩ :=
    animator_no_overshoot_within_rate stack_animating _ 0 (1 / 60) _
      (stack_animating.windows.getD 0 window_zero) (by norm_num) h1 rfl
  exact ⟨_, _, w', h1, hw', fun c => hno c (hall (by norm_num) c)⟩
/-! ## Distance to the target -/

theorem animate_steps_append (v t rate : ℚ) :
    ∀ (deltas : List ℚ) (delta : ℚ) (v0 : ℚ),
      animate_steps v0 t rate (deltas ++ [delta]) =
        animate (animate_steps v0 t rate deltas) t (clamp_delta delta) rate := by
  intro deltas
  induction deltas with
  | nil => intro delta v0; rfl
  | cons a rest ih => intro delta v0; exact ih delta _

/-- C17, counterexample. The width channel (rate 30) of a window at visual
width 0 with target width 1, rendered with a frame delta of 0.1: the new visual
width is 3, at distance 2 from the target instead of 1. -/
theorem animator_distance_grows :
    ∃ wm' d w', render_window stack_animating 0 (1 / 10) = some (wm', some d) ∧
      wm'.windows[0]? = some w' ∧ w'.width = 1 ∧ w'.visual_width = 3 ∧
      ¬ (|1 - w'.visual_width| ≤ |(1 : ℚ) - 0|) := by
  have h1 : render_window stack_animating 0 (1 / 10) = some (_, some _) := rfl
  have e : animate 0 1 (clamp_delta (1 / 10)) 30 = 3 := by
    unfold animate clamp_delta
    norm_num
  refine ⟨_, _, _, h1, rfl, rfl, e, ?_⟩
  show ¬ (|1 - animate 0 1 (clamp_delta (1 / 10)) 30| ≤ |(1 : ℚ) - 0|)
  rw [e]
  norm_num [abs_of_neg, abs_of_pos]

/-- C17, amended (distance to the target). For every channel that
`render_window` animates and every frame delta `>= 0`, clamped to at most 0.1:
when the channel's rate times the clamped delta is at most 2, the distance to
the target does not grow in the step. This covers the channels of rate 10 and
20 (opacity, position, shadow radius, shadow offset) for every delta, and the
channels of rate 30 (size, shadow opacity) when the delta is at most 1/15; and
along a run of steps with a fixed target and such a rate the distance is
non-increasing from each step to the next. -/
theorem animator_distance_within_rate (wm wm' : my_wm_t) (i : Nat) (delta : ℚ)
    (d : draw_t) (w : window_t) (hdelta : 0 ≤ delta)
    (h : render_window wm i delta = some (wm', some d)) (hw : wm.windows[i]? = some w) :
    ∃ w', wm'.windows[i]? = some w' ∧
      (∀ c, channel_rate c * clamp_delta delta ≤ 2 →
        |channel_target wm i w' c - channel_value c w'| ≤
          |channel_target wm i w' c - channel_value c w|) ∧
      (∀ c, channel_rate c ≤ 20 → channel_rate c * clamp_delta delta ≤ 2) ∧
      (delta ≤ 1 / 15 → ∀ c, channel_rate c * clamp_delta delta ≤ 2) ∧
      (∀ (v t rate : ℚ) (deltas : List ℚ) (next : ℚ), 0 ≤ rate → rate ≤ 20 → 0 ≤ next →
        |t - animate_steps v t rate (deltas ++ [next])| ≤
          |t - animate_steps v t rate deltas|) := by
  obtain ⟨w', hw', hstep⟩ := render_window_animates wm wm' i delta d w h hw
  obtain ⟨hc0, hc1⟩ := clamp_delta_bounds delta hdelta
  have hrate0 : ∀ c, 0 ≤ channel_rate c := by
    intro c
    rcases channel_rate_values c with hr | hr | hr <;> rw [hr] <;> norm_num
  refine ⟨w', hw', ?_, ?_, ?_, ?_⟩
  · intro c hc
    rw [hstep c]
    exact animate_distance _ _ _ _ (mul_nonneg (hrate0 c) hc0) hc
  · intro c hc
    have := mul_le_mul hc hc1 hc0 (by norm_num : (0 : ℚ) ≤ 20)
    linarith
  · intro hd c
    have hcl : clamp_delta delta ≤ 1 / 15 := by
      unfold clamp_delta
      split
      · rename_i hlt; linarith
      · exact hd
    rcases channel_rate_values c with hr | hr | hr <;> rw [hr] <;> linarith
  · intro v t rate deltas next hr0 hr20 hn
    obtain ⟨hn0, hn1⟩ := clamp_delta_bounds next hn
    rw [animate_steps_append v t rate deltas next v]
    refine animate_distance _ _ _ _ (mul_nonneg hr0 hn0) ?_
    have := mul_le_mul hr20 hn1 hn0 (by norm_num : (0 : ℚ) ≤ 20)
    linarith

/-- Witness of amended C17: slot 0 of the two-window stack rendered with a
frame delta of 1/60. -/
theorem animator_distance_within_rate_witness :
    ∃ wm' d w', render_window stack_animating 0 (1 / 60) = some (wm', some d) ∧
      wm'.windows[0]? = some w' ∧
      ∀ c, |channel_target stack_animating 0 w' c - channel_value c w'| ≤
        |channel_target stack_animating 0 w' c -
          channel_value c (stack_animating.windows.getD 0 window_zero)| := by
  have h1 : render_window stack_animating 0 (1 / 60) = some (_, some _) := rfl
  obtain ⟨w', hw', hdist, _, hall, _⟩ :=
    animator_distance_within_rate stack_animating _ 0 (1 / 60) _
      (stack_animating.windows.getD 0 window_zero) (by norm_num) h1 rfl
  exact ⟨_, _, w', h1, hw', fun c => hdist c (hall (by norm_num) c)⟩

/-- C18 (conditional contraction). For an animator step
`v' = v + (t - v) * dt * rate` with `0 <= rate * dt < 1`, in exact arithmetic:
`t - v' = (1 - rate * dt) * (t - v)`; `v'` lies between `v` and `t`; the
distance to the target strictly decreases when `rate * dt > 0` and `v ≠ t`; and
`v = t` is a fixed point. The rates of `render_window` are 10, 20 and 30, so the
condition holds for every channel whenever the clamped delta is below 1/30. -/
theorem animate_contraction (v t rate dt : ℚ) (h0 : 0 ≤ rate * dt) (h1 : rate * dt < 1) :
    t - animate v t dt rate = (1 - rate * dt) * (t - v) ∧
      (min v t ≤ animate v t dt rate ∧ animate v t dt rate ≤ max v t) ∧
      (0 < rate * dt → v ≠ t → |t - animate v t dt rate| < |t - v|) ∧
      animate t t dt rate = t ∧
      (∀ c, channel_rate c = 10 ∨ channel_rate c = 20 ∨ channel_rate c = 30) ∧
      (∀ (c : channel_t) (delta : ℚ), 0 ≤ delta → clamp_delta delta < 1 / 30 →
        0 ≤ channel_rate c * clamp_delta delta ∧ channel_rate c * clamp_delta delta < 1) := by
  have he := animate_error v t dt rate
  refine ⟨he, ?_, ?_, ?_, channel_rate_values, ?_⟩
  · have hv : animate v t dt rate = v + rate * dt * (t - v) := by unfold animate; ring
    rcases le_total v t with hvt | hvt
    · rw [min_eq_left hvt, max_eq_right hvt]
      constructor
      · rw [hv]; nlinarith [mul_nonneg h0 (sub_nonneg.mpr hvt)]
      · have : 0 ≤ (1 - rate * dt) * (t - v) :=
          mul_nonneg (by linarith) (sub_nonneg.mpr hvt)
        linarith
    · rw [min_eq_right hvt, max_eq_left hvt]
      constructor
      · have : (1 - rate * dt) * (t - v) ≤ 0 :=
          mul_nonpos_of_nonneg_of_nonpos (by linarith) (sub_nonpos.mpr hvt)
        linarith
      · rw [hv]; nlinarith [mul_nonneg h0 (sub_nonneg.mpr hvt)]
  · intro hpos hne
    rw [he, abs_mul]
    have h2 : |1 - rate * dt| < 1 := by
      rw [abs_lt]; constructor <;> linarith
    have h3 : 0 < |t - v| := abs_pos.mpr (sub_ne_zero.mpr (Ne.symm hne))
    calc |1 - rate * dt| * |t - v| < 1 * |t - v| := mul_lt_mul_of_pos_right h2 h3
      _ = |t - v| := one_mul _
  · unfold animate; ring
  · intro c delta hd hcl
    obtain ⟨hc0, _⟩ := clamp_delta_bounds delta hd
    rcases channel_rate_values c with hr | hr | hr <;> rw [hr] <;> constructor <;> linarith

/-- Witness of C18: a step from 0 toward 1 with rate 10 and delta 1/20. -/
theorem animate_contraction_witness :
    (1 : ℚ) - animate 0 1 (1 / 20) 10 = (1 - 10 * (1 / 20)) * (1 - 0) ∧
      (min 0 1 ≤ animate 0 1 (1 / 20) 10 ∧ animate 0 1 (1 / 20) 10 ≤ max 0 1) ∧
      |1 - animate 0 1 (1 / 20) 10| < |(1 : ℚ) - 0| :=
  have h := animate_contraction 0 1 10 (1 / 20) (by norm_num) (by norm_num)
  ⟨h.1, h.2.1, h.2.2.1 (by norm_num) (by norm_num)⟩
/-! ## The drag action and click forwarding -/

theorem focus_window_action (wm wm' : my_wm_t) (i : Nat) (internally : Int)
    (h : focus_window wm i internally = some wm') : wm'.action = wm.action := by
  unfold focus_window at h
  split at h
  · cases h
  · simp only [Option.some.injEq] at h
    subst h
    split <;> rfl

theorem unfocus_loop_action (wm wm' : my_wm_t) :
    ∀ k : Nat, unfocus_loop wm k = some wm' → wm'.action = wm.action := by
  intro k
  induction k with
  | zero => intro h; simp only [unfocus_loop, Option.some.injEq] at h; subst h; rfl
  | succ k ih =>
    intro h
    rw [unfocus_loop] at h
    split at h
    · split at h
      · cases h
      · split at h
        · exact focus_window_action wm wm' k 1 h
        · exact ih h
    · exact ih h

theorem unfocus_window_action (wm wm' : my_wm_t) (h : unfocus_window wm = some wm') :
    wm'.action = wm.action := by
  unfold unfocus_window at h
  simp only at h
  split at h
  · simp only [Option.some.injEq] at h; subst h; rfl
  · exact unfocus_loop_action wm wm' _ h

theorem modify_event_action (wm wm' : my_wm_t) (internal_id : Nat) (visible : Int)
    (x y width height : ℚ)
    (h : modify_event wm internal_id visible x y width height = some wm') :
    wm'.action = wm.action := by
  unfold modify_event at h
  simp only at h
  split at h
  · cases h
  · split at h
    · have ha := focus_window_action _ _ _ _ h
      exact ha
    · split at h
      · have ha := unfocus_window_action _ _ h
        exact ha
      · simp only [Option.some.injEq] at h; subst h; rfl

theorem maximize_window_action (wm wm' : my_wm_t) (window_id : Nat) (single_monitor : Int)
    (h : maximize_window wm window_id single_monitor = some wm') : wm'.action = wm.action := by
  unfold maximize_window at h
  split at h
  · cases h
  · split at h
    · cases h; rfl
    · simp only at h
      split at h
      · split at h
        · cases h
        · cases h; rfl
        · cases h; rfl
      · cases h; rfl

theorem keyboard_event_action (wm wm' : my_wm_t) (internal_id press modifiers key : Nat)
    (h : keyboard_event wm internal_id press modifiers key = some wm') :
    wm'.action = wm.action := by
  unfold keyboard_event at h
  simp only [Option.bind_eq_bind] at h
  have h1 : (if press ≠ 0 ∧ modifiers &&& 0x40 ≠ 0 ∧ key = 67 then
      ({ wm with running := 0 } : my_wm_t) else wm).action = wm.action := by
    split <;> rfl
  generalize (if press ≠ 0 ∧ modifiers &&& 0x40 ≠ 0 ∧ key = 67 then
    ({ wm with running := 0 } : my_wm_t) else wm) = wm1 at h h1
  rw [Option.bind_eq_some] at h
  obtain ⟨wm2, h2, h⟩ := h
  have a2 : wm2.action = wm1.action := by
    split at h2
    · split at h2
      · cases h2
      · cases h2; rfl
    · cases h2; rfl
  rw [Option.bind_eq_some] at h
  obtain ⟨wm3, h3, h⟩ := h
  have a3 : wm3.action = wm2.action := by
    split at h3
    · have ha := maximize_window_action _ _ _ _ h3
      exact ha
    · cases h3; rfl
  rw [Option.bind_eq_some] at h
  obtain ⟨wm4, h4, h⟩ := h
  have a4 : wm4.action = wm3.action := by
    split at h4
    · have ha := maximize_window_action _ _ _ _ h4
      exact ha
    · cases h4; rfl
  split at h
  · cases h
  · cases h
    have : (if press ≠ 0 ∧ modifiers &&& 0x40 ≠ 0 ∧ key = 55 then
        ({ wm4 with cwm := { vsync := if wm4.cwm.vsync = 0 then 1 else 0 } } : my_wm_t)
        else wm4).action = wm4.action := by
      split <;> rfl
    rw [this, a4, a3, a2, h1]

theorem move_event_action (wm wm' : my_wm_t) (internal_id modifiers : Nat) (x y : ℚ)
    (h : move_event wm internal_id modifiers x y = some wm') : wm'.action = wm.action := by
  unfold move_event at h
  split at h
  · split at h
    · cases h
    · split at h
      · split at h
        · cases h; rfl
        · split at h
          · cases h; rfl
          · cases h; rfl
      · cases h; rfl
  · cases h; rfl

theorem destroy_event_action (wm wm' : my_wm_t) (internal_id : Nat)
    (h : destroy_event wm internal_id = some wm') : wm'.action = wm.action := by
  unfold destroy_event at h
  simp only at h
  split at h
  · cases h
  · cases h; rfl

theorem create_event_action (wm : my_wm_t) (internal_id vao vbo ibo : Nat) :
    (create_event wm internal_id vao vbo ibo).action = wm.action := by
  unfold create_event
  split <;> rfl

/-- The last statements of `click_event` leave the action alone or start a
move or a resize. -/
theorem click_event_tail_action (wm1 wm' : my_wm_t) (press modifiers button : Nat) (r : Int)
    (h : click_event_tail wm1 press modifiers button = some (wm', r)) :
    wm'.action = wm1.action ∨ wm'.action = action_t.ACTION_MOVE ∨
      wm'.action = action_t.ACTION_RESIZE := by
  unfold click_event_tail at h
  split at h
  · simp only at h
    split at h
    · cases h
    · simp only [Option.some.injEq, Prod.mk.injEq] at h
      obtain ⟨h1, _⟩ := h
      subst h1
      by_cases hb1 : button = 1
      · right; left; simp [hb1]
      · by_cases hb3 : button = 3
        · right; right; simp [hb1, hb3]
        · left; simp [hb1, hb3]
  · cases h; left; rfl

theorem click_event_press_action (wm wm' : my_wm_t) (internal_id press modifiers button : Nat)
    (x y : ℚ) (r : Int) (hp : press ≠ 0)
    (h : click_event wm internal_id press modifiers button x y = some (wm', r)) :
    wm'.action = wm.action ∨ wm'.action = action_t.ACTION_MOVE ∨
      wm'.action = action_t.ACTION_RESIZE := by
  unfold click_event at h
  rw [if_pos hp] at h
  split at h
  · cases h; left; rfl
  · simp only at h
    split at h
    · cases h
    · rename_i wm1 hfocus
      split at h
      · cases h
      · have ha := focus_window_action _ _ _ _ hfocus
        rcases click_event_tail_action _ wm' press modifiers button r h with h1 | h1 | h1
        · left; rw [h1]; exact ha
        · right; left; exact h1
        · right; right; exact h1

/-- C19 (a drag ends only on release). While `action` is `ACTION_MOVE` or
`ACTION_RESIZE`: a call of `keyboard_event`, `move_event`, `create_event`,
`modify_event`, `destroy_event`, or of `click_event` with `press != 0`, that
returns leaves `action` different from `ACTION_NONE`; a call of `click_event`
with `press = 0` that returns has set `action` to `ACTION_NONE` (and returned
0), and it does return when `focused_window_id` designates a slot of the
array. -/
theorem drag_ends_only_on_release (wm : my_wm_t) (hact : wm.action ≠ action_t.ACTION_NONE) :
    (∀ (e : event_t) (wm' : my_wm_t),
      (∀ (internal_id press modifiers button : Nat) (x y : ℚ),
        e = event_t.click internal_id press modifiers button x y → press ≠ 0) →
      handle_event wm e = some wm' → wm'.action ≠ action_t.ACTION_NONE) ∧
    (∀ (internal_id modifiers button : Nat) (x y : ℚ) (wm' : my_wm_t) (r : Int),
      click_event wm internal_id 0 modifiers button x y = some (wm', r) →
      wm'.action = action_t.ACTION_NONE ∧ r = 0) ∧
    (∀ (internal_id modifiers button : Nat) (x y : ℚ) (w : window_t),
      wm.windows[wm.focused_window_id]? = some w →
      ∃ wm' r, click_event wm internal_id 0 modifiers button x y = some (wm', r)) := by
  refine ⟨?_, ?_, ?_⟩
  · intro e wm' hpress hstep
    cases e with
    | create internal_id vao vbo ibo =>
      simp only [handle_event, Option.some.injEq] at hstep
      subst hstep
      rw [create_event_action]; exact hact
    | modify internal_id visible x y width height =>
      rw [modify_event_action wm wm' internal_id visible x y width height hstep]; exact hact
    | destroy internal_id =>
      rw [destroy_event_action wm wm' internal_id hstep]; exact hact
    | click internal_id press modifiers button x y =>
      have hp := hpress internal_id press modifiers button x y rfl
      simp only [handle_event, Option.map_eq_some'] at hstep
      obtain ⟨⟨wm1, r⟩, h1, h2⟩ := hstep
      simp only at h2
      subst h2
      rcases click_event_press_action wm wm1 internal_id press modifiers button x y r hp h1
        with h | h | h
      · rw [h]; exact hact
      · rw [h]; decide
      · rw [h]; decide
    | move internal_id modifiers x y =>
      rw [move_event_action wm wm' internal_id modifiers x y hstep]; exact hact
    | keyboard internal_id press modifiers key =>
      rw [keyboard_event_action wm wm' internal_id press modifiers key hstep]; exact hact
  · intro internal_id modifiers button x y wm' r h
    unfold click_event at h
    rw [if_neg (by decide), if_pos hact] at h
    split at h
    · cases h
    · simp only [Option.some.injEq, Prod.mk.injEq] at h
      obtain ⟨h1, h2⟩ := h
      subst h1
      exact ⟨rfl, h2.symm⟩
  · intro internal_id modifiers button x y w hw
    unfold click_event
    rw [if_neg (by decide), if_pos hact]
    simp only [hw]
    exact ⟨_, _, rfl⟩

/-- Witness of C19: the stack A, B, C in the middle of a move; the release
ends the move. -/
theorem drag_ends_only_on_release_witness :
    ∃ wm' r, click_event stack_dragging 2 0 0 1 0 0 = some (wm', r) ∧
      wm'.action = action_t.ACTION_NONE ∧ r = 0 := by
  have h := drag_ends_only_on_release stack_dragging (by decide)
  obtain ⟨wm', r, hr⟩ := h.2.2 2 0 1 0 0 (example_window 2 0 1) rfl
  exact ⟨wm', r, hr, h.2.1 2 0 1 0 0 wm' r hr⟩

/-- C20 (click forwarding). When `click_event` returns, its result is 1 or 0,
and it is 1 exactly when the event is a press on a known window (id not -1)
without the Super modifier, or a release while no action is in progress. It is
0 for a press with id -1, for every press with the Super modifier, and for the
release that ends an action. -/
theorem click_event_forwarding (wm wm' : my_wm_t) (internal_id press modifiers button : Nat)
    (x y : ℚ) (r : Int)
    (h : click_event wm internal_id press modifiers button x y = some (wm', r)) :
    (r = 1 ∨ r = 0) ∧
    (r = 1 ↔ (press ≠ 0 ∧ internal_id ≠ UINT_MAX ∧ modifiers &&& Mod4Mask = 0) ∨
      (press = 0 ∧ wm.action = action_t.ACTION_NONE)) ∧
    (press ≠ 0 → internal_id = UINT_MAX → r = 0) ∧
    (press ≠ 0 → modifiers &&& Mod4Mask ≠ 0 → r = 0) ∧
    (press = 0 → wm.action ≠ action_t.ACTION_NONE → r = 0) := by
  -- the result of the last statements
  have htail : ∀ (wm1 : my_wm_t), click_event_tail wm1 press modifiers button = some (wm', r) →
      (modifiers &&& Mod4Mask ≠ 0 ∧ press ≠ 0 ∧ r = 0) ∨
        (¬ (modifiers &&& Mod4Mask ≠ 0 ∧ press ≠ 0) ∧ r = 1) := by
    intro wm1 ht
    unfold click_event_tail at ht
    split at ht
    · rename_i hc
      simp only at ht
      split at ht
      · cases ht
      · simp only [Option.some.injEq, Prod.mk.injEq] at ht
        exact Or.inl ⟨hc.1, hc.2, ht.2.symm⟩
    · rename_i hc
      simp only [Option.some.injEq, Prod.mk.injEq] at ht
      exact Or.inr ⟨hc, ht.2.symm⟩
  unfold click_event at h
  by_cases hp : press ≠ 0
  · rw [if_pos hp] at h
    by_cases hid : internal_id = UINT_MAX
    · rw [if_pos hid] at h
      simp only [Option.some.injEq, Prod.mk.injEq] at h
      obtain ⟨_, hr⟩ := h
      subst hr
      refine ⟨Or.inr rfl, ?_, fun _ _ => rfl, fun _ _ => rfl, fun _ _ => rfl⟩
      constructor
      · intro h1; exact absurd h1 (by decide)
      · rintro (⟨_, h2, _⟩ | ⟨h2, _⟩)
        · exact absurd hid h2
        · exact absurd h2 hp
    · rw [if_neg hid] at h
      simp only at h
      split at h
      · cases h
      · split at h
        · cases h
        · rcases htail _ h with ⟨hm, _, hr⟩ | ⟨hm, hr⟩
          · subst hr
            refine ⟨Or.inr rfl, ?_, fun _ _ => rfl, fun _ _ => rfl, fun _ _ => rfl⟩
            constructor
            · intro h1; exact absurd h1 (by decide)
            · rintro (⟨_, _, h3⟩ | ⟨h2, _⟩)
              · exact absurd h3 hm
              · exact absurd h2 hp
          · subst hr
            have hm0 : modifiers &&& Mod4Mask = 0 := by
              by_contra hne
              exact hm ⟨hne, hp⟩
            refine ⟨Or.inl rfl, ?_, fun _ h2 => absurd h2 hid, fun _ h2 => absurd hm0 h2,
              fun h2 _ => absurd h2 hp⟩
            constructor
            · intro _; exact Or.inl ⟨hp, hid, hm0⟩
            · intro _; rfl
  · rw [if_neg hp] at h
    have hp0 : press = 0 := by
      by_contra hne
      exact hp hne
    by_cases hact : wm.action ≠ action_t.ACTION_NONE
    · rw [if_pos hact] at h
      split at h
      · cases h
      · simp only [Option.some.injEq, Prod.mk.injEq] at h
        obtain ⟨_, hr⟩ := h
        subst hr
        refine ⟨Or.inr rfl, ?_, fun _ _ => rfl, fun _ _ => rfl, fun _ _ => rfl⟩
        constructor
        · intro h1; exact absurd h1 (by decide)
        · rintro (⟨h2, _⟩ | ⟨_, h2⟩)
          · exact absurd hp0 h2
          · exact absurd h2 hact
    · rw [if_neg hact] at h
      have hnone : wm.action = action_t.ACTION_NONE := by
        by_contra hne
        exact hact hne
      rcases htail _ h with ⟨_, hp1, _⟩ | ⟨_, hr⟩
      · exact absurd hp0 hp1
      · subst hr
        refine ⟨Or.inl rfl, ?_, fun h2 => absurd hp0 h2, fun h2 => absurd hp0 h2,
          fun _ h2 => absurd hnone h2⟩
        constructor
        · intro _; exact Or.inr ⟨hp0, hnone⟩
        · intro _; rfl

/-- Witness of C20: a plain press of button 1 on A in the stack A, B, C is
forwarded. -/
theorem click_event_forwarding_witness :
    ∃ wm' r, click_event stack_abc 0 1 0 1 0 0 = some (wm', r) ∧ r = 1 := by
  have h1 : click_event stack_abc 0 1 0 1 0 0 = some (_, _) := rfl
  have h := click_event_forwarding stack_abc _ 0 1 0 1 0 0 _ h1
  exact ⟨_, _, h1, h.2.1.mpr (Or.inl ⟨by decide, by decide, by decide⟩)⟩
/-! ## C24: `focus_window` only permutes the record array -/

theorem without_farness_refarness (i k : Nat) (w : window_t) :
    without_farness (refarness i k w) = without_farness w := by
  unfold refarness
  split <;> rfl

theorem focus_prestep_without_farness (ws : List window_t) (i : Nat) :
    (focus_prestep ws i).map without_farness = ws.map without_farness := by
  apply List.ext_getElem?
  intro k
  rw [List.getElem?_map, List.getElem?_map, focus_prestep_getElem?_eq]
  cases ws[k]? with
  | none => rfl
  | some w => simp [without_farness_refarness]

/-- C24 (focus only permutes the registry). For every state and every slot
`i` of the record array, `focus_window` returns, leaves `window_count` as it was, and
the array after the call is a permutation of the array before it in which every
record keeps all its fields except `farness`: with the farness put aside the two
arrays hold the same records. -/
theorem focus_window_only_permutes (wm : my_wm_t) (i : Nat) (internally : Int)
    (hi : i < wm.window_count) :
    ∃ wm', focus_window wm i internally = some wm' ∧
      wm'.window_count = wm.window_count ∧
      (wm'.windows.map without_farness).Perm (wm.windows.map without_farness) := by
  have hget : wm.windows[i]? = some (wm.windows.get ⟨i, hi⟩) := List.getElem?_eq_getElem hi
  obtain ⟨wm', h1, hp, _⟩ := focus_window_total wm i internally _ hget
  refine ⟨wm', h1, ?_, ?_⟩
  · unfold my_wm_t.window_count
    rw [hp.length_eq, focus_prestep_length]
  · have := hp.map without_farness
    rwa [focus_prestep_without_farness] at this

/-- Witness of C24: focusing the first slot of the stack A, B, C. -/
theorem focus_window_only_permutes_witness :
    ∃ wm', focus_window stack_abc 0 0 = some wm' ∧
      wm'.window_count = stack_abc.window_count ∧
      (wm'.windows.map without_farness).Perm (stack_abc.windows.map without_farness) :=
  focus_window_only_permutes stack_abc 0 0 (by decide)

/-! ## C25, C26: the coordinate mappers -/

theorem c_round_intCast (n : Int) : c_round (n : ℚ) = n := by
  unfold c_round
  split
  · rw [Int.floor_eq_iff]
    constructor <;> linarith
  · have : ⌊-(n : ℚ) + 1 / 2⌋ = -n := by
      rw [Int.floor_eq_iff]
      push_cast
      constructor <;> linarith
    rw [this]; ring

/-- C25 (coordinate mapper round trip). For a screen of positive width and
height and every integer pixel value `p`, with exact arithmetic, each of the four
mappers from normalized values to pixels undoes the mapper from pixels to
normalized values: width dimension, height dimension, x coordinate and y
coordinate all give `p` back. -/
theorem coordinate_mappers_round_trip (wm : wm_t) (p : Int)
    (hw : 0 < wm.width) (hh : 0 < wm.height) :
    wm_float_to_width_dimension wm (wm_width_dimension_to_float wm p) = p ∧
    wm_float_to_height_dimension wm (wm_height_dimension_to_float wm p) = p ∧
    wm_float_to_x_coordinate wm (wm_x_coordinate_to_float wm p) = p ∧
    wm_float_to_y_coordinate wm (wm_y_coordinate_to_float wm p) = p := by
  have hW : (wm.width : ℚ) ≠ 0 := by
    have : (0 : ℚ) < (wm.width : ℚ) := by exact_mod_cast hw
    linarith
  have hH : (wm.height : ℚ) ≠ 0 := by
    have : (0 : ℚ) < (wm.height : ℚ) := by exact_mod_cast hh
    linarith
  have e1 : (p : ℚ) / (wm.width : ℚ) * 2 / 2 * (wm.width : ℚ) = (p : ℚ) := by field_simp; ring
  have e2 : (p : ℚ) / (wm.height : ℚ) * 2 / 2 * (wm.height : ℚ) = (p : ℚ) := by field_simp; ring
  have e3 : ((p : ℚ) / (wm.width : ℚ) * 2 - 1 + 1) / 2 * (wm.width : ℚ) = (p : ℚ) := by
    field_simp; ring
  have e4 : (-(-((p : ℚ) / (wm.height : ℚ) * 2) + 1) + 1) / 2 * (wm.height : ℚ) = (p : ℚ) := by
    field_simp; ring
  unfold wm_float_to_x_coordinate wm_float_to_y_coordinate wm_float_to_width_dimension
    wm_float_to_height_dimension wm_x_coordinate_to_float wm_y_coordinate_to_float
    wm_width_dimension_to_float wm_height_dimension_to_float
  rw [e1, e2, e3, e4, c_round_intCast]
  exact ⟨rfl, rfl, rfl, rfl⟩

/-- Witness of C25: the pixel value -3 on the 1920 x 1080 screen. -/
theorem coordinate_mappers_round_trip_witness :
    wm_float_to_width_dimension example_wm_t (wm_width_dimension_to_float example_wm_t (-3)) = -3 ∧
    wm_float_to_height_dimension example_wm_t
      (wm_height_dimension_to_float example_wm_t (-3)) = -3 ∧
    wm_float_to_x_coordinate example_wm_t (wm_x_coordinate_to_float example_wm_t (-3)) = -3 ∧
    wm_float_to_y_coordinate example_wm_t (wm_y_coordinate_to_float example_wm_t (-3)) = -3 :=
  coordinate_mappers_round_trip example_wm_t (-3) (by decide) (by decide)

/-- The counting loop of `wm_update_client_list` adds up the `exists` flags. -/
theorem existing_window_count_loop (ws : List wm_window_t) :
    ∀ (n i : Nat) (c : Int), i + n = ws.length →
      forLoop (fun i c => c + ((ws[i]?).map (fun w => w.exists_)).getD 0) n i c =
        c + ((ws.drop i).map (fun w => w.exists_)).sum := by
  intro n
  induction n with
  | zero =>
    intro i c h
    have : ws.drop i = [] := List.drop_eq_nil_of_le (by omega)
    simp [forLoop, this]
  | succ n ih =>
    intro i c h
    have hi : i < ws.length := by omega
    rw [forLoop, ih (i + 1) _ (by omega), List.drop_eq_getElem_cons hi,
      List.getElem?_eq_getElem hi]
    simp only [Option.map_some', Option.getD_some, List.map_cons, List.sum_cons]
    ring

/-- The flags being 0 or 1, their sum is the number of existing records. -/
theorem exists_sum_eq_count (ws : List wm_window_t)
    (h01 : ∀ w, w ∈ ws → w.exists_ = 0 ∨ w.exists_ = 1) :
    (ws.map (fun w => w.exists_)).sum =
      ((ws.filter (fun w => decide (w.exists_ ≠ 0))).length : Int) := by
  induction ws with
  | nil => rfl
  | cons w rest ih =>
    have ih1 := ih (fun v hv => h01 v (List.mem_cons_of_mem _ hv))
    rcases h01 w (List.mem_cons_self _ _) with h | h
    · simp [List.filter_cons, h, ih1]
    · simp [List.filter_cons, h, ih1]
      ring

/-- The copy loop of `wm_update_client_list` takes the handles of the first `n` slots. -/
theorem client_list_copy (ws : List wm_window_t) :
    ∀ n : Nat, n ≤ ws.length →
      (List.range n).mapM (fun i => (ws[i]?).map (fun w => w.window)) =
        some ((ws.take n).map (fun w => w.window)) := by
  intro n
  induction n with
  | zero => intro _; rfl
  | succ n ih =>
    intro h
    have hn : n < ws.length := by omega
    have hs : List.mapM (fun i => (ws[i]?).map (fun w => w.window)) [n] =
        some [(ws.get ⟨n, hn⟩).window] := by
      rw [List.mapM_cons, List.mapM_nil]
      simp only [List.getElem?_eq_getElem hn]
      rfl
    rw [List.range_succ, List.mapM_append, ih (by omega), List.take_succ,
      List.getElem?_eq_getElem hn, hs, List.map_append]
    rfl

/-- The run of `example_destroyed_first` ends in a registry with the slots of
`example_tombstone_first`, and the list published last is `[7]`, the handle of the
destroyed window, while the one existing record has the handle 9. -/
theorem example_destroyed_first_publishes :
    example_destroyed_first.map (fun wm => wm.windows) = some example_tombstone_first.windows ∧
    example_destroyed_first.map (fun wm => (existing_handles wm, tombstone_handles wm,
      wm.client_list)) = some ([9], [7], [7]) := by
  constructor <;> rfl

/-- C27 (client list contents), as the code has it. On a registry whose
`exists` flags are 0 or 1, `wm_update_client_list` returns and publishes the handles of the
first `n` slots of the registry, `n` being the number of existing records: not the
handles of the existing records. (The two agree when no tombstone comes before
an existing record.) -/
theorem wm_update_client_list_publishes_first_slots (wm : wm_t)
    (h01 : ∀ w, w ∈ wm.windows → w.exists_ = 0 ∨ w.exists_ = 1) :
    wm_update_client_list wm =
      some { wm with
        client_list := (wm.windows.take (existing_handles wm).length).map (fun w => w.window) } := by
  unfold wm_update_client_list existing_handles
  have hsum := existing_window_count_loop wm.windows wm.windows.length 0 0 (by omega)
  rw [List.drop_zero, exists_sum_eq_count wm.windows h01, zero_add] at hsum
  simp only [hsum, Int.toNat_ofNat, List.length_map]
  rw [client_list_copy wm.windows _ (List.length_filter_le _ _)]
  rfl

/-- Witness of C27 as the code has it, and the input on which the claim
fails: for the registry `example_tombstone_first` (tombstone with handle 7, then the
existing record with handle 9) the published list is `[7]`, and the handles of
existing records are `[9]`. -/
theorem wm_update_client_list_publishes_first_slots_witness :
    (wm_update_client_list example_tombstone_first).map (fun wm => wm.client_list) = some [7] ∧
    existing_handles example_tombstone_first = [9] ∧
    tombstone_handles example_tombstone_first = [7] := by
  refine ⟨?_, rfl, rfl⟩
  rw [wm_update_client_list_publishes_first_slots example_tombstone_first (by decide)]
  rfl

/-! ## C28, C23: the press that grabs a window, and the moves after it -/

/-- The press of `click_event` on an existing window with the Super modifier:
the call returns 0, the focused record is the target made translucent, the grab
offset is the position of the target minus the pointer, and the action is the
one the button selects. -/
theorem click_event_super_press (wm : my_wm_t) (k : Nat) (target : window_t)
    (press modifiers button : Nat) (x y : ℚ)
    (hk : wm.windows[k]? = some target) (he : target.exists_ ≠ 0)
    (hu : id_unique wm.windows target.internal_id) (hid : target.internal_id ≠ UINT_MAX)
    (hn : wm.windows.length < 2 ^ 31) (hp : press ≠ 0) (hm : modifiers &&& Mod4Mask ≠ 0) :
    ∃ wm1, click_event wm target.internal_id press modifiers button x y = some (wm1, 0) ∧
      wm1.windows[wm1.focused_window_id]? = some (grabbed target) ∧
      wm1.focused_window_x = target.x - x ∧ wm1.focused_window_y = target.y - y ∧
      wm1.action = (if button = 1 then action_t.ACTION_MOVE
        else if button = 3 then action_t.ACTION_RESIZE else wm.action) := by
  have hkl : k < wm.windows.length := (List.getElem?_eq_some_iff.mp hk).1
  have hidx : window_internal_id_to_index wm target.internal_id = k :=
    window_internal_id_to_index_unique wm.windows k target hk he hu
  obtain ⟨wm1, hf, hws, hlen, hperm, hlt, hget, hact1⟩ :=
    focus_window_spec wm k 1 target hk he hu
  have hlt1 : wm1.focused_window_id < wm1.windows.length := by rw [hlen]; exact hlt
  unfold click_event
  rw [if_pos hp, if_neg hid]
  simp only [hidx, to_int_of_lt k (by omega), to_unsigned_natCast k (by omega), hf, hget]
  unfold click_event_tail
  rw [if_pos ⟨hm, hp⟩]
  by_cases hb1 : button = 1
  · simp only [if_pos hb1, hget]
    refine ⟨_, rfl, ?_, rfl, rfl, rfl⟩
    simp only [List.getElem?_set_self hlt1]
    rfl
  · by_cases hb3 : button = 3
    · simp only [if_neg hb1, if_pos hb3, hget]
      refine ⟨_, rfl, ?_, rfl, rfl, rfl⟩
      simp only [List.getElem?_set_self hlt1]
      rfl
    · simp only [if_neg hb1, if_neg hb3, hget]
      refine ⟨_, rfl, ?_, rfl, rfl, hact1⟩
      simp only [List.getElem?_set_self hlt1]
      rfl

/-- A release while no action is in progress returns 1 and changes nothing. -/
theorem click_event_idle_release (wm : my_wm_t) (hact : wm.action = action_t.ACTION_NONE)
    (internal_id modifiers button : Nat) (x y : ℚ) :
    click_event wm internal_id 0 modifiers button x y = some (wm, 1) := by
  unfold click_event
  rw [if_neg (by decide), if_neg (by rw [hact]; decide)]
  unfold click_event_tail
  rw [if_neg (fun hc => hc.2 rfl)]

/-- C28 (translucency without a drag). A press with the Super modifier on a
known window with a button other than 1 and 3, while no action is in progress,
returns 0, leaves the action at `ACTION_NONE` and sets the opacity target of the
focused window to 0.9. Every release after it (no action being in progress)
returns 1 and leaves the state as it is, so the opacity target stays 0.9. -/
theorem click_event_translucent_without_drag (wm : my_wm_t) (k : Nat) (target : window_t)
    (press modifiers button : Nat) (x y : ℚ)
    (hk : wm.windows[k]? = some target) (he : target.exists_ ≠ 0)
    (hu : id_unique wm.windows target.internal_id) (hid : target.internal_id ≠ UINT_MAX)
    (hn : wm.windows.length < 2 ^ 31) (hp : press ≠ 0) (hm : modifiers &&& Mod4Mask ≠ 0)
    (hb1 : button ≠ 1) (hb3 : button ≠ 3) (hact : wm.action = action_t.ACTION_NONE) :
    ∃ wm1 focused, click_event wm target.internal_id press modifiers button x y = some (wm1, 0) ∧
      wm1.action = action_t.ACTION_NONE ∧
      wm1.windows[wm1.focused_window_id]? = some focused ∧ focused.opacity = 9 / 10 ∧
      focused.internal_id = target.internal_id ∧
      ∀ (internal_id modifiers1 button1 : Nat) (x1 y1 : ℚ),
        click_event wm1 internal_id 0 modifiers1 button1 x1 y1 = some (wm1, 1) := by
  obtain ⟨wm1, h1, hget, _, _, ha⟩ :=
    click_event_super_press wm k target press modifiers button x y hk he hu hid hn hp hm
  rw [if_neg hb1, if_neg hb3, hact] at ha
  exact ⟨wm1, grabbed target, h1, ha, hget, rfl, rfl,
    fun internal_id modifiers1 button1 x1 y1 =>
      click_event_idle_release wm1 ha internal_id modifiers1 button1 x1 y1⟩

/-- Witness of C28: Super and the middle button on window C of the stack A,
B, C. -/
theorem click_event_translucent_without_drag_witness :
    ∃ wm1 focused, click_event stack_abc 2 1 64 2 0 0 = some (wm1, 0) ∧
      wm1.action = action_t.ACTION_NONE ∧
      wm1.windows[wm1.focused_window_id]? = some focused ∧ focused.opacity = 9 / 10 ∧
      focused.internal_id = 2 ∧
      ∀ (internal_id modifiers1 button1 : Nat) (x1 y1 : ℚ),
        click_event wm1 internal_id 0 modifiers1 button1 x1 y1 = some (wm1, 1) :=
  click_event_translucent_without_drag stack_abc 2 (example_window 2 0 1) 1 64 2 0 0
    rfl (by decide) (by decide) (by decide) (by decide) (by decide) (by decide) (by decide)
    (by decide) rfl

/-- One `move_event` during a move of a record that is not maximized: the focused
record gets the pointer position plus the grab offset, and the move goes on. -/
theorem move_event_dragging (base : window_t) (fx fy : ℚ) (wm : my_wm_t)
    (hmax : base.maximized = 0) (hd : dragging base fx fy wm)
    (internal_id modifiers : Nat) (x y : ℚ) :
    ∃ wm', move_event wm internal_id modifiers x y = some wm' ∧ dragging base fx fy wm' ∧
      wm'.windows[wm'.focused_window_id]? = some { base with x := x + fx, y := y + fy } := by
  obtain ⟨ha, hx, hy, px, py, hget⟩ := hd
  have hlt : wm.focused_window_id < wm.windows.length := (List.getElem?_eq_some_iff.mp hget).1
  unfold move_event
  rw [if_pos (by rw [ha]; decide)]
  simp only [hget]
  rw [if_pos hmax, if_pos ha]
  refine ⟨_, rfl, ⟨ha, hx, hy, x + fx, y + fy, ?_⟩, ?_⟩
  · simp only [List.getElem?_set_self hlt, hx, hy]
  · simp only [List.getElem?_set_self hlt, hx, hy]

/-- A run of `move_event` calls during a move keeps the move going. -/
theorem move_events_dragging (base : window_t) (fx fy : ℚ) (hmax : base.maximized = 0)
    (moves : List (Nat × Nat × ℚ × ℚ)) :
    ∀ wm : my_wm_t, dragging base fx fy wm →
      ∃ wm', move_events wm moves = some wm' ∧ dragging base fx fy wm' := by
  induction moves with
  | nil => intro wm hd; exact ⟨wm, rfl, hd⟩
  | cons m ms ih =>
    intro wm hd
    obtain ⟨wm1, h1, hd1, _⟩ := move_event_dragging base fx fy wm hmax hd m.1 m.2.1 m.2.2.1 m.2.2.2
    obtain ⟨wm2, h2, hd2⟩ := ih wm1 hd1
    exact ⟨wm2, by simp only [move_events, h1, Option.some_bind, h2], hd2⟩

theorem move_events_append (moves1 moves2 : List (Nat × Nat × ℚ × ℚ)) :
    ∀ wm : my_wm_t, move_events wm (moves1 ++ moves2) =
      (move_events wm moves1).bind fun wm1 => move_events wm1 moves2 := by
  induction moves1 with
  | nil => intro wm; rfl
  | cons m ms ih =>
    intro wm
    simp only [List.cons_append, move_events]
    cases move_event wm m.1 m.2.1 m.2.2.1 m.2.2.2 with
    | none => rfl
    | some wm1 => exact ih wm1

/-- C23 (drag follows the pointer). After a press at `(x0, y0)` with the
Super modifier and button 1 on a known window that is not maximized and has the
logical position `(wx, wy)`, the press returns 0 and starts `ACTION_MOVE`; every
`move_event` after it, at `(x, y)` and after any number of earlier moves, returns and
leaves the focused record as the pressed window with the logical position
`(wx + (x - x0), wy + (y - y0))` in exact arithmetic, its width, height and other
fields (up to farness 0 and the opacity target 0.9 of the press) unchanged; the
`internal_id` and `modifiers` arguments of the moves do not enter the result. -/
theorem move_event_follows_pointer (wm : my_wm_t) (k : Nat) (target : window_t)
    (press modifiers : Nat) (x0 y0 : ℚ)
    (hk : wm.windows[k]? = some target) (he : target.exists_ ≠ 0)
    (hu : id_unique wm.windows target.internal_id) (hid : target.internal_id ≠ UINT_MAX)
    (hn : wm.windows.length < 2 ^ 31) (hp : press ≠ 0) (hm : modifiers &&& Mod4Mask ≠ 0)
    (hmax : target.maximized = 0) :
    ∃ wm1, click_event wm target.internal_id press modifiers 1 x0 y0 = some (wm1, 0) ∧
      wm1.action = action_t.ACTION_MOVE ∧
      ∀ (moves : List (Nat × Nat × ℚ × ℚ)) (internal_id modifiers1 : Nat) (x y : ℚ),
        ∃ wm2, move_events wm1 (moves ++ [(internal_id, modifiers1, x, y)]) = some wm2 ∧
          wm2.action = action_t.ACTION_MOVE ∧
          wm2.windows[wm2.focused_window_id]? =
            some { grabbed target with
              x := target.x + (x - x0), y := target.y + (y - y0) } := by
  obtain ⟨wm1, h1, hget, hx, hy, ha⟩ :=
    click_event_super_press wm k target press modifiers 1 x0 y0 hk he hu hid hn hp hm
  rw [if_pos rfl] at ha
  refine ⟨wm1, h1, ha, ?_⟩
  intro moves internal_id modifiers1 x y
  have hd : dragging (grabbed target) (target.x - x0) (target.y - y0) wm1 :=
    ⟨ha, hx, hy, target.x, target.y, hget⟩
  obtain ⟨wm2, h2, hd2⟩ := move_events_dragging (grabbed target) (target.x - x0) (target.y - y0)
    hmax moves wm1 hd
  obtain ⟨wm3, h3, hd3, hget3⟩ := move_event_dragging (grabbed target) (target.x - x0)
    (target.y - y0) wm2 hmax hd2 internal_id modifiers1 x y
  refine ⟨wm3, ?_, hd3.1, ?_⟩
  · rw [move_events_append, h2]
    simp only [Option.some_bind, move_events, h3]
  · rw [hget3]
    have ex : x + (target.x - x0) = target.x + (x - x0) := by ring
    have ey : y + (target.y - y0) = target.y + (y - y0) := by ring
    rw [ex, ey]

/-- Witness of C23: grabbing window C of the stack A, B, C at (1/4, 1/4) and
moving the pointer to (1/2, 0). -/
theorem move_event_follows_pointer_witness :
    ∃ wm1, click_event stack_abc 2 1 64 1 (1 / 4) (1 / 4) = some (wm1, 0) ∧
      wm1.action = action_t.ACTION_MOVE ∧
      ∀ (moves : List (Nat × Nat × ℚ × ℚ)) (internal_id modifiers1 : Nat) (x y : ℚ),
        ∃ wm2, move_events wm1 (moves ++ [(internal_id, modifiers1, x, y)]) = some wm2 ∧
          wm2.action = action_t.ACTION_MOVE ∧
          wm2.windows[wm2.focused_window_id]? =
            some { grabbed (example_window 2 0 1) with
              x := (example_window 2 0 1).x + (x - 1 / 4),
              y := (example_window 2 0 1).y + (y - 1 / 4) } :=
  move_event_follows_pointer stack_abc 2 (example_window 2 0 1) 1 64 (1 / 4) (1 / 4)
    rfl (by decide) (by decide) (by decide) (by decide) (by decide) (by decide) rfl

/-! ## C21, C22: the texture backing and the buffers of a window -/

/-- The registry after `cwm_modify_event` on slot `i`, whatever the slot held before: the
record of the slot has a compositor struct without pixmap. -/
theorem cwm_modify_event_eq (wm : wm_t) (glx : List glx_call) (i : Nat) (window : wm_window_t)
    (hi : wm.windows[i]? = some window) :
    cwm_modify_event wm glx i =
      some ({ wm with windows := wm.windows.set i { window with internal := some { pixmap := 0 } } },
        if pixmap_of window = 0 then glx
        else glx_call.glXDestroyPixmap (pixmap_of window) :: glx) := by
  unfold cwm_modify_event cwm_get_window_internal pixmap_of
  simp only [hi]
  cases hint : window.internal with
  | none => simp
  | some window_internal =>
    simp only
    by_cases hp : window_internal.pixmap = 0
    · have hwi : window_internal = { pixmap := 0 } := by
        cases window_internal; simp only at hp; rw [hp]
      have hsame : { window with internal := some ({ pixmap := 0 } : cwm_window_internal_t) }
          = window := by
        cases window; simp only at hint; rw [hint, hwi]
      simp [hp, hsame]
    · simp [hp]

/-- C21 (backing invalidation is idempotent). For every slot `i` of the
registry, `cwm_modify_event` returns; when the record has no backing (pixmap 0) it makes
no request and leaves every backing of the registry as it was; when the record
has a backing it makes one `glXDestroyPixmap` request, for that pixmap, and in both
cases the pixmap of the record is 0 afterwards. A second `cwm_modify_event` makes no
request and changes nothing, so invalidating twice is invalidating once. The
next `cwm_bind_window_texture` on the record, when it exists and is visible, finds no
backing: it names the window pixmap, creates a new GLX pixmap, stores the handle
that `glXCreatePixmap` returns and binds that handle. -/
theorem cwm_modify_event_idempotent (wm : wm_t) (glx : List glx_call) (i : Nat)
    (window : wm_window_t) (hi : wm.windows[i]? = some window) :
    ∃ wm1,
      cwm_modify_event wm glx i =
        some (wm1, if pixmap_of window = 0 then glx
          else glx_call.glXDestroyPixmap (pixmap_of window) :: glx) ∧
      wm1 = { wm with
        windows := wm.windows.set i { window with internal := some { pixmap := 0 } } } ∧
      (wm1.windows[i]?).map pixmap_of = some 0 ∧
      (pixmap_of window = 0 → wm1.windows.map pixmap_of = wm.windows.map pixmap_of) ∧
      (∀ glx1 : List glx_call, cwm_modify_event wm1 glx1 i = some (wm1, glx1)) ∧
      (∀ (vsync : Int) (glx1 : List glx_call) (x_pixmap pixmap : Nat),
        window.exists_ ≠ 0 → window.visible ≠ 0 →
        cwm_bind_window_texture vsync wm1 glx1 i x_pixmap pixmap =
          some ({ wm with
              windows := wm.windows.set i { window with internal := some { pixmap := pixmap } } },
            glx_call.glXBindTexImageEXT pixmap :: glx_call.XFreePixmap x_pixmap ::
              glx_call.glXCreatePixmap x_pixmap pixmap ::
              glx_call.XCompositeNameWindowPixmap window.window ::
              (if vsync = 0 then glx_call.XGrabServer :: glx1 else glx1))) := by
  have hil : i < wm.windows.length := (List.getElem?_eq_some_iff.mp hi).1
  have hget1 : (wm.windows.set i { window with internal := some { pixmap := 0 } })[i]? =
      some { window with internal := some { pixmap := 0 } } := List.getElem?_set_self hil
  refine ⟨_, cwm_modify_event_eq wm glx i window hi, rfl, ?_, ?_, ?_, ?_⟩
  · simp only [hget1]
    rfl
  · intro hp
    apply List.ext_getElem?
    intro k
    rw [List.getElem?_map, List.getElem?_map]
    by_cases hk : i = k
    · subst hk
      simp only [hget1, hi, Option.map_some']
      rw [hp]; rfl
    · simp only [List.getElem?_set_ne hk]
  · intro glx1
    rw [cwm_modify_event_eq _ glx1 i _ hget1]
    simp only [List.set_set]
    rfl
  · intro vsync glx1 x_pixmap pixmap he hv
    unfold cwm_bind_window_texture cwm_get_window_internal
    simp only [hget1, List.set_set]
    rw [if_neg he, if_neg hv, if_pos True.intro]

/-- Witness of C21: the one window of `example_registry` with the pixmap 5. -/
theorem cwm_modify_event_idempotent_witness :
    ∃ wm1,
      cwm_modify_event (example_registry (some { pixmap := 5 })) [] 0 =
        some (wm1, [glx_call.glXDestroyPixmap 5]) ∧
      (wm1.windows[0]?).map pixmap_of = some 0 ∧
      cwm_modify_event wm1 [glx_call.glXDestroyPixmap 5] 0 =
        some (wm1, [glx_call.glXDestroyPixmap 5]) := by
  obtain ⟨wm1, h1, _, h3, _, h5, _⟩ :=
    cwm_modify_event_idempotent (example_registry (some { pixmap := 5 })) [] 0
      { example_wm_window 0 0 640 480 with internal := some { pixmap := 5 } } rfl
  exact ⟨wm1, h1, h3, h5 _⟩

end XCompositingWM
